import Mathlib

/-!
# A dense row-major matrix container (`matrix.h` / `matrix.cpp`)

Shallow embedding of the class template `Matrix<T>`.

* `std::vector<T>` is a `List T`; the buffer `array_` is a `List (List T)`.
* The cached `int height_` and `int width_` are `Int` fields (sizes are assumed
  to stay below `2^31`, so the counters never overflow).
* A call either returns or fails: `std::invalid_argument`, `std::out_of_range`
  and `std::length_error` are the thrown exceptions, and `Error.Undefined`
  marks an access outside a vector (undefined behaviour in C++).
* The element type `T` is a parameter, with the operations the template uses.
-/

namespace MatrixCpp

/-- The ways a call can fail. -/
inductive Error where
  | InvalidArgument
  | OutOfRange
  | LengthError
  | Undefined
  deriving DecidableEq, Repr

/-- The class `Matrix<T>`: the row buffer and the two cached dimensions. -/
structure Matrix (T : Type) where
  array_ : List (List T)
  height_ : Int
  width_ : Int
  deriving DecidableEq, Repr

variable {T : Type}

/-! ## Control flow -/

/-- The loop `for (i = start; i < start + n; ++i) body(i)`: the first argument
after the body is the number of iterations left, the second the current index.
A failing iteration ends the loop with that failure. -/
def forLoop {σ : Type} (body : Nat → σ → Except Error σ) : Nat → Nat → σ → Except Error σ
  | 0, _, s => .ok s
  | n + 1, i, s =>
    match body i s with
    | .error e => .error e
    | .ok s' => forLoop body n (i + 1) s'

/-- Outcome of a loop body that may `return` from the enclosing function. -/
inductive Flow (ρ σ : Type) where
  | next (s : σ)
  | ret (r : ρ)

/-- A counted loop whose body may return early with a value. -/
def forLoopR {ρ σ : Type} (body : Nat → σ → Except Error (Flow ρ σ)) :
    Nat → Nat → σ → Except Error (Flow ρ σ)
  | 0, _, s => .ok (.next s)
  | n + 1, i, s =>
    match body i s with
    | .error e => .error e
    | .ok (.ret r) => .ok (.ret r)
    | .ok (.next s') => forLoopR body n (i + 1) s'

/-- Conversion of an `int` to `size_t` (64 bits), as the usual arithmetic
conversions do when an `int` meets a `size_t`. -/
def sizeT (x : Int) : Nat :=
  if 0 ≤ x then x.toNat else (x + 2 ^ 64).toNat

/-! ## `std::vector` primitives -/

/-- Read `v[i]`; undefined outside the vector. -/
def vecAt {α : Type} (v : List α) (i : Nat) : Except Error α :=
  match v[i]? with
  | some x => .ok x
  | none => .error .Undefined

/-- Read `array_[i][j]`. -/
def read2 (arr : List (List T)) (i j : Nat) : Except Error T :=
  match arr[i]? with
  | some row => vecAt row j
  | none => .error .Undefined

/-- Write `array_[i][j] = v`. -/
def write2 (arr : List (List T)) (i j : Nat) (v : T) : Except Error (List (List T)) :=
  match arr[i]? with
  | some row => if j < row.length then .ok (arr.set i (row.set j v)) else .error .Undefined
  | none => .error .Undefined

/-- The call `v.insert(v.begin() + index, x)`; the iterator must lie in `[begin, end]`. -/
def vecInsert {α : Type} (v : List α) (index : Int) (x : α) : Except Error (List α) :=
  if 0 ≤ index ∧ index ≤ v.length then
    .ok (v.take index.toNat ++ x :: v.drop index.toNat)
  else .error .Undefined

/-- The call `v.erase(v.begin() + index)`; the iterator must point at an element. -/
def vecErase {α : Type} (v : List α) (index : Int) : Except Error (List α) :=
  if 0 ≤ index ∧ index < v.length then .ok (v.eraseIdx index.toNat)
  else .error .Undefined

/-- The call `v.pop_back()`; undefined on an empty vector. -/
def vecPopBack {α : Type} (v : List α) : Except Error (List α) :=
  if v.length = 0 then .error .Undefined else .ok v.dropLast

/-- The call `v.push_back(x)`. -/
def vecPushBack {α : Type} (v : List α) (x : α) : List α :=
  v ++ [x]

/-! ## Constructors -/

/-- The constructor `Matrix()`. -/
def Matrix.empty : Matrix T :=
  { array_ := [], height_ := 0, width_ := 0 }

/-- The constructor `Matrix(int rows, int cols)`: `rows` value-initialised rows of
`cols` elements. A negative count converts to a `size_t` above `max_size()`
and the vector throws `std::length_error`. -/
def Matrix.sized [Zero T] (rows cols : Int) : Except Error (Matrix T) :=
  if cols < 0 then .error .LengthError
  else if rows < 0 then .error .LengthError
  else .ok { array_ := List.replicate rows.toNat (List.replicate cols.toNat 0)
             height_ := rows
             width_ := cols }

/-- The constructor `Matrix(int rows, int cols, T defaultValue)`. -/
def Matrix.filled (rows cols : Int) (defaultValue : T) : Except Error (Matrix T) :=
  if cols < 0 then .error .LengthError
  else if rows < 0 then .error .LengthError
  else .ok { array_ := List.replicate rows.toNat (List.replicate cols.toNat defaultValue)
             height_ := rows
             width_ := cols }

/-- The constructor `Matrix(const std::vector<std::vector<T>>&)`. -/
def Matrix.ofRows (array_ : List (List T)) : Matrix T :=
  { array_ := array_
    height_ := array_.length
    width_ := match array_ with
      | [] => 0
      | row :: _ => row.length }

/-- The getter `getHeight()`. -/
def Matrix.getHeight (self : Matrix T) : Int := self.height_

/-- The getter `getWidth()`. -/
def Matrix.getWidth (self : Matrix T) : Int := self.width_

/-- The unchecked accessor `operator()(int h, int w)`, also `get(h, w)`. -/
def Matrix.get (self : Matrix T) (h w : Int) : Except Error T :=
  if 0 ≤ h ∧ 0 ≤ w then read2 self.array_ h.toNat w.toNat else .error .Undefined

/-! ## The data-model invariant -/

/-- Every row has exactly `width_` elements and `height_` is the number of rows. -/
def Matrix.WF (m : Matrix T) : Prop :=
  m.height_ = m.array_.length ∧ 0 ≤ m.width_ ∧ ∀ row ∈ m.array_, (row.length : Int) = m.width_

instance (m : Matrix T) : Decidable m.WF := by
  unfold Matrix.WF; infer_instance

/-- An `h x w` matrix: the invariant holds with the given dimensions. -/
def Matrix.HasShape (m : Matrix T) (h w : Nat) : Prop :=
  m.height_ = h ∧ m.width_ = w ∧ m.array_.length = h ∧ ∀ row ∈ m.array_, row.length = w

instance (m : Matrix T) (h w : Nat) : Decidable (m.HasShape h w) := by
  unfold Matrix.HasShape; infer_instance

/-! ## Linear algebra -/

/-- The method `dot`: the matrix product by three nested loops. The accumulator
`w` is declared before the loops and reset after each store. -/
def Matrix.dot [Add T] [Mul T] [Zero T] (self m : Matrix T) : Except Error (Matrix T) :=
  if self.width_ ≠ m.height_ then .error .InvalidArgument
  else do
    let w : T := 0
    let mwidth_ := m.width_
    let result ← (Matrix.sized self.height_ mwidth_ : Except Error (Matrix T))
    let st ← forLoop (fun i st =>
      forLoop (fun j (st : List (List T) × T) => do
        let w ← forLoop (fun h w => do
          let a ← read2 self.array_ i h
          let b ← read2 m.array_ h j
          pure (w + a * b)) self.width_.toNat 0 st.2
        let arr ← write2 st.1 i j w
        pure (arr, 0)) mwidth_.toNat 0 st) self.height_.toNat 0 (result.array_, w)
    pure { result with array_ := st.1 }

/-- The method `transpose`. -/
def Matrix.transpose [Zero T] (self : Matrix T) : Except Error (Matrix T) := do
  let result ← (Matrix.sized self.width_ self.height_ : Except Error (Matrix T))
  let arr ← forLoop (fun i arr =>
    forLoop (fun j arr => do
      let v ← read2 self.array_ j i
      write2 arr i j v) self.height_.toNat 0 arr) self.width_.toNat 0 result.array_
  pure { result with array_ := arr }

/-- The operator `==`: `false` on a shape mismatch, otherwise an elementwise
comparison that returns `false` at the first difference. -/
def Matrix.operator_eq [DecidableEq T] (self m : Matrix T) : Except Error Bool :=
  if self.height_ = m.height_ ∧ self.width_ = m.width_ then
    match forLoopR (fun i (_ : Unit) =>
      forLoopR (fun j (_ : Unit) => do
        let a ← read2 self.array_ i j
        let b ← read2 m.array_ i j
        if a ≠ b then pure (Flow.ret false) else pure (Flow.next ()))
        self.width_.toNat 0 ()) self.height_.toNat 0 () with
    | .error e => .error e
    | .ok (.ret r) => .ok r
    | .ok (.next _) => .ok true
  else .ok false

/-- The operator `!=`. -/
def Matrix.operator_ne [DecidableEq T] (self m : Matrix T) : Except Error Bool := do
  let r ← self.operator_eq m
  pure (!r)

/-- The single-index accessor `operator()(int h)`, also `get(h)`: the whole row,
a negative index counting from the end. -/
def Matrix.getRow (self : Matrix T) (h : Int) : Except Error (List T) :=
  let h := if h < 0 then h + self.height_ else h
  if 0 ≤ h then vecAt self.array_ h.toNat else .error .Undefined

/-! ## Shape mutation

A mutating method returns the receiver after the call, or the exception thrown
together with the receiver as it was when the exception left the method. (After
`Error.Undefined` the reported receiver carries no meaning.) -/

/-- Outcome of a mutating method. -/
abbrev Outcome (T : Type) := Except (Error × Matrix T) (Matrix T)

/-- The method `insert(index, newData, axis)`. -/
def Matrix.insert (self : Matrix T) (index : Int) (newData : List T) (axis : Int) : Outcome T :=
  if axis = 0 then
    if newData.length ≠ sizeT self.width_ ∧ self.width_ ≠ 0 then
      .error (.InvalidArgument, self)
    else if index < 0 ∨ index > self.height_ then
      .error (.OutOfRange, self)
    else
      match vecInsert self.array_ index newData with
      | .error e => .error (e, self)
      | .ok arr =>
        let s : Matrix T := { self with array_ := arr, height_ := self.height_ + 1 }
        if s.width_ = 0 then .ok { s with width_ := newData.length } else .ok s
  else if axis = 1 then
    if newData.length ≠ sizeT self.height_ then
      .error (.InvalidArgument, self)
    else if index < 0 ∨ index > self.width_ then
      .error (.OutOfRange, self)
    else
      match forLoop (fun i arr => do
        let row ← vecAt arr i
        let x ← vecAt newData i
        let row' ← vecInsert row index x
        pure (arr.set i row')) (sizeT self.height_) 0 self.array_ with
      | .error e => .error (e, self)
      | .ok arr => .ok { self with array_ := arr, width_ := self.width_ + 1 }
  else .error (.InvalidArgument, self)

/-- The method `erase(index, axis)`. -/
def Matrix.erase (self : Matrix T) (index : Int) (axis : Int) : Outcome T :=
  if axis = 0 then
    if index < 0 ∨ index ≥ self.height_ then
      .error (.OutOfRange, self)
    else
      match vecErase self.array_ index with
      | .error e => .error (e, self)
      | .ok arr => .ok { self with array_ := arr, height_ := self.height_ - 1 }
  else if axis = 1 then
    if index < 0 ∨ index ≥ self.width_ then
      .error (.OutOfRange, self)
    else
      match forLoop (fun i arr => do
        let row ← vecAt arr i
        let row' ← vecErase row index
        pure (arr.set i row')) (sizeT self.height_) 0 self.array_ with
      | .error e => .error (e, self)
      | .ok arr => .ok { self with array_ := arr, width_ := self.width_ - 1 }
  else .error (.InvalidArgument, self)

/-- The method `push_back(newData, axis)`. -/
def Matrix.push_back (self : Matrix T) (newData : List T) (axis : Int) : Outcome T :=
  if axis = 0 then
    if newData.length ≠ sizeT self.width_ ∧ self.width_ ≠ 0 then
      .error (.InvalidArgument, self)
    else
      let s : Matrix T :=
        { self with array_ := vecPushBack self.array_ newData, height_ := self.height_ + 1 }
      if s.width_ = 0 then .ok { s with width_ := newData.length } else .ok s
  else if axis = 1 then
    if newData.length ≠ sizeT self.height_ then
      .error (.InvalidArgument, self)
    else
      match forLoop (fun i arr => do
        let row ← vecAt arr i
        let x ← vecAt newData i
        pure (arr.set i (vecPushBack row x))) (sizeT self.height_) 0 self.array_ with
      | .error e => .error (e, self)
      | .ok arr => .ok { self with array_ := arr, width_ := self.width_ + 1 }
  else .error (.InvalidArgument, self)

/-- The method `pop_back(axis)`. -/
def Matrix.pop_back (self : Matrix T) (axis : Int) : Outcome T :=
  if axis = 0 then
    if self.height_ = 0 then
      .error (.OutOfRange, self)
    else
      match vecPopBack self.array_ with
      | .error e => .error (e, self)
      | .ok arr => .ok { self with array_ := arr, height_ := self.height_ - 1 }
  else if axis = 1 then
    if self.width_ = 0 then
      .error (.OutOfRange, self)
    else
      match forLoop (fun i arr => do
        let row ← vecAt arr i
        let row' ← vecPopBack row
        pure (arr.set i row')) (sizeT self.height_) 0 self.array_ with
      | .error e => .error (e, self)
      | .ok arr => .ok { self with array_ := arr, width_ := self.width_ - 1 }
  else .error (.InvalidArgument, self)

/-- The method `put(h, w, value)`: the bounds-checked write. -/
def Matrix.put (self : Matrix T) (h w : Int) (value : T) : Outcome T :=
  if ¬ (h ≥ 0 ∧ h < self.height_ ∧ w ≥ 0 ∧ w < self.width_) then
    .error (.InvalidArgument, self)
  else
    match write2 self.array_ h.toNat w.toNat value with
    | .error e => .error (e, self)
    | .ok arr => .ok { self with array_ := arr }

/-- The method `fill(value)`: `std::fill` over every row. -/
def Matrix.fill (self : Matrix T) (value : T) : Matrix T :=
  { self with array_ := self.array_.map fun row => List.replicate row.length value }

/-- The method `clear()`. -/
def Matrix.clear (_self : Matrix T) : Matrix T :=
  { array_ := [], height_ := 0, width_ := 0 }

/-- The method `resize(rows, cols)`: a fresh value-initialised buffer (its constructor
throws `std::length_error` on a negative count), the overlapping top-left cells copied. -/
def Matrix.resize [Zero T] (self : Matrix T) (rows cols : Int) : Outcome T :=
  if cols < 0 then .error (.LengthError, self)
  else if rows < 0 then .error (.LengthError, self)
  else
    let newarray_ : List (List T) := List.replicate rows.toNat (List.replicate cols.toNat 0)
    match forLoop (fun i arr =>
      forLoop (fun j arr => do
        let v ← read2 self.array_ i j
        write2 arr i j v) (min cols self.width_).toNat 0 arr)
      (min rows self.height_).toNat 0 newarray_ with
    | .error e => .error (e, self)
    | .ok arr => .ok { array_ := arr, height_ := rows, width_ := cols }

/-- The value an `int` holds when the exact result of an operation is `x`: the result
wraps around in 32 bits, to the range `[-2^31, 2^31)`. -/
def wrapInt (x : Int) : Int := (x + 2147483648) % 4294967296 - 2147483648

/-- The method `subMat(startH, startW, h, w)`. The sums `startH+h` and `startW+w` are
`int` additions, in the guard and in the loop bounds `i < startH+h`, `j < startW+w`. -/
def Matrix.subMat [Zero T] (self : Matrix T) (startH startW h w : Int) :
    Except Error (Matrix T) :=
  if ¬ (startH ≥ 0 ∧ wrapInt (startH + h) ≤ self.height_ ∧ startW ≥ 0 ∧
      wrapInt (startW + w) ≤ self.width_) then
    .error .InvalidArgument
  else do
    let result ← (Matrix.sized h w : Except Error (Matrix T))
    let arr ← forLoop (fun i arr =>
      forLoop (fun j arr => do
        let v ← read2 self.array_ i j
        write2 arr (i - startH.toNat) (j - startW.toNat) v)
        (wrapInt (startW + w) - startW).toNat startW.toNat arr)
      (wrapInt (startH + h) - startH).toNat startH.toNat result.array_
    pure { result with array_ := arr }

/-! ## Elementwise arithmetic -/

/-- The element type's `operator/`. It is a partial operation: where C++ leaves the
quotient undefined the result is `Error.Undefined`. -/
class NativeDiv (T : Type) where
  div : T → T → Except Error T

/-- Division of `int` operands held as the integers they denote: truncation towards
zero; undefined (the division traps) for a zero divisor and for `INT_MIN / -1`, whose
quotient `2^31` is not an `int`. -/
instance : NativeDiv Int where
  div a b :=
    if b = 0 then .error .Undefined
    else if a = -2147483648 ∧ b = -1 then .error .Undefined
    else .ok (Int.tdiv a b)

/-- The element type `int` with its arithmetic: a 32-bit two's-complement integer, held as
the integer in `[-2^31, 2^31)` that it denotes. -/
structure CInt where
  val : Int
  lo : -2147483648 ≤ val
  hi : val < 2147483648
  deriving DecidableEq

/-- The `int` that the exact result `x` of an operation becomes. -/
def CInt.ofInt (x : Int) : CInt :=
  ⟨wrapInt x, by unfold wrapInt; omega, by unfold wrapInt; omega⟩

instance : Zero CInt := ⟨CInt.ofInt 0⟩

/-- The `operator+` of `int`: the sum wraps around. -/
instance : Add CInt := ⟨fun a b => CInt.ofInt (a.val + b.val)⟩

/-- The `operator-` of `int`: the difference wraps around. -/
instance : Sub CInt := ⟨fun a b => CInt.ofInt (a.val - b.val)⟩

/-- The `operator*` of `int`: the product wraps around. -/
instance : Mul CInt := ⟨fun a b => CInt.ofInt (a.val * b.val)⟩

/-- The `operator/` of `int`: truncation towards zero; undefined (the division traps) for
a zero divisor and for `INT_MIN / -1`, whose quotient `2^31` is not an `int`. -/
instance : NativeDiv CInt where
  div a b :=
    if b.val = 0 then .error .Undefined
    else if a.val = -2147483648 ∧ b.val = -1 then .error .Undefined
    else .ok (CInt.ofInt (Int.tdiv a.val b.val))

/-- Common body of `add`, `subtract`, `multiply(const Matrix&)` and `divide(const Matrix&)`,
which differ in the operator only: the shape guard, `Matrix result(height_, width_)`, and
`result.array_[i][j] = array_[i][j] op m.array_[i][j]` in two nested loops. -/
def Matrix.zipCells [Zero T] (op : T → T → Except Error T) (self m : Matrix T) :
    Except Error (Matrix T) :=
  if ¬ (self.height_ = m.height_ ∧ self.width_ = m.width_) then .error .InvalidArgument
  else do
    let result ← (Matrix.sized self.height_ self.width_ : Except Error (Matrix T))
    let arr ← forLoop (fun i arr =>
      forLoop (fun j arr => do
        let a ← read2 self.array_ i j
        let b ← read2 m.array_ i j
        let c ← op a b
        write2 arr i j c) self.width_.toNat 0 arr) self.height_.toNat 0 result.array_
    pure { result with array_ := arr }

/-- The method `add`. -/
def Matrix.add [Add T] [Zero T] (self m : Matrix T) : Except Error (Matrix T) :=
  self.zipCells (fun a b => .ok (a + b)) m

/-- The method `subtract`. -/
def Matrix.subtract [Sub T] [Zero T] (self m : Matrix T) : Except Error (Matrix T) :=
  self.zipCells (fun a b => .ok (a - b)) m

/-- The method `multiply(const Matrix&)`: the elementwise product. -/
def Matrix.multiply [Mul T] [Zero T] (self m : Matrix T) : Except Error (Matrix T) :=
  self.zipCells (fun a b => .ok (a * b)) m

/-- The method `divide(const Matrix&)`. -/
def Matrix.divide [NativeDiv T] [Zero T] (self m : Matrix T) : Except Error (Matrix T) :=
  self.zipCells NativeDiv.div m

/-- Common body of `multiply(const std::vector<T>&)` and `divide(const std::vector<T>&)`:
the guard `width_ != v.size()`, `Matrix result(height_, width_)`, and
`result.array_[i][j] = array_[i][j] op v[j]`. -/
def Matrix.broadcastCells [Zero T] (op : T → T → Except Error T) (self : Matrix T)
    (v : List T) : Except Error (Matrix T) :=
  if sizeT self.width_ ≠ v.length then .error .InvalidArgument
  else do
    let result ← (Matrix.sized self.height_ self.width_ : Except Error (Matrix T))
    let arr ← forLoop (fun i arr =>
      forLoop (fun j arr => do
        let a ← read2 self.array_ i j
        let b ← vecAt v j
        let c ← op a b
        write2 arr i j c) self.width_.toNat 0 arr) self.height_.toNat 0 result.array_
    pure { result with array_ := arr }

/-- The method `multiply(const std::vector<T>&)`. -/
def Matrix.multiplyVector [Mul T] [Zero T] (self : Matrix T) (v : List T) :
    Except Error (Matrix T) :=
  self.broadcastCells (fun a b => .ok (a * b)) v

/-- The method `divide(const std::vector<T>&)`. -/
def Matrix.divideVector [NativeDiv T] [Zero T] (self : Matrix T) (v : List T) :
    Except Error (Matrix T) :=
  self.broadcastCells NativeDiv.div v

/-- Common body of `multiply(const T&)` and `divide(const T&)`: `Matrix result(array_)`
(the constructor from rows, which takes the shape from the rows), then
`result.array_[i][j] op= value` for `i < height_`, `j < width_`. -/
def Matrix.mapCells (op : T → Except Error T) (self : Matrix T) : Except Error (Matrix T) := do
  let result : Matrix T := Matrix.ofRows self.array_
  let arr ← forLoop (fun i arr =>
    forLoop (fun j arr => do
      let a ← read2 arr i j
      let c ← op a
      write2 arr i j c) self.width_.toNat 0 arr) self.height_.toNat 0 result.array_
  pure { result with array_ := arr }

/-- The method `multiply(const T&)`. -/
def Matrix.multiplyScalar [Mul T] (self : Matrix T) (value : T) : Except Error (Matrix T) :=
  self.mapCells fun a => .ok (a * value)

/-- The method `divide(const T&)`. -/
def Matrix.divideScalar [NativeDiv T] (self : Matrix T) (value : T) : Except Error (Matrix T) :=
  self.mapCells fun a => NativeDiv.div a value

/-! ## Compound assignment -/

/-- Common body of `operator+=`, `-=`, `*=`, `/=` with a matrix operand: the shape guard
(written `!=` or `||` in two of them and as a negated conjunction in the other two), then
`array_[i][j] op= m.array_[i][j]`. -/
def Matrix.zipCellsAssign (op : T → T → Except Error T) (self m : Matrix T) : Outcome T :=
  if self.height_ ≠ m.height_ ∨ self.width_ ≠ m.width_ then .error (.InvalidArgument, self)
  else
    match forLoop (fun i arr =>
      forLoop (fun j arr => do
        let a ← read2 arr i j
        let b ← read2 m.array_ i j
        let c ← op a b
        write2 arr i j c) self.width_.toNat 0 arr) self.height_.toNat 0 self.array_ with
    | .error e => .error (e, self)
    | .ok arr => .ok { self with array_ := arr }

/-- The operator `+=`. -/
def Matrix.operator_add_assign [Add T] (self m : Matrix T) : Outcome T :=
  self.zipCellsAssign (fun a b => .ok (a + b)) m

/-- The operator `-=`. -/
def Matrix.operator_sub_assign [Sub T] (self m : Matrix T) : Outcome T :=
  self.zipCellsAssign (fun a b => .ok (a - b)) m

/-- The operator `*=` with a matrix operand. -/
def Matrix.operator_mul_assign [Mul T] (self m : Matrix T) : Outcome T :=
  self.zipCellsAssign (fun a b => .ok (a * b)) m

/-- The operator `/=` with a matrix operand. -/
def Matrix.operator_div_assign [NativeDiv T] (self m : Matrix T) : Outcome T :=
  self.zipCellsAssign NativeDiv.div m

/-- Common body of `operator*=` and `operator/=` with a vector operand. -/
def Matrix.broadcastCellsAssign (op : T → T → Except Error T) (self : Matrix T) (v : List T) :
    Outcome T :=
  if sizeT self.width_ ≠ v.length then .error (.InvalidArgument, self)
  else
    match forLoop (fun i arr =>
      forLoop (fun j arr => do
        let a ← read2 arr i j
        let b ← vecAt v j
        let c ← op a b
        write2 arr i j c) self.width_.toNat 0 arr) self.height_.toNat 0 self.array_ with
    | .error e => .error (e, self)
    | .ok arr => .ok { self with array_ := arr }

/-- The operator `*=` with a vector operand. -/
def Matrix.operator_mul_assign_vector [Mul T] (self : Matrix T) (v : List T) : Outcome T :=
  self.broadcastCellsAssign (fun a b => .ok (a * b)) v

/-- The operator `/=` with a vector operand. -/
def Matrix.operator_div_assign_vector [NativeDiv T] (self : Matrix T) (v : List T) : Outcome T :=
  self.broadcastCellsAssign NativeDiv.div v

/-- Common body of `operator*=` and `operator/=` with a scalar operand: no guard. -/
def Matrix.mapCellsAssign (op : T → Except Error T) (self : Matrix T) : Outcome T :=
  match forLoop (fun i arr =>
    forLoop (fun j arr => do
      let a ← read2 arr i j
      let c ← op a
      write2 arr i j c) self.width_.toNat 0 arr) self.height_.toNat 0 self.array_ with
  | .error e => .error (e, self)
  | .ok arr => .ok { self with array_ := arr }

/-- The operator `*=` with a scalar operand. -/
def Matrix.operator_mul_assign_scalar [Mul T] (self : Matrix T) (s : T) : Outcome T :=
  self.mapCellsAssign fun a => .ok (a * s)

/-- The operator `/=` with a scalar operand. -/
def Matrix.operator_div_assign_scalar [NativeDiv T] (self : Matrix T) (s : T) : Outcome T :=
  self.mapCellsAssign fun a => NativeDiv.div a s

/-! ## Reductions -/

/-- The range-based loop `for (const auto& x : v) body(x)`. -/
def forEach {α σ : Type} (body : α → σ → Except Error σ) : List α → σ → Except Error σ
  | [], s => .ok s
  | x :: rest, s =>
    match body x s with
    | .error e => .error e
    | .ok s' => forEach body rest s'

/-- The value `*std::max_element(row.begin(), row.end())`: the first greatest element by
`operator<`; on an empty row the end iterator is dereferenced. -/
def maxElement [LT T] [DecidableRel ((· < ·) : T → T → Prop)] : List T → Except Error T
  | [] => .error .Undefined
  | x :: rest => .ok (rest.foldl (fun largest y => if largest < y then y else largest) x)

/-- The value `*std::min_element(row.begin(), row.end())`. -/
def minElement [LT T] [DecidableRel ((· < ·) : T → T → Prop)] : List T → Except Error T
  | [] => .error .Undefined
  | x :: rest => .ok (rest.foldl (fun smallest y => if y < smallest then y else smallest) x)

/-- The method `max(axis)`: no branch for an axis other than 0 and 1. -/
def Matrix.max_axis [LT T] [DecidableRel ((· < ·) : T → T → Prop)] (self : Matrix T)
    (axis : Int) : Except Error (List T) :=
  let maxElements : List T := []
  if axis = 0 then
    forEach (fun row maxElements => do
      let m ← maxElement row
      pure (vecPushBack maxElements m)) self.array_ maxElements
  else if axis = 1 then
    forLoop (fun j maxElements => do
      let colMax ← read2 self.array_ 0 j
      let colMax ← forLoop (fun i colMax => do
        let a ← read2 self.array_ i j
        if colMax < a then pure a else pure colMax) self.height_.toNat 0 colMax
      pure (vecPushBack maxElements colMax)) self.width_.toNat 0 maxElements
  else .ok maxElements

/-- The method `min(axis)`. -/
def Matrix.min_axis [LT T] [DecidableRel ((· < ·) : T → T → Prop)] (self : Matrix T)
    (axis : Int) : Except Error (List T) :=
  let minElements : List T := []
  if axis = 0 then
    forEach (fun row minElements => do
      let m ← minElement row
      pure (vecPushBack minElements m)) self.array_ minElements
  else if axis = 1 then
    forLoop (fun j minElements => do
      let colMin ← read2 self.array_ 0 j
      let colMin ← forLoop (fun i colMin => do
        let a ← read2 self.array_ i j
        if a < colMin then pure a else pure colMin) self.height_.toNat 0 colMin
      pure (vecPushBack minElements colMin)) self.width_.toNat 0 minElements
  else .ok minElements

/-- The method `sum(axis)`: `std::vector<T> result(n, 0)` throws `std::length_error` on a
negative count. -/
def Matrix.sum_axis [Add T] [Zero T] (self : Matrix T) (axis : Int) : Except Error (List T) :=
  if axis = 0 then
    if self.height_ < 0 then .error .LengthError
    else
      forLoop (fun i result =>
        forLoop (fun j (result : List T) => do
          let r ← vecAt result i
          let a ← read2 self.array_ i j
          pure (result.set i (r + a))) self.width_.toNat 0 result)
        self.height_.toNat 0 (List.replicate self.height_.toNat 0)
  else if axis = 1 then
    if self.width_ < 0 then .error .LengthError
    else
      forLoop (fun i result =>
        forLoop (fun j (result : List T) => do
          let r ← vecAt result i
          let a ← read2 self.array_ j i
          pure (result.set i (r + a))) self.height_.toNat 0 result)
        self.width_.toNat 0 (List.replicate self.width_.toNat 0)
  else .error .InvalidArgument

/-- The method `cumuSum(axis)`. -/
def Matrix.cumuSum [Add T] [Zero T] (self : Matrix T) (axis : Int) : Except Error (Matrix T) :=
  if axis = 0 then do
    let result ← (Matrix.sized self.height_ self.width_ : Except Error (Matrix T))
    let arr ← forLoop (fun i arr =>
      forLoop (fun j arr =>
        if i = 0 then do
          let a ← read2 self.array_ i j
          write2 arr i j a
        else do
          let a ← read2 self.array_ i j
          let b ← read2 arr (i - 1) j
          write2 arr i j (a + b)) self.width_.toNat 0 arr) self.height_.toNat 0 result.array_
    pure { result with array_ := arr }
  else if axis = 1 then do
    let result ← (Matrix.sized self.height_ self.width_ : Except Error (Matrix T))
    let arr ← forLoop (fun i arr =>
      forLoop (fun j arr =>
        if i = 0 then do
          let a ← read2 self.array_ j i
          write2 arr j i a
        else do
          let a ← read2 self.array_ j i
          let b ← read2 arr j (i - 1)
          write2 arr j i (a + b)) self.height_.toNat 0 arr) self.width_.toNat 0 result.array_
    pure { result with array_ := arr }
  else .error .InvalidArgument

/-- The method `max()`: it starts from `array_[0][0]`, unchecked. -/
def Matrix.max [LT T] [DecidableRel ((· < ·) : T → T → Prop)] (self : Matrix T) :
    Except Error T := do
  let m ← read2 self.array_ 0 0
  forLoop (fun i m =>
    forLoop (fun j m => do
      let a ← read2 self.array_ i j
      if a > m then pure a else pure m) self.width_.toNat 0 m) self.height_.toNat 0 m

/-- The method `min()`. -/
def Matrix.min [LT T] [DecidableRel ((· < ·) : T → T → Prop)] (self : Matrix T) :
    Except Error T := do
  let m ← read2 self.array_ 0 0
  forLoop (fun i m =>
    forLoop (fun j m => do
      let a ← read2 self.array_ i j
      if a < m then pure a else pure m) self.width_.toNat 0 m) self.height_.toNat 0 m

/-- The method `sum()`. -/
def Matrix.sum [Add T] [Zero T] (self : Matrix T) : Except Error T :=
  forLoop (fun i sum =>
    forLoop (fun j sum => do
      let a ← read2 self.array_ i j
      pure (sum + a)) self.width_.toNat 0 sum) self.height_.toNat 0 (0 : T)

/-! ## Assignment from rows -/

/-- The operator `=` from `const std::vector<std::vector<T>>&`: the buffer and the height
are assigned, then the width is read from `m[0]`, unchecked. -/
def Matrix.operator_assign_rows (self : Matrix T) (m : List (List T)) : Outcome T :=
  let s : Matrix T := { self with array_ := m, height_ := m.length }
  match vecAt m 0 with
  | .error e => .error (e, s)
  | .ok row => .ok { s with width_ := row.length }

/-- The operator `=` from `std::vector<std::vector<T>>&&`: the height is assigned, the
width is read from `v[0]`, unchecked, then the buffer is moved in. -/
def Matrix.operator_assign_rows_move (self : Matrix T) (v : List (List T)) : Outcome T :=
  let s : Matrix T := { self with height_ := v.length }
  match vecAt v 0 with
  | .error e => .error (e, s)
  | .ok row => .ok { s with width_ := row.length, array_ := v }

/-! ## Text rendering -/

/-- What `operator<<` writes for one element on a default-formatted stream. -/
class StreamOut (T : Type) where
  text : T → List Char

/-- An `int` is written in decimal, with a leading `-` when negative. -/
instance : StreamOut Int where
  text x := (toString x).toList

/-- The method `print(flux)`: the characters already in the stream are `flux`, the result
is the stream afterwards. The buffer `ss` is emptied at the end of every iteration. -/
def Matrix.print [StreamOut T] (self : Matrix T) (flux : List Char) :
    Except Error (List Char) :=
  if self.width_ < 0 then .error .LengthError
  else do
    let maxLength : List Int := List.replicate self.width_.toNat 0
    let ss : List Char := []
    let st ← forLoop (fun i st =>
      forLoop (fun j (st : List Int × List Char) => do
        let a ← read2 self.array_ i j
        let ss := st.2 ++ StreamOut.text a
        let l ← vecAt st.1 j
        pure (st.1.set j (Max.max l (ss.length : Int)), []))
        self.width_.toNat 0 st) self.height_.toNat 0 (maxLength, ss)
    let maxLength := st.1
    let ss := st.2
    let st ← forLoop (fun i (st : List Char × List Char) => do
      let st ← forLoop (fun j (st : List Char × List Char) => do
        let a ← read2 self.array_ i j
        let ss := st.2 ++ StreamOut.text a
        let flux := st.1 ++ StreamOut.text a
        let l ← vecAt maxLength j
        let flux ← forLoop (fun _ flux => pure (flux ++ [' ']))
          (l - (ss.length : Int) + 1).toNat 0 flux
        pure (flux, [])) self.width_.toNat 0 st
      pure (st.1 ++ ['\n'], st.2)) self.height_.toNat 0 (flux, ss)
    pure st.1

/-- Specification of `print`, in the words of its documentation: the width `L_j` of
column `j` of a matrix of `h` rows with values `e i j` is the greatest length of the
decimal text of any value in that column (0 when there is no row). -/
def printColumnWidth (e : Nat → Nat → Int) (h j : Nat) : Nat :=
  ((List.range h).map fun i => (StreamOut.text (e i j)).length).foldl max 0

/-- Specification of `print`: the first `b` cells of line `i`, each of them the decimal
text of the value followed by `L_j - len(text) + 1` spaces. -/
def printCells (e : Nat → Nat → Int) (h i b : Nat) : List Char :=
  (List.range b).flatMap fun j =>
    StreamOut.text (e i j) ++
      List.replicate (printColumnWidth e h j - (StreamOut.text (e i j)).length + 1) ' '

/-- Specification of `print`: the first `a` lines of an `h x w` matrix, each of them its
`w` cells followed by a newline. -/
def printLines (e : Nat → Nat → Int) (h w a : Nat) : List Char :=
  (List.range a).flatMap fun i => printCells e h i w ++ ['\n']

/-! ## Serialization -/

/-- Modelled from the spec: the record `protoMatrix` of the serialization schema, whose
generated header `proto/matrix.pb.h` is not among the sources: a `height`, a `width` and
`data`, a flat list of double-precision values. A double is represented by the rational
number it holds. -/
structure protoMatrix where
  height : Int
  width : Int
  data : List ℚ
  deriving DecidableEq

/-- The conversion `static_cast<double>(x)` of an integer: exact below `2^53` in absolute
value, otherwise rounded to 53 significant bits, to nearest, ties to even. -/
def castToDouble (x : Int) : ℚ :=
  let n := x.natAbs
  if n < 2 ^ 53 then (x : ℚ)
  else
    let e := Nat.log2 n - 52
    let q := n / 2 ^ e
    let r := n % 2 ^ e
    let q' := if r > 2 ^ (e - 1) ∨ (r = 2 ^ (e - 1) ∧ q % 2 = 1) then q + 1 else q
    if x < 0 then -((q' * 2 ^ e : Nat) : ℚ) else ((q' * 2 ^ e : Nat) : ℚ)

/-- The conversion `static_cast<int>(d)` of a double: truncation towards zero, undefined
when the truncated value is not a 32-bit `int`. -/
def castToInt (d : ℚ) : Except Error Int :=
  let t := Int.tdiv d.num d.den
  if -(2 : Int) ^ 31 ≤ t ∧ t < (2 : Int) ^ 31 then .ok t else .error .Undefined

/-- The function `MatrixToProto<int>(matrix, protoMat)`: `protoMat` is written in place
and returned. The access `matrix(i, j)` is `array_[i][j]`, the same as `get(i, j)`. -/
def MatrixToProto (matrix : Matrix Int) (protoMat : protoMatrix) : Except Error protoMatrix := do
  let protoMat := { protoMat with height := matrix.getHeight }
  let protoMat := { protoMat with width := matrix.getWidth }
  forLoop (fun i protoMat =>
    forLoop (fun j (protoMat : protoMatrix) => do
      let a ← matrix.get i j
      pure { protoMat with data := protoMat.data ++ [castToDouble a] })
      matrix.getWidth.toNat 0 protoMat) matrix.getHeight.toNat 0 protoMat

/-- The function `ProtoToMatrix<int>(protoMat)`. -/
def ProtoToMatrix (protoMat : protoMatrix) : Except Error (Matrix Int) := do
  let matrix ← (Matrix.sized protoMat.height protoMat.width : Except Error (Matrix Int))
  let index : Nat := 0
  let st ← forLoop (fun i st =>
    forLoop (fun j (st : Matrix Int × Nat) => do
      let d ← vecAt protoMat.data st.2
      let x ← castToInt d
      match st.1.put i j x with
      | .error (e, _) => .error e
      | .ok matrix => pure (matrix, st.2 + 1))
      protoMat.width.toNat 0 st) protoMat.height.toNat 0 (matrix, index)
  pure st.1

/-! ## Naming the contents of a buffer -/

/-- The buffer is a rectangle of `H` rows of `W` elements. -/
def Rect (arr : List (List T)) (H W : Nat) : Prop :=
  arr.length = H ∧ ∀ row ∈ arr, row.length = W

/-- The `H x W` buffer whose cell `(i, j)` holds `g i j`. -/
def table (H W : Nat) (g : Nat → Nat → T) : List (List T) :=
  (List.range H).map fun i => (List.range W).map (g i)

/-- The cell `(i, j)` of a buffer, `0` outside it (used to name the values of a rectangle). -/
def elem [Zero T] (arr : List (List T)) (i j : Nat) : T :=
  (arr.getD i []).getD j 0

/-- The value the accumulator `w` of `dot` holds after the innermost loop for cell
`(i, j)`: the products are added from `0` in the order `t = 0, 1, ..., k - 1`. -/
def dotCell [Add T] [Mul T] [Zero T] (a b : List (List T)) (k i j : Nat) : T :=
  (List.range k).foldl (fun acc t => acc + elem a i t * elem b t j) 0

/-! ## Sample runs -/

theorem run_dot : ((Matrix.filled 2 3 (1 : Int)).bind fun a => (Matrix.filled 3 2 (2 : Int)).bind fun b => a.dot b)
    = .ok { array_ := [[6, 6], [6, 6]], height_ := 2, width_ := 2 } := by rfl

theorem run_transpose : (Matrix.ofRows [[1, 2, 3], [4, 5, 6]] : Matrix Int).transpose
    = .ok { array_ := [[1, 4], [2, 5], [3, 6]], height_ := 3, width_ := 2 } := by rfl

theorem run_operator_eq : (Matrix.ofRows [[1, 2, 3], [4, 5, 6]] : Matrix Int).operator_eq (Matrix.ofRows [[1, 2, 3], [4, 5, 7]])
    = .ok false := by rfl

theorem run_insert_row : (Matrix.ofRows [[1, 1], [1, 1]] : Matrix Int).insert 1 [3, 3] 0
    = .ok { array_ := [[1, 1], [3, 3], [1, 1]], height_ := 3, width_ := 2 } := by rfl

theorem run_insert_col : (Matrix.ofRows [[1, 2], [3, 4]] : Matrix Int).insert 1 [8, 9] 1
    = .ok { array_ := [[1, 8, 2], [3, 9, 4]], height_ := 2, width_ := 3 } := by rfl

theorem run_erase_col : (Matrix.ofRows [[1, 2], [3, 4]] : Matrix Int).erase 0 1
    = .ok { array_ := [[2], [4]], height_ := 2, width_ := 1 } := by rfl

theorem run_pop_back_col : (Matrix.ofRows [[1, 2], [3, 4]] : Matrix Int).pop_back 1
    = .ok { array_ := [[1], [3]], height_ := 2, width_ := 1 } := by rfl

theorem run_push_back_col : (Matrix.ofRows [[1, 2], [3, 4]] : Matrix Int).push_back [5, 6] 1
    = .ok { array_ := [[1, 2, 5], [3, 4, 6]], height_ := 2, width_ := 3 } := by rfl

theorem run_push_back_col_empty : (Matrix.empty : Matrix Int).push_back [5, 6] 1
    = .error (.InvalidArgument, Matrix.empty) := by rfl

theorem run_put : (Matrix.ofRows [[1, 1], [1, 1]] : Matrix Int).put 0 0 5
    = .ok { array_ := [[5, 1], [1, 1]], height_ := 2, width_ := 2 } := by rfl

theorem run_resize : (Matrix.ofRows [[1, 2], [3, 4]] : Matrix Int).resize 3 1
    = .ok { array_ := [[1], [3], [0]], height_ := 3, width_ := 1 } := by rfl

theorem run_subMat : (Matrix.ofRows [[1, 2, 3], [4, 5, 6], [7, 8, 9]] : Matrix Int).subMat 1 1 2 2
    = .ok { array_ := [[5, 6], [8, 9]], height_ := 2, width_ := 2 } := by rfl

theorem run_subMat_wrap :
    (Matrix.ofRows [[1, 1], [1, 1]] : Matrix Int).subMat 1 0 2147483647 (-1)
    = .error .LengthError := by rfl

theorem run_add :
    (Matrix.ofRows [[CInt.ofInt 1, CInt.ofInt 1], [CInt.ofInt 1, CInt.ofInt 1]]).add
      (Matrix.ofRows [[CInt.ofInt 2, CInt.ofInt 2], [CInt.ofInt 2, CInt.ofInt 2]])
    = .ok { array_ := [[CInt.ofInt 3, CInt.ofInt 3], [CInt.ofInt 3, CInt.ofInt 3]]
            height_ := 2
            width_ := 2 } := by rfl

theorem run_add_wrap :
    (Matrix.ofRows [[CInt.ofInt 2147483647]]).add (Matrix.ofRows [[CInt.ofInt 1]])
    = .ok { array_ := [[CInt.ofInt (-2147483648)]], height_ := 1, width_ := 1 } := by rfl

theorem run_divide :
    (Matrix.ofRows [[CInt.ofInt 4, CInt.ofInt (-7)], [CInt.ofInt 7, CInt.ofInt 4]]).divide
      (Matrix.ofRows [[CInt.ofInt 2, CInt.ofInt 2], [CInt.ofInt 2, CInt.ofInt 2]])
    = .ok { array_ := [[CInt.ofInt 2, CInt.ofInt (-3)], [CInt.ofInt 3, CInt.ofInt 2]]
            height_ := 2
            width_ := 2 } := by rfl

theorem run_divide_zero :
    (Matrix.ofRows [[CInt.ofInt 4]]).divide (Matrix.ofRows [[CInt.ofInt 0]])
    = .error .Undefined := by rfl

theorem run_divide_min :
    (Matrix.ofRows [[CInt.ofInt (-2147483648)]]).divide (Matrix.ofRows [[CInt.ofInt (-1)]])
    = .error .Undefined := by rfl

theorem run_multiplyVector :
    (Matrix.ofRows [[CInt.ofInt 1, CInt.ofInt 2], [CInt.ofInt 3, CInt.ofInt 4]]).multiplyVector
      [CInt.ofInt 10, CInt.ofInt 100]
    = .ok { array_ := [[CInt.ofInt 10, CInt.ofInt 200], [CInt.ofInt 30, CInt.ofInt 400]]
            height_ := 2
            width_ := 2 } := by rfl

theorem run_divideScalar :
    (Matrix.ofRows [[CInt.ofInt 4, CInt.ofInt 4], [CInt.ofInt 4, CInt.ofInt 4]]).divideScalar
      (CInt.ofInt 2)
    = .ok { array_ := [[CInt.ofInt 2, CInt.ofInt 2], [CInt.ofInt 2, CInt.ofInt 2]]
            height_ := 2
            width_ := 2 } := by rfl

theorem run_operator_add_assign :
    (Matrix.ofRows [[CInt.ofInt 1, CInt.ofInt 1], [CInt.ofInt 1, CInt.ofInt 1]]).operator_add_assign
      (Matrix.ofRows [[CInt.ofInt 2, CInt.ofInt 2], [CInt.ofInt 2, CInt.ofInt 2]])
    = .ok { array_ := [[CInt.ofInt 3, CInt.ofInt 3], [CInt.ofInt 3, CInt.ofInt 3]]
            height_ := 2
            width_ := 2 } := by rfl

theorem run_max_axis : (Matrix.ofRows [[1, 5, 3], [4, 2, 6]] : Matrix Int).max_axis 0 = .ok [5, 6] ∧
    (Matrix.ofRows [[1, 5, 3], [4, 2, 6]] : Matrix Int).max_axis 1 = .ok [4, 5, 6] ∧
    (Matrix.ofRows [[1, 5, 3], [4, 2, 6]] : Matrix Int).min_axis 0 = .ok [1, 2] ∧
    (Matrix.ofRows [[1, 5, 3], [4, 2, 6]] : Matrix Int).min_axis 1 = .ok [1, 2, 3] :=
  ⟨rfl, rfl, rfl, rfl⟩

theorem run_sum_axis : (Matrix.ofRows [[1, 5, 3], [4, 2, 6]] : Matrix Int).sum_axis 0 = .ok [9, 12] ∧
    (Matrix.ofRows [[1, 5, 3], [4, 2, 6]] : Matrix Int).sum_axis 1 = .ok [5, 7, 9] := ⟨rfl, rfl⟩

theorem run_cumuSum :
    (Matrix.ofRows [[1, 5, 3], [4, 2, 6]] : Matrix Int).cumuSum 0
      = .ok { array_ := [[1, 5, 3], [5, 7, 9]], height_ := 2, width_ := 3 } ∧
    (Matrix.ofRows [[1, 5, 3], [4, 2, 6]] : Matrix Int).cumuSum 1
      = .ok { array_ := [[1, 6, 9], [4, 6, 12]], height_ := 2, width_ := 3 } := ⟨rfl, rfl⟩

theorem run_max_min_sum :
    (Matrix.ofRows [[1, 2], [3, 4]] : Matrix Int).max = .ok 4 ∧
    (Matrix.ofRows [[1, 2], [3, 4]] : Matrix Int).min = .ok 1 ∧
    (Matrix.ofRows [[1, 2], [3, 4]] : Matrix Int).sum = .ok 10 ∧
    (Matrix.empty : Matrix Int).max = .error .Undefined :=
  ⟨rfl, rfl, rfl, rfl⟩

theorem run_print :
    (Matrix.ofRows [[1, 1], [1, 1]] : Matrix Int).print [] = .ok "1 1 \n1 1 \n".toList ∧
    (Matrix.ofRows [[1, -20], [300, 4]] : Matrix Int).print []
      = .ok "1   -20 \n300 4   \n".toList := by
  constructor <;> rfl

theorem run_proto :
    MatrixToProto (Matrix.ofRows [[1, 2], [3, 4]]) { height := 0, width := 0, data := [] }
      = .ok { height := 2, width := 2, data := [1, 2, 3, 4] } ∧
    ProtoToMatrix { height := 2, width := 2, data := [1, 2, 3, 4] }
      = .ok (Matrix.ofRows [[1, 2], [3, 4]]) := by
  constructor <;> rfl

theorem run_operator_assign_rows :
    (Matrix.empty : Matrix Int).operator_assign_rows [[1, 2], [3, 4]]
      = .ok (Matrix.ofRows [[1, 2], [3, 4]]) ∧
    (Matrix.empty : Matrix Int).operator_assign_rows_move [[1, 2], [3, 4]]
      = .ok (Matrix.ofRows [[1, 2], [3, 4]]) :=
  ⟨rfl, rfl⟩

/-! ## Reasoning about loops and cells -/

/-- Invariant rule for `forLoop`: an invariant that every iteration in range
re-establishes holds at the end, and the loop does not fail. -/
theorem forLoop_inv {σ : Type} (body : Nat → σ → Except Error σ) (P : Nat → σ → Prop) :
    ∀ (n i : Nat) (s : σ), P i s →
      (∀ k s, i ≤ k → k < i + n → P k s → ∃ s', body k s = .ok s' ∧ P (k + 1) s') →
      ∃ s', forLoop body n i s = .ok s' ∧ P (i + n) s' := by
  intro n
  induction n with
  | zero => intro i s h _; exact ⟨s, rfl, by simpa using h⟩
  | succ n ih =>
    intro i s h hstep
    obtain ⟨s1, hb, h1⟩ := hstep i s (Nat.le_refl i) (by omega) h
    obtain ⟨s2, hl, h2⟩ := ih (i + 1) s1 h1 (fun k s hk hk2 hP => hstep k s (by omega) (by omega) hP)
    refine ⟨s2, ?_, ?_⟩
    · simp only [forLoop, hb]; exact hl
    · have : i + (n + 1) = i + 1 + n := by omega
      rw [this]; exact h2

theorem read2_eq_ok_iff (arr : List (List T)) (i j : Nat) (v : T) :
    read2 arr i j = .ok v ↔ ∃ row, arr[i]? = some row ∧ row[j]? = some v := by
  unfold read2 vecAt
  cases h : arr[i]? with
  | none => simp
  | some row =>
    cases h2 : row[j]? with
    | none => simp [h2]
    | some x => simp [h2]

theorem read2_table (H W : Nat) (g : Nat → Nat → T) (i j : Nat) (hi : i < H) (hj : j < W) :
    read2 (table H W g) i j = .ok (g i j) := by
  rw [read2_eq_ok_iff]
  refine ⟨(List.range W).map (g i), ?_, ?_⟩
  · simp [table, List.getElem?_map, List.getElem?_range hi]
  · simp [List.getElem?_map, List.getElem?_range hj]

theorem rect_table (H W : Nat) (g : Nat → Nat → T) : Rect (table H W g) H W := by
  constructor
  · simp [table]
  · intro row hrow
    simp only [table, List.mem_map] at hrow
    obtain ⟨i, _, rfl⟩ := hrow
    simp

/-- A rectangle is determined by its cells. -/
theorem rect_ext (arr brr : List (List T)) (H W : Nat) (ha : Rect arr H W) (hb : Rect brr H W)
    (h : ∀ i < H, ∀ j < W, read2 arr i j = read2 brr i j) : arr = brr := by
  obtain ⟨hal, har⟩ := ha
  obtain ⟨hbl, hbr⟩ := hb
  apply List.ext_getElem (by omega)
  intro i h1 h2
  have hra : (arr[i]).length = W := har _ (List.getElem_mem h1)
  have hrb : (brr[i]).length = W := hbr _ (List.getElem_mem h2)
  apply List.ext_getElem (by omega)
  intro j h3 h4
  have := h i (by omega) j (by omega)
  simp only [read2, vecAt, List.getElem?_eq_getElem h1, List.getElem?_eq_getElem h2,
    List.getElem?_eq_getElem h3, List.getElem?_eq_getElem h4] at this
  exact Except.ok.inj this

theorem eq_table (arr : List (List T)) (H W : Nat) (g : Nat → Nat → T) (ha : Rect arr H W)
    (h : ∀ i < H, ∀ j < W, read2 arr i j = .ok (g i j)) : arr = table H W g :=
  rect_ext arr _ H W ha (rect_table H W g) fun i hi j hj => by
    rw [h i hi j hj, read2_table H W g i j hi hj]

/-- A store inside a rectangle succeeds, keeps the rectangle, and changes that cell only. -/
theorem write2_spec (arr : List (List T)) (H W i j : Nat) (v : T) (ha : Rect arr H W)
    (hi : i < H) (hj : j < W) :
    ∃ arr', write2 arr i j v = .ok arr' ∧ Rect arr' H W ∧ read2 arr' i j = .ok v ∧
      ∀ i' j', (i' ≠ i ∨ j' ≠ j) → read2 arr' i' j' = read2 arr i' j' := by
  obtain ⟨hal, har⟩ := ha
  have h1 : i < arr.length := by omega
  have hrow : (arr[i]).length = W := har _ (List.getElem_mem h1)
  refine ⟨arr.set i ((arr[i]).set j v), ?_, ⟨?_, ?_⟩, ?_, ?_⟩
  · simp [write2, List.getElem?_eq_getElem h1, hrow, hj]
  · simpa using hal
  · intro row hrow'
    obtain ⟨k, hk, rfl⟩ := List.getElem_of_mem hrow'
    rw [List.getElem_set]
    split
    · simpa using hrow
    · exact har _ (List.getElem_mem _)
  · rw [read2_eq_ok_iff]
    refine ⟨(arr[i]).set j v, ?_, ?_⟩
    · simp [h1]
    · simp [hrow, hj]
  · intro i' j' hne
    unfold read2
    by_cases hi' : i' = i
    · subst hi'
      have hj' : j' ≠ j := by
        rcases hne with h | h
        · exact absurd rfl h
        · exact h
      simp [h1, vecAt, List.getElem?_set_ne (Ne.symm hj')]
    · simp [List.getElem?_set_ne (Ne.symm hi')]

/-- Two nested loops that store `g i j` into every cell `(i, j)` of a rectangle
produce the table of `g`. The state may carry more than the buffer (`proj`
selects the buffer, `Q` is what the rest of the state keeps). -/
theorem fill2_spec {σ : Type} (proj : σ → List (List T)) (Q : σ → Prop) (H W : Nat)
    (body : Nat → Nat → σ → Except Error σ) (g : Nat → Nat → T)
    (hbody : ∀ i < H, ∀ j < W, ∀ s, Q s → Rect (proj s) H W →
      ∃ s', body i j s = .ok s' ∧ Q s' ∧ write2 (proj s) i j (g i j) = .ok (proj s'))
    (s : σ) (hQ : Q s) (ha : Rect (proj s) H W) :
    ∃ s', forLoop (fun i s => forLoop (fun j s => body i j s) W 0 s) H 0 s = .ok s' ∧
      Q s' ∧ proj s' = table H W g := by
  have hout := forLoop_inv (fun i s => forLoop (fun j s => body i j s) W 0 s)
    (fun i s => Q s ∧ Rect (proj s) H W ∧
      ∀ i' < i, ∀ j' < W, read2 (proj s) i' j' = .ok (g i' j'))
    H 0 s ⟨hQ, ha, fun i' hi' => absurd hi' (Nat.not_lt_zero _)⟩ ?_
  · obtain ⟨s', hs', hQ', hR', hcells⟩ := hout
    refine ⟨s', hs', hQ', eq_table _ H W g hR' ?_⟩
    intro i hi j hj
    exact hcells i (by omega) j hj
  · intro i s1 _ hi ⟨hQ1, hR1, hc1⟩
    have hi : i < H := by omega
    have hin := forLoop_inv (fun j s => body i j s)
      (fun j s => Q s ∧ Rect (proj s) H W ∧
        (∀ i' < i, ∀ j' < W, read2 (proj s) i' j' = .ok (g i' j')) ∧
        ∀ j' < j, read2 (proj s) i j' = .ok (g i j'))
      W 0 s1 ⟨hQ1, hR1, hc1, fun j' hj' => absurd hj' (Nat.not_lt_zero _)⟩ ?_
    · obtain ⟨s2, hs2, hQ2, hR2, hc2, hrow2⟩ := hin
      refine ⟨s2, hs2, hQ2, hR2, ?_⟩
      intro i' hi' j' hj'
      rcases Nat.lt_succ_iff_lt_or_eq.mp hi' with h | h
      · exact hc2 i' h j' hj'
      · subst h; exact hrow2 j' (by omega)
    · intro j s2 _ hj ⟨hQ2, hR2, hc2, hrow2⟩
      have hj : j < W := by omega
      obtain ⟨s3, hb, hQ3, hw⟩ := hbody i hi j hj s2 hQ2 hR2
      obtain ⟨arr', hw', hR3, hself, hother⟩ := write2_spec (proj s2) H W i j (g i j) hR2 hi hj
      rw [hw] at hw'
      have harr : proj s3 = arr' := Except.ok.inj hw'
      refine ⟨s3, hb, hQ3, harr ▸ hR3, ?_, ?_⟩
      · intro i' hi' j' hj'
        rw [harr, hother i' j' (Or.inl (by omega))]
        exact hc2 i' hi' j' hj'
      · intro j' hj'
        rcases Nat.lt_succ_iff_lt_or_eq.mp hj' with h | h
        · rw [harr, hother i j' (Or.inr (by omega))]
          exact hrow2 j' h
        · subst h; rw [harr]; exact hself

/-- Invariant rule for `forLoopR` when no iteration returns early. -/
theorem forLoopR_inv {ρ σ : Type} (body : Nat → σ → Except Error (Flow ρ σ))
    (P : Nat → σ → Prop) :
    ∀ (n i : Nat) (s : σ), P i s →
      (∀ k s, i ≤ k → k < i + n → P k s → ∃ s', body k s = .ok (.next s') ∧ P (k + 1) s') →
      ∃ s', forLoopR body n i s = .ok (.next s') ∧ P (i + n) s' := by
  intro n
  induction n with
  | zero => intro i s h _; exact ⟨s, rfl, by simpa using h⟩
  | succ n ih =>
    intro i s h hstep
    obtain ⟨s1, hb, h1⟩ := hstep i s (Nat.le_refl i) (by omega) h
    obtain ⟨s2, hl, h2⟩ := ih (i + 1) s1 h1 (fun k s hk hk2 hP => hstep k s (by omega) (by omega) hP)
    refine ⟨s2, ?_, ?_⟩
    · simp only [forLoopR, hb]; exact hl
    · have : i + (n + 1) = i + 1 + n := by omega
      rw [this]; exact h2

theorem read2_elem [Zero T] (arr : List (List T)) (H W i j : Nat) (ha : Rect arr H W)
    (hi : i < H) (hj : j < W) : read2 arr i j = .ok (elem arr i j) := by
  obtain ⟨hal, har⟩ := ha
  have h1 : i < arr.length := by omega
  have hrow : (arr[i]).length = W := har _ (List.getElem_mem h1)
  have h2 : j < (arr[i]).length := by omega
  rw [read2_eq_ok_iff]
  refine ⟨arr[i], List.getElem?_eq_getElem h1, ?_⟩
  simp [elem, List.getD_eq_getElem?_getD, List.getElem?_eq_getElem h1, List.getElem?_eq_getElem h2]

theorem elem_table [Zero T] (H W : Nat) (g : Nat → Nat → T) (i j : Nat) (hi : i < H) (hj : j < W) :
    elem (table H W g) i j = g i j := by
  have h1 := read2_table H W g i j hi hj
  rw [read2_elem _ H W i j (rect_table H W g) hi hj] at h1
  exact Except.ok.inj h1

theorem table_elem [Zero T] (arr : List (List T)) (H W : Nat) (ha : Rect arr H W) :
    table H W (elem arr) = arr :=
  (eq_table arr H W (elem arr) ha fun i hi j hj => read2_elem arr H W i j ha hi hj).symm

theorem table_congr (H W : Nat) (g g' : Nat → Nat → T) (h : ∀ i < H, ∀ j < W, g i j = g' i j) :
    table H W g = table H W g' :=
  rect_ext _ _ H W (rect_table H W g) (rect_table H W g') fun i hi j hj => by
    rw [read2_table H W g i j hi hj, read2_table H W g' i j hi hj, h i hi j hj]

theorem rect_replicate (H W : Nat) (x : T) : Rect (List.replicate H (List.replicate W x)) H W := by
  constructor
  · simp
  · intro row hrow
    rw [List.eq_of_mem_replicate hrow]; simp

theorem Matrix.HasShape.rect {M : Matrix T} {h w : Nat} (hM : M.HasShape h w) : Rect M.array_ h w :=
  ⟨hM.2.2.1, hM.2.2.2⟩

theorem Matrix.HasShape.wf {M : Matrix T} {h w : Nat} (hM : M.HasShape h w) : M.WF := by
  obtain ⟨h1, h2, h3, h4⟩ := hM
  refine ⟨by rw [h1, h3], by rw [h2]; exact Int.ofNat_nonneg w, ?_⟩
  intro row hrow
  rw [h4 row hrow, h2]

theorem Matrix.WF.hasShape {M : Matrix T} (hM : M.WF) : M.HasShape M.height_.toNat M.width_.toNat := by
  obtain ⟨h1, h2, h3⟩ := hM
  refine ⟨?_, ?_, ?_, ?_⟩
  · rw [h1]; simp
  · exact (Int.toNat_of_nonneg h2).symm
  · rw [h1]; simp
  · intro row hrow
    have := h3 row hrow
    omega

/-- What `transpose` returns on an `h x w` matrix. -/
theorem transpose_eq [Zero T] (M : Matrix T) (h w : Nat) (hM : M.HasShape h w) :
    M.transpose = .ok { array_ := table w h fun i j => elem M.array_ j i
                        height_ := w
                        width_ := h } := by
  obtain ⟨s', hs', -, htab⟩ := fill2_spec (fun arr : List (List T) => arr) (fun _ => True) w h
    (fun i j arr => do
      let v ← read2 M.array_ j i
      write2 arr i j v) (fun i j => elem M.array_ j i)
    (by
      intro i hi j hj arr _ hR
      obtain ⟨arr', hw, _⟩ := write2_spec arr w h i j (elem M.array_ j i) hR hi hj
      refine ⟨arr', ?_, trivial, hw⟩
      simp only [read2_elem M.array_ h w j i hM.rect hj hi, bind, Except.bind]
      exact hw)
    (List.replicate w (List.replicate h 0)) trivial (rect_replicate w h 0)
  obtain ⟨h1, h2, -, -⟩ := hM
  simp only [Matrix.transpose, Matrix.sized, h1, h2, Int.toNat_ofNat, bind, Except.bind]
  simp only [bind, Except.bind] at hs'
  simp only [Int.natCast_nonneg, not_lt.mpr, if_false]
  rw [hs', htab]
  rfl

theorem dot_inner [Add T] [Mul T] [Zero T] (a b : List (List T)) (h k w i j : Nat)
    (ha : Rect a h k) (hb : Rect b k w) (hi : i < h) (hj : j < w) :
    forLoop (fun t (acc : T) => do
      let x ← read2 a i t
      let y ← read2 b t j
      pure (acc + x * y)) k 0 0 = .ok (dotCell a b k i j) := by
  obtain ⟨acc, hacc, hP⟩ := forLoop_inv (fun t (acc : T) => do
      let x ← read2 a i t
      let y ← read2 b t j
      pure (acc + x * y))
    (fun t acc => acc = dotCell a b t i j) k 0 0 rfl (by
      intro t acc _ ht hacc
      have ht : t < k := by omega
      refine ⟨acc + elem a i t * elem b t j, ?_, ?_⟩
      · simp only [read2_elem a h k i t ha hi ht, read2_elem b k w t j hb ht hj, bind,
          Except.bind, pure, Except.pure]
      · simp only [dotCell, List.range_succ, List.foldl_append, List.foldl_cons, List.foldl_nil]
        rw [hacc]; rfl)
  rw [hacc, hP, Nat.zero_add]

/-- What `dot` returns on an `h x k` and a `k x w` matrix. -/
theorem dot_eq [Add T] [Mul T] [Zero T] (A B : Matrix T) (h k w : Nat)
    (hA : A.HasShape h k) (hB : B.HasShape k w) :
    A.dot B = .ok { array_ := table h w (dotCell A.array_ B.array_ k)
                    height_ := h
                    width_ := w } := by
  obtain ⟨s', hs', -, htab⟩ := fill2_spec (fun st : List (List T) × T => st.1)
    (fun st => st.2 = 0) h w
    (fun i j st => do
      let w ← forLoop (fun t (acc : T) => do
        let x ← read2 A.array_ i t
        let y ← read2 B.array_ t j
        pure (acc + x * y)) k 0 st.2
      let arr ← write2 st.1 i j w
      pure (arr, 0)) (dotCell A.array_ B.array_ k)
    (by
      intro i hi j hj st hQ hR
      obtain ⟨arr', hw, _⟩ := write2_spec st.1 h w i j (dotCell A.array_ B.array_ k i j) hR hi hj
      refine ⟨(arr', 0), ?_, rfl, hw⟩
      have hQ' : st.2 = 0 := hQ
      simp only [hQ', dot_inner A.array_ B.array_ h k w i j hA.rect hB.rect hi hj]
      simp only [bind, Except.bind, hw, pure, Except.pure])
    (List.replicate h (List.replicate w 0), 0) rfl (rect_replicate h w 0)
  obtain ⟨h1, h2, -, -⟩ := hA
  obtain ⟨h3, h4, -, -⟩ := hB
  simp only [Matrix.dot, Matrix.sized, h1, h2, h3, h4, Int.toNat_ofNat, bind, Except.bind]
  simp only [bind, Except.bind] at hs'
  simp only [Int.natCast_nonneg, not_lt.mpr, if_false, ne_eq, not_true_eq_false]
  rw [hs']
  simp only [htab]
  rfl

/-- In a semiring the accumulated value is the sum of the products. -/
theorem dotCell_eq_sum [Semiring T] (a b : List (List T)) (k i j : Nat) :
    dotCell a b k i j = ∑ t in Finset.range k, elem a i t * elem b t j := by
  induction k with
  | zero => rfl
  | succ k ih =>
    rw [Finset.sum_range_succ, ← ih]
    simp only [dotCell, List.range_succ, List.foldl_append, List.foldl_cons, List.foldl_nil]

theorem get_ofNat (M : Matrix T) (i j : Nat) : M.get i j = read2 M.array_ i j := by
  simp [Matrix.get]

theorem get_elem [Zero T] (M : Matrix T) (h w i j : Nat) (hM : M.HasShape h w)
    (hi : i < h) (hj : j < w) : M.get i j = .ok (elem M.array_ i j) := by
  rw [get_ofNat, read2_elem M.array_ h w i j hM.rect hi hj]

theorem hasShape_table (H W : Nat) (g : Nat → Nat → T) :
    Matrix.HasShape { array_ := table H W g, height_ := H, width_ := W } H W :=
  ⟨rfl, rfl, (rect_table H W g).1, (rect_table H W g).2⟩

/-- A matrix compares equal to itself. -/
theorem operator_eq_self [Zero T] [DecidableEq T] (M : Matrix T) (h w : Nat)
    (hM : M.HasShape h w) : M.operator_eq M = .ok true := by
  obtain ⟨u, hu, -⟩ := @forLoopR_inv Bool Unit (fun i (_ : Unit) =>
      forLoopR (fun j (_ : Unit) => do
        let a ← read2 M.array_ i j
        let b ← read2 M.array_ i j
        if a ≠ b then pure (Flow.ret false) else pure (Flow.next ()))
        w 0 ()) (fun _ _ => True) h 0 () trivial (by
      intro i _ _ hi _
      have hi : i < h := by omega
      obtain ⟨u, hu, -⟩ := @forLoopR_inv Bool Unit (fun j (_ : Unit) => do
          let a ← read2 M.array_ i j
          let b ← read2 M.array_ i j
          if a ≠ b then pure (Flow.ret false) else pure (Flow.next ()))
        (fun _ _ => True) w 0 () trivial (by
          intro j _ _ hj _
          have hj : j < w := by omega
          refine ⟨(), ?_, trivial⟩
          simp [read2_elem M.array_ h w i j hM.rect hi hj, bind, Except.bind, pure, Except.pure])
      exact ⟨u, hu, trivial⟩)
  obtain ⟨h1, h2, -, -⟩ := hM
  simp only [Matrix.operator_eq, h1, h2, Int.toNat_ofNat, and_self, if_true]
  rw [hu]

/-- Claim C1. `A.dot(B)` on an `h x k` matrix `A` and a `k' x w` matrix `B` fails with
InvalidArgument exactly when `k ≠ k'`; otherwise the result is `h x w` and its cell
`(i, j)` is the sum over `t < k` of `A(i,t) * B(t,j)`. For constant matrices
`Matrix(h,k,a)` and `Matrix(k,w,b)` every cell of the product is `k * a * b`. -/
theorem dot_spec [Semiring T] (A B : Matrix T) (h k k' w : Nat)
    (hA : A.HasShape h k) (hB : B.HasShape k' w) :
    (A.dot B = .error .InvalidArgument ↔ k ≠ k') ∧
    (k = k' → ∃ R, A.dot B = .ok R ∧ R.getHeight = h ∧ R.getWidth = w ∧ R.HasShape h w ∧
      (∀ a b : Nat → Nat → T,
        (∀ i < h, ∀ t < k, A.get i t = .ok (a i t)) →
        (∀ t < k, ∀ j < w, B.get t j = .ok (b t j)) →
        ∀ i < h, ∀ j < w, R.get i j = .ok (∑ t in Finset.range k, a i t * b t j)) ∧
      (∀ x y : T, Matrix.filled h k x = .ok A → Matrix.filled k w y = .ok B →
        ∀ i < h, ∀ j < w, R.get i j = .ok (k * x * y))) := by
  have key : k = k' → ∃ R, A.dot B = .ok R ∧ R.getHeight = h ∧ R.getWidth = w ∧
      R.HasShape h w ∧
      (∀ a b : Nat → Nat → T,
        (∀ i < h, ∀ t < k, A.get i t = .ok (a i t)) →
        (∀ t < k, ∀ j < w, B.get t j = .ok (b t j)) →
        ∀ i < h, ∀ j < w, R.get i j = .ok (∑ t in Finset.range k, a i t * b t j)) := by
    intro hk
    subst hk
    refine ⟨_, dot_eq A B h k w hA hB, rfl, rfl, hasShape_table h w _, ?_⟩
    intro a b ha hb i hi j hj
    rw [get_ofNat]
    simp only []
    rw [read2_table h w _ i j hi hj, dotCell_eq_sum]
    congr 1
    apply Finset.sum_congr rfl
    intro t ht
    have ht : t < k := Finset.mem_range.mp ht
    have h1 := ha i hi t ht
    have h2 := hb t ht j hj
    rw [get_elem A h k i t hA hi ht] at h1
    rw [get_elem B k w t j hB ht hj] at h2
    rw [Except.ok.inj h1, Except.ok.inj h2]
  refine ⟨?_, ?_⟩
  · constructor
    · intro herr hk
      obtain ⟨R, hR, _⟩ := key hk
      rw [hR] at herr
      cases herr
    · intro hne
      have : (k : Int) ≠ (k' : Int) := by exact_mod_cast hne
      simp [Matrix.dot, hA.2.1, hB.1, this]
  · intro hk
    obtain ⟨R, hR, hh, hw, hS, hcells⟩ := key hk
    refine ⟨R, hR, hh, hw, hS, hcells, ?_⟩
    intro x y hx hy i hi j hj
    have hAx : ∀ i < h, ∀ t < k, A.get i t = .ok x := by
      intro i hi t ht
      simp only [Matrix.filled, Int.natCast_nonneg, not_lt.mpr, if_false, Int.toNat_ofNat] at hx
      rw [← Except.ok.inj hx, get_ofNat]
      exact read2_table h k (fun _ _ => x) i t hi ht |> fun e => by
        simpa [table, List.map_const', List.length_range] using e
    have hBy : ∀ t < k, ∀ j < w, B.get t j = .ok y := by
      intro t ht j hj
      simp only [Matrix.filled, Int.natCast_nonneg, not_lt.mpr, if_false, Int.toNat_ofNat] at hy
      rw [← Except.ok.inj hy, get_ofNat]
      exact read2_table k w (fun _ _ => y) t j ht hj |> fun e => by
        simpa [table, List.map_const', List.length_range] using e
    rw [hcells (fun _ _ => x) (fun _ _ => y) hAx hBy i hi j hj]
    simp [Finset.sum_const, mul_assoc]

theorem dot_spec_witness :
    (∃ R : Matrix Int,
      Matrix.dot ({ array_ := [[1, 1, 1], [1, 1, 1]], height_ := 2, width_ := 3 } : Matrix Int)
        { array_ := [[2, 2], [2, 2], [2, 2]], height_ := 3, width_ := 2 } = .ok R ∧
      R.getHeight = 2 ∧ R.getWidth = 2 ∧ R.get 0 0 = .ok 6 ∧ R.get 1 1 = .ok 6) := by
  obtain ⟨R, hR, hh, hw, -, -, hconst⟩ :=
    (dot_spec ({ array_ := [[1, 1, 1], [1, 1, 1]], height_ := 2, width_ := 3 } : Matrix Int)
      { array_ := [[2, 2], [2, 2], [2, 2]], height_ := 3, width_ := 2 } 2 3 3 2
      (by decide) (by decide)).2 rfl
  exact ⟨R, hR, hh, hw, hconst 1 2 rfl rfl 0 (by decide) 0 (by decide),
    hconst 1 2 rfl rfl 1 (by decide) 1 (by decide)⟩

/-- Claim C2. For an `h x w` matrix `M` and the `w x w` identity matrix `I` (1 on the
diagonal, 0 elsewhere), `M.dot(I)` succeeds and `M.dot(I) == M` is true. -/
theorem dot_identity [Semiring T] [DecidableEq T] (M I : Matrix T) (h w : Nat)
    (hM : M.HasShape h w) (hI : I.HasShape w w)
    (hid : ∀ t < w, ∀ j < w, I.get t j = .ok (if t = j then 1 else 0)) :
    ∃ R, M.dot I = .ok R ∧ R.operator_eq M = .ok true := by
  have hR : M.dot I = .ok M := by
    rw [dot_eq M I h w w hM hI]
    have htab : table h w (dotCell M.array_ I.array_ w) = M.array_ := by
      rw [← table_elem M.array_ h w hM.rect]
      apply table_congr
      intro i hi j hj
      rw [dotCell_eq_sum, table_elem M.array_ h w hM.rect]
      have hcell : ∀ t ∈ Finset.range w,
          elem M.array_ i t * elem I.array_ t j = if t = j then elem M.array_ i t else 0 := by
        intro t ht
        have ht : t < w := Finset.mem_range.mp ht
        have h1 := hid t ht j hj
        rw [get_elem I w w t j hI ht hj] at h1
        rw [Except.ok.inj h1]
        split <;> simp
      rw [Finset.sum_congr rfl hcell, Finset.sum_ite_eq' (Finset.range w) j]
      simp [hj]
    obtain ⟨h1, h2, -, -⟩ := hM
    rw [htab, ← h1, ← h2]
  exact ⟨M, hR, operator_eq_self M h w hM⟩

theorem dot_identity_witness :
    ∃ R : Matrix Int,
      Matrix.dot ({ array_ := [[1, 2], [3, 4], [5, 6]], height_ := 3, width_ := 2 } : Matrix Int)
        { array_ := [[1, 0], [0, 1]], height_ := 2, width_ := 2 } = .ok R ∧
      R.operator_eq { array_ := [[1, 2], [3, 4], [5, 6]], height_ := 3, width_ := 2 } = .ok true :=
  dot_identity ({ array_ := [[1, 2], [3, 4], [5, 6]], height_ := 3, width_ := 2 } : Matrix Int)
    { array_ := [[1, 0], [0, 1]], height_ := 2, width_ := 2 } 3 2 (by decide) (by decide)
    (by
      intro t ht j hj
      have ht2 : t = 0 ∨ t = 1 := by omega
      have hj2 : j = 0 ∨ j = 1 := by omega
      rcases ht2 with rfl | rfl <;> rcases hj2 with rfl | rfl <;> rfl)

/-- Claim C4. For an `h x w` matrix `M`, `M.transpose()` has height `w` and width `h`
(every row of length `h`), and its element `(j, i)` equals `M(i, j)`. -/
theorem transpose_spec [Zero T] (M : Matrix T) (h w : Nat) (hM : M.HasShape h w) :
    ∃ R, M.transpose = .ok R ∧ R.getHeight = w ∧ R.getWidth = h ∧ R.HasShape w h ∧
      ∀ i < h, ∀ j < w, ∃ v, M.get i j = .ok v ∧ R.get j i = .ok v := by
  refine ⟨_, transpose_eq M h w hM, rfl, rfl, hasShape_table w h _, ?_⟩
  intro i hi j hj
  refine ⟨elem M.array_ i j, get_elem M h w i j hM hi hj, ?_⟩
  rw [get_ofNat]
  exact read2_table w h (fun i j => elem M.array_ j i) j i hj hi

theorem transpose_spec_witness :
    ∃ R : Matrix Int,
      Matrix.transpose ({ array_ := [[1, 2, 3], [4, 5, 6]], height_ := 2, width_ := 3 } : Matrix Int)
        = .ok R ∧ R.getHeight = 3 ∧ R.getWidth = 2 ∧ R.get 2 1 = .ok 6 := by
  obtain ⟨R, hR, hh, hw, -, hcells⟩ := transpose_spec
    ({ array_ := [[1, 2, 3], [4, 5, 6]], height_ := 2, width_ := 3 } : Matrix Int) 2 3 (by decide)
  obtain ⟨v, hv, hRv⟩ := hcells 1 (by decide) 2 (by decide)
  have : v = 6 := (Except.ok.inj hv).symm
  exact ⟨R, hR, hh, hw, this ▸ hRv⟩

/-- Claim C3. For every matrix `M` whose rows all have exactly `width` elements (height 0
and width 0 included), both transpositions succeed and `M.transpose().transpose() == M`
is true. -/
theorem transpose_transpose [Zero T] [DecidableEq T] (M : Matrix T) (hM : M.WF) :
    ∃ R1 R2, M.transpose = .ok R1 ∧ R1.transpose = .ok R2 ∧ R2.operator_eq M = .ok true := by
  have hS := hM.hasShape
  generalize M.height_.toNat = h at hS
  generalize M.width_.toNat = w at hS
  have h2 : Matrix.transpose
      ({ array_ := table w h fun i j => elem M.array_ j i, height_ := w, width_ := h } : Matrix T)
      = .ok M := by
    rw [transpose_eq _ w h (hasShape_table w h _)]
    have htab : (table h w fun i j => elem (table w h fun i j => elem M.array_ j i) j i)
        = M.array_ := by
      rw [← table_elem M.array_ h w hS.rect]
      apply table_congr
      intro i hi j hj
      rw [elem_table w h _ j i hj hi, table_elem M.array_ h w hS.rect]
    obtain ⟨e1, e2, -, -⟩ := hS
    rw [htab, ← e1, ← e2]
  exact ⟨_, M, transpose_eq M h w hS, h2, operator_eq_self M h w hS⟩

theorem transpose_transpose_witness :
    ∃ R1 R2 : Matrix Int,
      Matrix.transpose ({ array_ := [[], [], []], height_ := 3, width_ := 0 } : Matrix Int)
        = .ok R1 ∧ R1.transpose = .ok R2 ∧
      R2.operator_eq { array_ := [[], [], []], height_ := 3, width_ := 0 } = .ok true :=
  transpose_transpose ({ array_ := [[], [], []], height_ := 3, width_ := 0 } : Matrix Int)
    (by decide)

/-! ## Row-by-row loops of the shape mutators -/

theorem sizeT_natCast (n : Nat) : sizeT (n : Int) = n := by
  simp [sizeT]

/-- A loop that replaces row `i` by `res[i]` for every `i` turns the buffer into `res`. -/
theorem rowLoop_spec (body : Nat → List (List T) → Except Error (List (List T))) (n : Nat)
    (arr res : List (List T)) (hlen : arr.length = n) (hres : res.length = n)
    (hbody : ∀ i < n, ∀ arr' : List (List T), arr'.length = n → arr'[i]? = arr[i]? →
      ∃ row', res[i]? = some row' ∧ body i arr' = .ok (arr'.set i row')) :
    forLoop body n 0 arr = .ok res := by
  obtain ⟨arr', harr', hl, hdone, -⟩ := forLoop_inv body
    (fun i arr' => arr'.length = n ∧ (∀ k < i, arr'[k]? = res[k]?) ∧
      ∀ k, i ≤ k → arr'[k]? = arr[k]?)
    n 0 arr ⟨hlen, fun k hk => absurd hk (Nat.not_lt_zero _), fun _ _ => rfl⟩ (by
      intro i arr' _ hi ⟨hl, hdone, hrest⟩
      have hi : i < n := by omega
      obtain ⟨row', hrow', hb⟩ := hbody i hi arr' hl (hrest i (Nat.le_refl i))
      refine ⟨_, hb, by simpa using hl, ?_, ?_⟩
      · intro k hk
        rcases Nat.lt_succ_iff_lt_or_eq.mp hk with h | h
        · rw [List.getElem?_set_ne (by omega)]; exact hdone k h
        · subst h
          rw [List.getElem?_set_self (by omega), hrow']
      · intro k hk
        rw [List.getElem?_set_ne (by omega)]; exact hrest k (by omega))
  rw [harr']
  congr 1
  apply List.ext_getElem?
  intro k
  by_cases hk : k < n
  · exact hdone k (by omega)
  · rw [List.getElem?_eq_none (by omega), List.getElem?_eq_none (by omega)]

theorem vecAt_eq_ok {α : Type} (v : List α) (i : Nat) (x : α) (h : v[i]? = some x) :
    vecAt v i = .ok x := by
  simp [vecAt, h]

/-- Row insertion on an `h x w` matrix, for an index in `[0, h]` and data that passes
the length check. -/
theorem insert0_eq (M : Matrix T) (h w idx : Nat) (data : List T) (hM : M.HasShape h w)
    (hidx : idx ≤ h) (hdata : data.length = w ∨ w = 0) :
    M.insert idx data 0 = .ok { array_ := M.array_.take idx ++ data :: M.array_.drop idx
                                height_ := h + 1
                                width_ := if w = 0 then data.length else w } := by
  obtain ⟨h1, h2, h3, -⟩ := hM
  have hchk : ¬ (data.length ≠ w ∧ (w : Int) ≠ 0) := by
    rcases hdata with h | h
    · exact fun c => c.1 h
    · exact fun c => c.2 (by exact_mod_cast h)
  have hrange : ¬ ((idx : Int) < 0 ∨ (idx : Int) > h) := by omega
  have hins : (0 : Int) ≤ idx ∧ (idx : Int) ≤ M.array_.length := by omega
  simp only [Matrix.insert, if_true, h1, h2, sizeT_natCast, hchk, if_false, hrange, vecInsert,
    hins, and_self, Int.toNat_ofNat]
  by_cases hw : w = 0
  · simp [hw]
  · have : (w : Int) ≠ 0 := by exact_mod_cast hw
    simp [hw, this]

/-- Column insertion on an `h x w` matrix, for an index in `[0, w]` and `h` data values. -/
theorem insert1_eq (M : Matrix T) (h w idx : Nat) (data : List T) (hM : M.HasShape h w)
    (hidx : idx ≤ w) (hdata : data.length = h) :
    M.insert idx data 1 =
      .ok { array_ := List.zipWith (fun row x => row.take idx ++ x :: row.drop idx) M.array_ data
            height_ := h
            width_ := w + 1 } := by
  obtain ⟨h1, h2, h3, h4⟩ := hM
  have hloop := rowLoop_spec (fun i arr => do
      let row ← vecAt arr i
      let x ← vecAt data i
      let row' ← vecInsert row idx x
      pure (arr.set i row')) h M.array_
    (List.zipWith (fun row x => row.take idx ++ x :: row.drop idx) M.array_ data) h3
    (by simp [h3, hdata]) (by
      intro i hi arr' _ hrow
      have hi1 : i < M.array_.length := by omega
      have hi2 : i < data.length := by omega
      have hlenrow : (M.array_[i]).length = w := h4 _ (List.getElem_mem hi1)
      refine ⟨(M.array_[i]).take idx ++ data[i] :: (M.array_[i]).drop idx, ?_, ?_⟩
      · simp [List.getElem?_zipWith, List.getElem?_eq_getElem hi1, List.getElem?_eq_getElem hi2]
      · rw [List.getElem?_eq_getElem hi1] at hrow
        have hins : (0 : Int) ≤ idx ∧ (idx : Int) ≤ (M.array_[i]).length := by omega
        simp only [vecAt_eq_ok arr' i _ hrow, vecAt_eq_ok data i _ (List.getElem?_eq_getElem hi2),
          vecInsert, hins, and_self, if_true, Int.toNat_ofNat, bind, Except.bind, pure,
          Except.pure])
  have hrange : ¬ ((idx : Int) < 0 ∨ (idx : Int) > w) := by omega
  simp only [bind, Except.bind] at hloop
  simp only [Matrix.insert, h1, h2, sizeT_natCast, hdata, hrange, if_false, bind, Except.bind]
  simp only [one_ne_zero, if_false, if_true, ne_eq, not_true_eq_false, hloop]

/-- Row removal on an `h x w` matrix, for an index in `[0, h)`. -/
theorem erase0_eq (M : Matrix T) (h w idx : Nat) (hM : M.HasShape h w) (hidx : idx < h) :
    M.erase idx 0 = .ok { array_ := M.array_.eraseIdx idx
                          height_ := (h : Int) - 1
                          width_ := w } := by
  obtain ⟨h1, h2, h3, -⟩ := hM
  have hrange : ¬ ((idx : Int) < 0 ∨ (idx : Int) ≥ h) := by omega
  have her : (0 : Int) ≤ idx ∧ (idx : Int) < M.array_.length := by omega
  simp only [Matrix.erase, if_true, h1, h2, hrange, if_false, vecErase, her, and_self,
    Int.toNat_ofNat]

/-- Column removal on an `h x w` matrix, for an index in `[0, w)`. -/
theorem erase1_eq (M : Matrix T) (h w idx : Nat) (hM : M.HasShape h w) (hidx : idx < w) :
    M.erase idx 1 = .ok { array_ := M.array_.map fun row => row.eraseIdx idx
                          height_ := h
                          width_ := (w : Int) - 1 } := by
  obtain ⟨h1, h2, h3, h4⟩ := hM
  have hloop := rowLoop_spec (fun i arr => do
      let row ← vecAt arr i
      let row' ← vecErase row idx
      pure (arr.set i row')) h M.array_ (M.array_.map fun row => row.eraseIdx idx) h3
    (by simp [h3]) (by
      intro i hi arr' _ hrow
      have hi1 : i < M.array_.length := by omega
      have hlenrow : (M.array_[i]).length = w := h4 _ (List.getElem_mem hi1)
      refine ⟨(M.array_[i]).eraseIdx idx, ?_, ?_⟩
      · simp [List.getElem?_eq_getElem hi1]
      · rw [List.getElem?_eq_getElem hi1] at hrow
        have her : (0 : Int) ≤ idx ∧ (idx : Int) < (M.array_[i]).length := by omega
        simp only [vecAt_eq_ok arr' i _ hrow, vecErase, her, and_self, if_true, Int.toNat_ofNat,
          bind, Except.bind, pure, Except.pure])
  have hrange : ¬ ((idx : Int) < 0 ∨ (idx : Int) ≥ w) := by omega
  simp only [bind, Except.bind] at hloop
  simp only [Matrix.erase, h1, h2, sizeT_natCast, hrange, if_false, bind, Except.bind]
  simp only [one_ne_zero, if_false, if_true, hloop]

/-! ## Inserting into and erasing from a vector -/

theorem insertAt_lt {α : Type} (l : List α) (x : α) (idx i : Nat) (hidx : idx ≤ l.length)
    (hi : i < idx) : (l.take idx ++ x :: l.drop idx)[i]? = l[i]? := by
  rw [List.getElem?_append_left (by simp; omega), List.getElem?_take_of_lt hi]

theorem insertAt_eq {α : Type} (l : List α) (x : α) (idx : Nat) (hidx : idx ≤ l.length) :
    (l.take idx ++ x :: l.drop idx)[idx]? = some x := by
  rw [List.getElem?_append_right (by simp)]
  simp [Nat.min_eq_left hidx]

theorem insertAt_gt {α : Type} (l : List α) (x : α) (idx i : Nat) (hidx : idx ≤ l.length)
    (hi : idx ≤ i) : (l.take idx ++ x :: l.drop idx)[i + 1]? = l[i]? := by
  rw [List.getElem?_append_right (by simp; omega)]
  have h1 : i + 1 - (List.take idx l).length = (i - idx) + 1 := by
    simp [Nat.min_eq_left hidx]; omega
  rw [h1, List.getElem?_cons_succ, List.getElem?_drop]
  congr 1
  omega

theorem length_insertAt {α : Type} (l : List α) (x : α) (idx : Nat) (hidx : idx ≤ l.length) :
    (l.take idx ++ x :: l.drop idx).length = l.length + 1 := by
  simp [Nat.min_eq_left hidx]; omega

theorem eraseIdx_insertAt {α : Type} (l : List α) (x : α) (idx : Nat) (hidx : idx ≤ l.length) :
    (l.take idx ++ x :: l.drop idx).eraseIdx idx = l := by
  rw [List.eraseIdx_append_of_length_le (by simp)]
  simp [Nat.min_eq_left hidx]

theorem getRow_natCast (M : Matrix T) (i : Nat) : M.getRow i = vecAt M.array_ i := by
  have h1 : ¬ ((i : Int) < 0) := by omega
  simp [Matrix.getRow, h1]

theorem hasShape_insert0 (M : Matrix T) (h w idx : Nat) (data : List T) (hM : M.HasShape h w)
    (hidx : idx ≤ h) (hdata : data.length = w) :
    Matrix.HasShape { array_ := M.array_.take idx ++ data :: M.array_.drop idx
                      height_ := h + 1
                      width_ := w } (h + 1) w := by
  obtain ⟨-, -, h3, h4⟩ := hM
  refine ⟨by simp, rfl, ?_, ?_⟩
  · rw [length_insertAt _ _ _ (by omega), h3]
  · intro row hrow
    simp only [List.mem_append, List.mem_cons] at hrow
    rcases hrow with hr | hr | hr
    · exact h4 row (List.mem_of_mem_take hr)
    · rw [hr]; exact hdata
    · exact h4 row (List.mem_of_mem_drop hr)

theorem hasShape_insert1 (M : Matrix T) (h w idx : Nat) (data : List T) (hM : M.HasShape h w)
    (hidx : idx ≤ w) (hdata : data.length = h) :
    Matrix.HasShape
      { array_ := List.zipWith (fun row x => row.take idx ++ x :: row.drop idx) M.array_ data
        height_ := h
        width_ := w + 1 } h (w + 1) := by
  obtain ⟨-, -, h3, h4⟩ := hM
  refine ⟨rfl, by simp, by simp [h3, hdata], ?_⟩
  intro row hrow
  obtain ⟨i, hi, rfl⟩ := List.getElem_of_mem hrow
  simp only [List.length_zipWith] at hi
  have hi1 : i < M.array_.length := by omega
  have hlenrow : (M.array_[i]).length = w := h4 _ (List.getElem_mem hi1)
  simp only [List.getElem_zipWith]
  rw [length_insertAt _ _ _ (by omega), hlenrow]

theorem read2_zipWith (f : List T → T → List T) (arr : List (List T)) (data : List T)
    (i j : Nat) (row : List T) (x : T) (hrow : arr[i]? = some row) (hx : data[i]? = some x) :
    read2 (List.zipWith f arr data) i j = vecAt (f row x) j := by
  simp [read2, List.getElem?_zipWith, hrow, hx]

theorem read2_map (f : List T → List T) (arr : List (List T)) (i j : Nat) (row : List T)
    (hrow : arr[i]? = some row) : read2 (arr.map f) i j = vecAt (f row) j := by
  simp [read2, hrow]

theorem read2_row (arr : List (List T)) (i j : Nat) (row : List T) (hrow : arr[i]? = some row) :
    read2 arr i j = vecAt row j := by
  simp [read2, hrow]

theorem vecAt_congr {α : Type} (u v : List α) (i j : Nat) (h : u[i]? = v[j]?) :
    vecAt u i = vecAt v j := by
  simp [vecAt, h]

theorem vecAt_ok {α : Type} (v : List α) (i : Nat) (h : i < v.length) :
    vecAt v i = .ok v[i] := by
  simp [vecAt, List.getElem?_eq_getElem h]

theorem rect_row (arr : List (List T)) (H W i : Nat) (ha : Rect arr H W) (hi : i < H) :
    ∃ row, arr[i]? = some row ∧ row.length = W := by
  have h1 : i < arr.length := by rw [ha.1]; exact hi
  exact ⟨arr[i], List.getElem?_eq_getElem h1, ha.2 _ (List.getElem_mem h1)⟩

theorem get_natCast_row (M : Matrix T) (i j : Nat) (row : List T) (hrow : M.array_[i]? = some row) :
    M.get i j = vecAt row j := by
  rw [get_ofNat, read2_row M.array_ i j row hrow]

/-- Claim C6. On an `h x w` matrix `M`: `insert(index, data, 0)` with `0 <= index <= h` and
`len(data) = w` gives an `(h+1) x w` matrix whose row `index` is `data`, whose rows before
`index` are those of `M` and whose rows `i + 1` for `i >= index` are the rows `i` of `M`;
`insert(index, data, 1)` with `0 <= index <= w` and `len(data) = h` gives an `h x (w+1)`
matrix whose column `index` is `data` and whose other columns are those of `M` in order.
(Holds for every `h` and `w`, in particular for `h >= 1` and `w >= 1`.) -/
theorem insert_spec (M : Matrix T) (h w : Nat) (hM : M.HasShape h w) (index : Int)
    (data : List T) (h0 : 0 ≤ index) :
    (index ≤ h → data.length = w →
      ∃ R, M.insert index data 0 = .ok R ∧ R.getHeight = h + 1 ∧ R.getWidth = w ∧
        R.HasShape (h + 1) w ∧ R.getRow index = .ok data ∧
        (∀ i : Int, 0 ≤ i → i < index → ∃ row, M.getRow i = .ok row ∧ R.getRow i = .ok row) ∧
        (∀ i : Int, index ≤ i → i < h →
          ∃ row, M.getRow i = .ok row ∧ R.getRow (i + 1) = .ok row)) ∧
    (index ≤ w → data.length = h →
      ∃ R, M.insert index data 1 = .ok R ∧ R.getHeight = h ∧ R.getWidth = w + 1 ∧
        R.HasShape h (w + 1) ∧
        ∀ i : Int, 0 ≤ i → i < h →
          (∃ x, vecAt data i.toNat = .ok x ∧ R.get i index = .ok x) ∧
          (∀ j : Int, 0 ≤ j → j < index → ∃ v, M.get i j = .ok v ∧ R.get i j = .ok v) ∧
          (∀ j : Int, index ≤ j → j < w → ∃ v, M.get i j = .ok v ∧ R.get i (j + 1) = .ok v)) := by
  obtain ⟨idx, rfl⟩ := Int.eq_ofNat_of_zero_le h0
  constructor
  · intro hidx hdata
    have hidx : idx ≤ h := by omega
    have hl : idx ≤ M.array_.length := by rw [hM.2.2.1]; exact hidx
    have hres := insert0_eq M h w idx data hM hidx (Or.inl hdata)
    have hwid : (if w = 0 then (data.length : Int) else (w : Int)) = w := by
      split
      · rw [hdata]
      · rfl
    rw [hwid] at hres
    refine ⟨_, hres, rfl, rfl, hasShape_insert0 M h w idx data hM hidx hdata, ?_, ?_, ?_⟩
    · rw [getRow_natCast]
      exact vecAt_eq_ok _ _ _ (insertAt_eq M.array_ data idx hl)
    · intro i hi0 hi
      obtain ⟨i, rfl⟩ := Int.eq_ofNat_of_zero_le hi0
      have hi : i < idx := by omega
      obtain ⟨row, hrow, -⟩ := rect_row M.array_ h w i hM.rect (by omega)
      refine ⟨row, ?_, ?_⟩
      · rw [getRow_natCast]; exact vecAt_eq_ok _ _ _ hrow
      · rw [getRow_natCast]
        exact vecAt_eq_ok _ _ _ ((insertAt_lt M.array_ data idx i hl hi).trans hrow)
    · intro i hi0 hi
      obtain ⟨i, rfl⟩ := Int.eq_ofNat_of_zero_le (le_trans h0 hi0)
      have hi0 : idx ≤ i := by omega
      obtain ⟨row, hrow, -⟩ := rect_row M.array_ h w i hM.rect (by omega)
      refine ⟨row, ?_, ?_⟩
      · rw [getRow_natCast]; exact vecAt_eq_ok _ _ _ hrow
      · have hcast : ((i : Int) + 1) = ((i + 1 : Nat) : Int) := by simp
        rw [hcast, getRow_natCast]
        exact vecAt_eq_ok _ _ _ ((insertAt_gt M.array_ data idx i hl hi0).trans hrow)
  · intro hidx hdata
    have hidx : idx ≤ w := by omega
    refine ⟨_, insert1_eq M h w idx data hM hidx hdata, rfl, rfl,
      hasShape_insert1 M h w idx data hM hidx hdata, ?_⟩
    intro i hi0 hi
    obtain ⟨i, rfl⟩ := Int.eq_ofNat_of_zero_le hi0
    have hi : i < h := by omega
    obtain ⟨row, hrow, hlen⟩ := rect_row M.array_ h w i hM.rect hi
    have hx : data[i]? = some data[i] := List.getElem?_eq_getElem (by omega)
    have hl : idx ≤ row.length := by omega
    refine ⟨⟨data[i], ?_, ?_⟩, ?_, ?_⟩
    · rw [Int.toNat_ofNat]; exact vecAt_eq_ok _ _ _ hx
    · rw [get_ofNat]
      simp only []
      rw [read2_zipWith _ M.array_ data i idx row data[i] hrow hx]
      exact vecAt_eq_ok _ _ _ (insertAt_eq row data[i] idx hl)
    · intro j hj0 hj
      obtain ⟨j, rfl⟩ := Int.eq_ofNat_of_zero_le hj0
      have hj : j < idx := by omega
      have hjr : j < row.length := by omega
      refine ⟨row[j], ?_, ?_⟩
      · rw [get_natCast_row M i j row hrow]; exact vecAt_ok row j hjr
      · rw [get_ofNat]
        simp only []
        rw [read2_zipWith _ M.array_ data i j row data[i] hrow hx]
        exact vecAt_eq_ok _ _ _
          ((insertAt_lt row data[i] idx j hl hj).trans (List.getElem?_eq_getElem hjr))
    · intro j hj0 hj
      obtain ⟨j, rfl⟩ := Int.eq_ofNat_of_zero_le (le_trans h0 hj0)
      have hj0 : idx ≤ j := by omega
      have hjr : j < row.length := by omega
      refine ⟨row[j], ?_, ?_⟩
      · rw [get_natCast_row M i j row hrow]; exact vecAt_ok row j hjr
      · have hcast : ((j : Int) + 1) = ((j + 1 : Nat) : Int) := by simp
        rw [hcast, get_ofNat]
        simp only []
        rw [read2_zipWith _ M.array_ data i (j + 1) row data[i] hrow hx]
        exact vecAt_eq_ok _ _ _
          ((insertAt_gt row data[i] idx j hl hj0).trans (List.getElem?_eq_getElem hjr))

theorem insert_spec_witness :
    ∃ R : Matrix Int,
      Matrix.insert ({ array_ := [[1, 1], [1, 1]], height_ := 2, width_ := 2 } : Matrix Int)
        1 [3, 3] 0 = .ok R ∧
      R.getHeight = 3 ∧ R.getWidth = 2 ∧ R.getRow 1 = .ok [3, 3] ∧
      R.getRow 0 = .ok [1, 1] ∧ R.getRow 2 = .ok [1, 1] := by
  obtain ⟨R, hR, hh, hw, -, hrow, hlow, hhigh⟩ :=
    (insert_spec ({ array_ := [[1, 1], [1, 1]], height_ := 2, width_ := 2 } : Matrix Int)
      2 2 (by decide) 1 [3, 3] (by decide)).1 (by decide) rfl
  obtain ⟨r0, h0, hr0⟩ := hlow 0 (by decide) (by decide)
  obtain ⟨r2, h2, hr2⟩ := hhigh 1 (by decide) (by decide)
  have e0 : r0 = [1, 1] := (Except.ok.inj h0).symm
  have e2 : r2 = [1, 1] := (Except.ok.inj h2).symm
  exact ⟨R, hR, hh, hw, hrow, e0 ▸ hr0, e2 ▸ hr2⟩

theorem hasShape_erase0 (M : Matrix T) (h w idx : Nat) (hM : M.HasShape h w) (hidx : idx < h) :
    Matrix.HasShape { array_ := M.array_.eraseIdx idx
                      height_ := (h : Int) - 1
                      width_ := w } (h - 1) w := by
  obtain ⟨-, -, h3, h4⟩ := hM
  refine ⟨by simp only []; omega, rfl, ?_, ?_⟩
  · rw [List.length_eraseIdx_of_lt (by omega), h3]
  · intro row hrow
    exact h4 row (List.mem_of_mem_eraseIdx hrow)

theorem hasShape_erase1 (M : Matrix T) (h w idx : Nat) (hM : M.HasShape h w) (hidx : idx < w) :
    Matrix.HasShape { array_ := M.array_.map fun row => row.eraseIdx idx
                      height_ := h
                      width_ := (w : Int) - 1 } h (w - 1) := by
  obtain ⟨-, -, h3, h4⟩ := hM
  refine ⟨rfl, by simp only []; omega, by simp [h3], ?_⟩
  intro row hrow
  obtain ⟨r, hr, rfl⟩ := List.mem_map.mp hrow
  rw [List.length_eraseIdx_of_lt (by rw [h4 r hr]; exact hidx), h4 r hr]

theorem erase_outOfRange (M : Matrix T) (index : Int) :
    ((index < 0 ∨ index ≥ M.height_) → M.erase index 0 = .error (.OutOfRange, M)) ∧
    ((index < 0 ∨ index ≥ M.width_) → M.erase index 1 = .error (.OutOfRange, M)) := by
  constructor
  · intro h; simp [Matrix.erase, h]
  · intro h; simp [Matrix.erase, h]

theorem erase_ok (M : Matrix T) (h w : Nat) (hM : M.HasShape h w) (index : Int)
    (h0 : 0 ≤ index) :
    (index < h → ∃ R, M.erase index 0 = .ok R) ∧ (index < w → ∃ R, M.erase index 1 = .ok R) := by
  obtain ⟨idx, rfl⟩ := Int.eq_ofNat_of_zero_le h0
  exact ⟨fun hi => ⟨_, erase0_eq M h w idx hM (by omega)⟩,
    fun hi => ⟨_, erase1_eq M h w idx hM (by omega)⟩⟩

/-- Claim C9. On an `h x w` matrix `M`, for axis 0 and axis 1: `erase(index, axis)` fails
with OutOfRange exactly when `index < 0` or `index >= size` along the axis; otherwise the
size along the axis goes down by one, the other dimension is unchanged, and the remaining
rows (columns) are those of `M` other than `index`, in order and with their values. -/
theorem erase_spec (M : Matrix T) (h w : Nat) (hM : M.HasShape h w) (index : Int) :
    ((∃ s, M.erase index 0 = .error (.OutOfRange, s)) ↔ (index < 0 ∨ index ≥ h)) ∧
    (0 ≤ index → index < h →
      ∃ R, M.erase index 0 = .ok R ∧ R.getHeight = h - 1 ∧ R.getWidth = w ∧
        R.HasShape (h - 1) w ∧
        (∀ i : Int, 0 ≤ i → i < index → ∃ row, M.getRow i = .ok row ∧ R.getRow i = .ok row) ∧
        (∀ i : Int, index ≤ i → i < h - 1 →
          ∃ row, M.getRow (i + 1) = .ok row ∧ R.getRow i = .ok row)) ∧
    ((∃ s, M.erase index 1 = .error (.OutOfRange, s)) ↔ (index < 0 ∨ index ≥ w)) ∧
    (0 ≤ index → index < w →
      ∃ R, M.erase index 1 = .ok R ∧ R.getHeight = h ∧ R.getWidth = w - 1 ∧
        R.HasShape h (w - 1) ∧
        ∀ i : Int, 0 ≤ i → i < h →
          (∀ j : Int, 0 ≤ j → j < index → ∃ v, M.get i j = .ok v ∧ R.get i j = .ok v) ∧
          (∀ j : Int, index ≤ j → j < w - 1 →
            ∃ v, M.get i (j + 1) = .ok v ∧ R.get i j = .ok v)) := by
  have ok0 : 0 ≤ index → index < h →
      ∃ R, M.erase index 0 = .ok R ∧ R.getHeight = h - 1 ∧ R.getWidth = w ∧
        R.HasShape (h - 1) w ∧
        (∀ i : Int, 0 ≤ i → i < index → ∃ row, M.getRow i = .ok row ∧ R.getRow i = .ok row) ∧
        (∀ i : Int, index ≤ i → i < h - 1 →
          ∃ row, M.getRow (i + 1) = .ok row ∧ R.getRow i = .ok row) := by
    intro h0 hidx
    obtain ⟨idx, rfl⟩ := Int.eq_ofNat_of_zero_le h0
    have hidx : idx < h := by omega
    refine ⟨_, erase0_eq M h w idx hM hidx, rfl, rfl, hasShape_erase0 M h w idx hM hidx, ?_, ?_⟩
    · intro i hi0 hi
      obtain ⟨i, rfl⟩ := Int.eq_ofNat_of_zero_le hi0
      have hi : i < idx := by omega
      obtain ⟨row, hrow, -⟩ := rect_row M.array_ h w i hM.rect (by omega)
      refine ⟨row, ?_, ?_⟩
      · rw [getRow_natCast]; exact vecAt_eq_ok _ _ _ hrow
      · rw [getRow_natCast]
        exact vecAt_eq_ok _ _ _ ((List.getElem?_eraseIdx_of_lt M.array_ idx i hi).trans hrow)
    · intro i hi0 hi
      obtain ⟨i, rfl⟩ := Int.eq_ofNat_of_zero_le (le_trans h0 hi0)
      have hi0 : idx ≤ i := by omega
      obtain ⟨row, hrow, -⟩ := rect_row M.array_ h w (i + 1) hM.rect (by omega)
      refine ⟨row, ?_, ?_⟩
      · have hcast : ((i : Int) + 1) = ((i + 1 : Nat) : Int) := by simp
        rw [hcast, getRow_natCast]; exact vecAt_eq_ok _ _ _ hrow
      · rw [getRow_natCast]
        exact vecAt_eq_ok _ _ _ ((List.getElem?_eraseIdx_of_ge M.array_ idx i hi0).trans hrow)
  have ok1 : 0 ≤ index → index < w →
      ∃ R, M.erase index 1 = .ok R ∧ R.getHeight = h ∧ R.getWidth = w - 1 ∧
        R.HasShape h (w - 1) ∧
        ∀ i : Int, 0 ≤ i → i < h →
          (∀ j : Int, 0 ≤ j → j < index → ∃ v, M.get i j = .ok v ∧ R.get i j = .ok v) ∧
          (∀ j : Int, index ≤ j → j < w - 1 →
            ∃ v, M.get i (j + 1) = .ok v ∧ R.get i j = .ok v) := by
    intro h0 hidx
    obtain ⟨idx, rfl⟩ := Int.eq_ofNat_of_zero_le h0
    have hidx : idx < w := by omega
    refine ⟨_, erase1_eq M h w idx hM hidx, rfl, rfl, hasShape_erase1 M h w idx hM hidx, ?_⟩
    intro i hi0 hi
    obtain ⟨i, rfl⟩ := Int.eq_ofNat_of_zero_le hi0
    have hi : i < h := by omega
    obtain ⟨row, hrow, hlen⟩ := rect_row M.array_ h w i hM.rect hi
    refine ⟨?_, ?_⟩
    · intro j hj0 hj
      obtain ⟨j, rfl⟩ := Int.eq_ofNat_of_zero_le hj0
      have hj : j < idx := by omega
      have hjr : j < row.length := by omega
      refine ⟨row[j], ?_, ?_⟩
      · rw [get_natCast_row M i j row hrow]; exact vecAt_ok row j hjr
      · rw [get_ofNat]
        simp only []
        rw [read2_map _ M.array_ i j row hrow]
        exact vecAt_eq_ok _ _ _
          ((List.getElem?_eraseIdx_of_lt row idx j hj).trans (List.getElem?_eq_getElem hjr))
    · intro j hj0 hj
      obtain ⟨j, rfl⟩ := Int.eq_ofNat_of_zero_le (le_trans h0 hj0)
      have hj0 : idx ≤ j := by omega
      have hjr : j + 1 < row.length := by omega
      refine ⟨row[j + 1], ?_, ?_⟩
      · have hcast : ((j : Int) + 1) = ((j + 1 : Nat) : Int) := by simp
        rw [hcast, get_natCast_row M i (j + 1) row hrow]; exact vecAt_ok row (j + 1) hjr
      · rw [get_ofNat]
        simp only []
        rw [read2_map _ M.array_ i j row hrow]
        exact vecAt_eq_ok _ _ _
          ((List.getElem?_eraseIdx_of_ge row idx j hj0).trans (List.getElem?_eq_getElem hjr))
  refine ⟨⟨?_, ?_⟩, ok0, ⟨?_, ?_⟩, ok1⟩
  · rintro ⟨s, hs⟩
    by_contra hc
    obtain ⟨R, hR, _⟩ := ok0 (by omega) (by omega)
    rw [hR] at hs
    cases hs
  · intro hc
    exact ⟨M, (erase_outOfRange M index).1 (by rw [hM.1]; exact hc)⟩
  · rintro ⟨s, hs⟩
    by_contra hc
    obtain ⟨R, hR, _⟩ := ok1 (by omega) (by omega)
    rw [hR] at hs
    cases hs
  · intro hc
    exact ⟨M, (erase_outOfRange M index).2 (by rw [hM.2.1]; exact hc)⟩

theorem erase_spec_witness :
    ∃ R : Matrix Int,
      Matrix.erase ({ array_ := [[1, 1, 1], [1, 1, 1], [1, 1, 1]], height_ := 3, width_ := 3 } :
        Matrix Int) 1 0 = .ok R ∧
      R.getHeight = 2 ∧ R.getWidth = 3 ∧ R.getRow 0 = .ok [1, 1, 1] ∧ R.getRow 1 = .ok [1, 1, 1] := by
  obtain ⟨R, hR, hh, hw, -, hlow, hhigh⟩ :=
    (erase_spec ({ array_ := [[1, 1, 1], [1, 1, 1], [1, 1, 1]], height_ := 3, width_ := 3 } :
      Matrix Int) 3 3 (by decide) 1).2.1 (by decide) (by decide)
  obtain ⟨r0, h0, hr0⟩ := hlow 0 (by decide) (by decide)
  obtain ⟨r1, h1, hr1⟩ := hhigh 1 (by decide) (by decide)
  have e0 : r0 = [1, 1, 1] := (Except.ok.inj h0).symm
  have e1 : r1 = [1, 1, 1] := (Except.ok.inj h1).symm
  exact ⟨R, hR, hh, hw, e0 ▸ hr0, e1 ▸ hr1⟩

theorem Matrix.HasShape.eta {M : Matrix T} {h w : Nat} (hM : M.HasShape h w) :
    ({ array_ := M.array_, height_ := h, width_ := w } : Matrix T) = M := by
  obtain ⟨h1, h2, -, -⟩ := hM
  cases M
  simp only [] at h1 h2
  simp [h1, h2]

theorem map_eraseIdx_zipWith (arr : List (List T)) (data : List T) (h w idx : Nat)
    (ha : Rect arr h w) (hdata : data.length = h) (hidx : idx ≤ w) :
    (List.zipWith (fun row x => row.take idx ++ x :: row.drop idx) arr data).map
      (fun row => row.eraseIdx idx) = arr := by
  apply List.ext_getElem?
  intro i
  by_cases hi : i < h
  · obtain ⟨row, hrow, hlen⟩ := rect_row arr h w i ha hi
    have hx : data[i]? = some data[i] := List.getElem?_eq_getElem (by omega)
    simp only [List.getElem?_map, List.getElem?_zipWith, hrow, hx, Option.map_some',
      Option.bind_some]
    rw [eraseIdx_insertAt row data[i] idx (by omega)]
  · rw [List.getElem?_eq_none (by simp [ha.1, hdata]; omega),
      List.getElem?_eq_none (by rw [ha.1]; omega)]

/-- Claim C5, counterexample. On the empty matrix (0 x 0), `insert(0, [1, 2], 0)` is
accepted and `erase(0, 0)` then succeeds, but the result has width 2, not the original 0. -/
theorem insert_erase_counterexample :
    (Matrix.empty : Matrix Int).HasShape 0 0 ∧
    ∃ R1 R2 : Matrix Int, (Matrix.empty : Matrix Int).insert 0 [1, 2] 0 = .ok R1 ∧
      R1.erase 0 0 = .ok R2 ∧ R2.getHeight = 0 ∧ R2.getWidth = 2 ∧
      R2.getWidth ≠ (Matrix.empty : Matrix Int).getWidth :=
  ⟨by decide, _, _, rfl, rfl, rfl, rfl, by decide⟩

/-- Claim C5, amended. On an `h x w` matrix `M` (also with `h = 0` or `w = 0`), for either
axis, every index in `[0, size]` and every data vector whose length equals the orthogonal
dimension (`w` for axis 0, `h` for axis 1): `insert(index, data, axis)` followed by
`erase(index, axis)` succeeds and gives back `M`: same height, width and elements. -/
theorem insert_erase_spec (M : Matrix T) (h w : Nat) (hM : M.HasShape h w) (index : Int)
    (data : List T) (h0 : 0 ≤ index) :
    (index ≤ h → data.length = w →
      ∃ R, M.insert index data 0 = .ok R ∧ R.erase index 0 = .ok M) ∧
    (index ≤ w → data.length = h →
      ∃ R, M.insert index data 1 = .ok R ∧ R.erase index 1 = .ok M) := by
  obtain ⟨idx, rfl⟩ := Int.eq_ofNat_of_zero_le h0
  constructor
  · intro hidx hdata
    have hidx : idx ≤ h := by omega
    have hres := insert0_eq M h w idx data hM hidx (Or.inl hdata)
    have hwid : (if w = 0 then (data.length : Int) else (w : Int)) = w := by
      split
      · rw [hdata]
      · rfl
    rw [hwid] at hres
    refine ⟨_, hres, ?_⟩
    rw [erase0_eq _ (h + 1) w idx (hasShape_insert0 M h w idx data hM hidx hdata) (by omega)]
    simp only []
    rw [eraseIdx_insertAt M.array_ data idx (by rw [hM.2.2.1]; exact hidx)]
    have hcast : (((h + 1 : Nat) : Int) - 1) = (h : Int) := by simp
    rw [hcast, hM.eta]
  · intro hidx hdata
    have hidx : idx ≤ w := by omega
    refine ⟨_, insert1_eq M h w idx data hM hidx hdata, ?_⟩
    rw [erase1_eq _ h (w + 1) idx (hasShape_insert1 M h w idx data hM hidx hdata) (by omega)]
    simp only []
    rw [map_eraseIdx_zipWith M.array_ data h w idx hM.rect hdata hidx]
    have hcast : (((w + 1 : Nat) : Int) - 1) = (w : Int) := by simp
    rw [hcast, hM.eta]

theorem insert_erase_spec_witness :
    ∃ R : Matrix Int,
      Matrix.insert ({ array_ := [[1, 2], [3, 4]], height_ := 2, width_ := 2 } : Matrix Int)
        1 [8, 9] 1 = .ok R ∧
      R.erase 1 1 = .ok { array_ := [[1, 2], [3, 4]], height_ := 2, width_ := 2 } :=
  (insert_erase_spec ({ array_ := [[1, 2], [3, 4]], height_ := 2, width_ := 2 } : Matrix Int)
    2 2 (by decide) 1 [8, 9] (by decide)).2 (by decide) rfl

theorem sizeT_of_nonneg (x : Int) (hx : 0 ≤ x) : ((sizeT x : Nat) : Int) = x := by
  simp [sizeT, hx]

theorem length_ne_sizeT (n : Nat) (x : Int) (hx : 0 ≤ x) : n ≠ sizeT x ↔ (n : Int) ≠ x := by
  have := sizeT_of_nonneg x hx
  constructor
  · intro h c; apply h; omega
  · intro h c; apply h; omega

/-- Claim C7, counterexample. On a 2 x 2 matrix, `insert(5, [1], 0)` has an index above the
height, yet fails with InvalidArgument, not OutOfRange: the length check comes first. -/
theorem insert_index_counterexample :
    Matrix.insert ({ array_ := [[1, 1], [1, 1]], height_ := 2, width_ := 2 } : Matrix Int)
        5 [1] 0
      = .error (.InvalidArgument, { array_ := [[1, 1], [1, 1]], height_ := 2, width_ := 2 }) ∧
    ¬ ∃ s, Matrix.insert ({ array_ := [[1, 1], [1, 1]], height_ := 2, width_ := 2 } : Matrix Int)
        5 [1] 0 = .error (.OutOfRange, s) := by
  refine ⟨rfl, ?_⟩
  rintro ⟨s, hs⟩
  have h : Matrix.insert ({ array_ := [[1, 1], [1, 1]], height_ := 2, width_ := 2 } : Matrix Int)
      5 [1] 0
      = .error (.InvalidArgument, { array_ := [[1, 1], [1, 1]], height_ := 2, width_ := 2 }) := rfl
  rw [h] at hs
  cases hs

/-- Claim C7, amended. For every matrix (non-negative height and width), either axis and
every data vector, `insert(index, data, axis)` with `index < 0` or `index > size` fails:
with OutOfRange when the data passes the length check (axis 0: `len(data) = width` or
`width = 0`; axis 1: `len(data) = height`), with InvalidArgument otherwise, the matrix
being left as it was. With `index = size` and data of the matching length, `insert`
succeeds on every matrix whose rows all have `width` elements. -/
theorem insert_index_spec (M : Matrix T) (index : Int) (data : List T)
    (hh : 0 ≤ M.height_) (hw : 0 ≤ M.width_) :
    ((index < 0 ∨ index > M.height_) →
      (((data.length : Int) = M.width_ ∨ M.width_ = 0) →
        M.insert index data 0 = .error (.OutOfRange, M)) ∧
      (¬ ((data.length : Int) = M.width_ ∨ M.width_ = 0) →
        M.insert index data 0 = .error (.InvalidArgument, M))) ∧
    ((index < 0 ∨ index > M.width_) →
      ((data.length : Int) = M.height_ → M.insert index data 1 = .error (.OutOfRange, M)) ∧
      ((data.length : Int) ≠ M.height_ →
        M.insert index data 1 = .error (.InvalidArgument, M))) ∧
    (M.WF → (data.length : Int) = M.width_ → ∃ R, M.insert M.height_ data 0 = .ok R) ∧
    (M.WF → (data.length : Int) = M.height_ → ∃ R, M.insert M.width_ data 1 = .ok R) := by
  refine ⟨?_, ?_, ?_, ?_⟩
  · intro hidx
    constructor
    · intro hlen
      have hchk : ¬ (data.length ≠ sizeT M.width_ ∧ M.width_ ≠ 0) := by
        rw [length_ne_sizeT _ _ hw]
        rcases hlen with h | h
        · exact fun c => c.1 h
        · exact fun c => c.2 h
      simp only [Matrix.insert, if_true, hchk, if_false, hidx]
    · intro hlen
      have hchk : data.length ≠ sizeT M.width_ ∧ M.width_ ≠ 0 := by
        rw [length_ne_sizeT _ _ hw]
        exact ⟨fun c => hlen (Or.inl c), fun c => hlen (Or.inr c)⟩
      unfold Matrix.insert
      rw [if_pos rfl, if_pos hchk]
  · intro hidx
    constructor
    · intro hlen
      have hchk : ¬ (data.length ≠ sizeT M.height_) := by
        rw [length_ne_sizeT _ _ hh]; exact fun c => c hlen
      simp only [Matrix.insert, one_ne_zero, if_false, if_true, hchk, hidx]
    · intro hlen
      have hchk : data.length ≠ sizeT M.height_ := by
        rw [length_ne_sizeT _ _ hh]; exact hlen
      unfold Matrix.insert
      rw [if_neg (by decide), if_pos rfl, if_pos hchk]
  · intro hM hlen
    have hS := hM.hasShape
    have e1 : ((M.height_.toNat : Nat) : Int) = M.height_ := Int.toNat_of_nonneg hh
    have e2 : ((M.width_.toNat : Nat) : Int) = M.width_ := Int.toNat_of_nonneg hw
    have := insert0_eq M M.height_.toNat M.width_.toNat M.height_.toNat data hS (Nat.le_refl _)
      (Or.inl (by omega))
    rw [e1] at this
    exact ⟨_, this⟩
  · intro hM hlen
    have hS := hM.hasShape
    have e1 : ((M.height_.toNat : Nat) : Int) = M.height_ := Int.toNat_of_nonneg hh
    have e2 : ((M.width_.toNat : Nat) : Int) = M.width_ := Int.toNat_of_nonneg hw
    have := insert1_eq M M.height_.toNat M.width_.toNat M.width_.toNat data hS (Nat.le_refl _)
      (by omega)
    rw [e2] at this
    exact ⟨_, this⟩

theorem insert_index_spec_witness :
    Matrix.insert ({ array_ := [[1, 1], [1, 1]], height_ := 2, width_ := 2 } : Matrix Int)
        3 [7, 7] 0
      = .error (.OutOfRange, { array_ := [[1, 1], [1, 1]], height_ := 2, width_ := 2 }) :=
  ((insert_index_spec ({ array_ := [[1, 1], [1, 1]], height_ := 2, width_ := 2 } : Matrix Int)
    3 [7, 7] (by decide) (by decide)).1 (by decide)).1 (by decide)

/-- Claim C8, counterexample. A matrix with height 0 and width 3 (as `Matrix(0, 3)` builds
it, or as erasing the only row of a 1 x 3 matrix leaves it) rejects a first row of length
2 with InvalidArgument: the length is adopted only when the width is 0. -/
theorem insert_first_counterexample :
    Matrix.sized 0 3 = .ok ({ array_ := [], height_ := 0, width_ := 3 } : Matrix Int) ∧
    Matrix.insert ({ array_ := [], height_ := 0, width_ := 3 } : Matrix Int) 0 [1, 2] 0
      = .error (.InvalidArgument, { array_ := [], height_ := 0, width_ := 3 }) :=
  ⟨rfl, rfl⟩

/-- Claim C8, amended. Inserting a row into a matrix of width 0 adopts the data's length
as the width: on every matrix with height 0 and width 0 and for every data vector of
length `n`, `insert(0, data, 0)` succeeds and gives height 1 and width `n`. On axis 0, for
an index in `[0, height]`, `insert` fails with InvalidArgument exactly when the width is
not 0 and differs from `len(data)`. On every `h x 0` matrix and for every data vector of
length `h`, `insert(0, data, 1)` succeeds and gives width 1 and height `h`. -/
theorem insert_first_spec (M : Matrix T) (h w : Nat) (hM : M.HasShape h w) (data : List T) :
    (h = 0 → w = 0 →
      ∃ R, M.insert 0 data 0 = .ok R ∧ R.getHeight = 1 ∧ R.getWidth = data.length) ∧
    (∀ index : Int, 0 ≤ index → index ≤ h →
      ((∃ s, M.insert index data 0 = .error (.InvalidArgument, s)) ↔
        (w ≠ 0 ∧ data.length ≠ w))) ∧
    (w = 0 → data.length = h →
      ∃ R, M.insert 0 data 1 = .ok R ∧ R.getWidth = 1 ∧ R.getHeight = data.length) := by
  refine ⟨?_, ?_, ?_⟩
  · intro hh hw
    subst hh hw
    have := insert0_eq M 0 0 0 data hM (Nat.le_refl 0) (Or.inr rfl)
    exact ⟨_, this, rfl, rfl⟩
  · intro index h0 hidx
    obtain ⟨idx, rfl⟩ := Int.eq_ofNat_of_zero_le h0
    have hidx : idx ≤ h := by omega
    constructor
    · rintro ⟨s, hs⟩
      by_contra hc
      have hdata : data.length = w ∨ w = 0 := by
        by_cases hw : w = 0
        · exact Or.inr hw
        · left
          by_contra hne
          exact hc ⟨hw, hne⟩
      rw [insert0_eq M h w idx data hM hidx hdata] at hs
      cases hs
    · rintro ⟨hw, hne⟩
      have hw' : (w : Int) ≠ 0 := by exact_mod_cast hw
      refine ⟨M, ?_⟩
      simp [Matrix.insert, hM.2.1, sizeT_natCast, hne, hw']
  · intro hw hdata
    subst hw
    have := insert1_eq M h 0 0 data hM (Nat.le_refl 0) hdata
    refine ⟨_, this, rfl, ?_⟩
    simp [Matrix.getHeight, hdata]

theorem insert_first_spec_witness :
    ∃ R : Matrix Int, (Matrix.empty : Matrix Int).insert 0 [4, 5, 6] 0 = .ok R ∧
      R.getHeight = 1 ∧ R.getWidth = 3 :=
  (insert_first_spec (Matrix.empty : Matrix Int) 0 0 (by decide) [4, 5, 6]).1 rfl rfl

/-! ## Appending and removing at the end -/

theorem insertAt_length {α : Type} (l : List α) (x : α) (n : Nat) (hn : n = l.length) :
    l.take n ++ x :: l.drop n = vecPushBack l x := by
  subst hn
  simp [vecPushBack]

theorem eraseIdx_last {α : Type} (l : List α) (n : Nat) (hn : n + 1 = l.length) :
    l.eraseIdx n = l.dropLast :=
  (List.dropLast_eq_eraseIdx hn).symm

theorem push_back0_eq_insert (M : Matrix T) (h w : Nat) (hM : M.HasShape h w) (data : List T) :
    M.push_back data 0 = M.insert h data 0 := by
  by_cases hchk : data.length ≠ sizeT M.width_ ∧ M.width_ ≠ 0
  · unfold Matrix.push_back Matrix.insert
    rw [if_pos rfl, if_pos hchk, if_pos rfl, if_pos hchk]
  · have hdata : data.length = w ∨ w = 0 := by
      rw [hM.2.1, sizeT_natCast] at hchk
      by_cases hw : w = 0
      · exact Or.inr hw
      · left
        by_contra hne
        exact hchk ⟨hne, by exact_mod_cast hw⟩
    rw [insert0_eq M h w h data hM (Nat.le_refl h) hdata]
    unfold Matrix.push_back
    rw [if_pos rfl, if_neg hchk, insertAt_length M.array_ data h hM.2.2.1.symm]
    obtain ⟨h1, h2, -, -⟩ := hM
    by_cases hw : w = 0
    · simp [h1, h2, hw]
    · have : (w : Int) ≠ 0 := by exact_mod_cast hw
      simp [h1, h2, hw, this]

theorem push_back1_eq_insert (M : Matrix T) (h w : Nat) (hM : M.HasShape h w) (data : List T) :
    M.push_back data 1 = M.insert w data 1 := by
  by_cases hchk : data.length ≠ sizeT M.height_
  · unfold Matrix.push_back Matrix.insert
    rw [if_neg (by decide), if_pos rfl, if_pos hchk, if_neg (by decide), if_pos rfl, if_pos hchk]
  · have hdata : data.length = h := by
      rw [hM.1, sizeT_natCast] at hchk
      exact not_not.mp hchk
    rw [insert1_eq M h w w data hM (Nat.le_refl w) hdata]
    obtain ⟨h1, h2, h3, h4⟩ := hM
    have hloop := rowLoop_spec (fun i arr => do
        let row ← vecAt arr i
        let x ← vecAt data i
        pure (arr.set i (vecPushBack row x))) h M.array_
      (List.zipWith (fun row x => row.take w ++ x :: row.drop w) M.array_ data) h3
      (by simp [h3, hdata]) (by
        intro i hi arr' _ hrow
        have hi1 : i < M.array_.length := by omega
        have hi2 : i < data.length := by omega
        have hlenrow : (M.array_[i]).length = w := h4 _ (List.getElem_mem hi1)
        refine ⟨(M.array_[i]).take w ++ data[i] :: (M.array_[i]).drop w, ?_, ?_⟩
        · simp [List.getElem?_zipWith, List.getElem?_eq_getElem hi1,
            List.getElem?_eq_getElem hi2]
        · rw [List.getElem?_eq_getElem hi1] at hrow
          rw [insertAt_length _ _ w hlenrow.symm]
          simp only [vecAt_eq_ok arr' i _ hrow,
            vecAt_eq_ok data i _ (List.getElem?_eq_getElem hi2), bind, Except.bind, pure,
            Except.pure])
    simp only [bind, Except.bind] at hloop
    unfold Matrix.push_back
    rw [if_neg (by decide), if_pos rfl, if_neg hchk]
    simp only [h1, h2, sizeT_natCast, bind, Except.bind, hloop]

theorem pop_back0_eq_erase (M : Matrix T) (h w : Nat) (hM : M.HasShape h w) :
    M.pop_back 0 = M.erase ((h : Int) - 1) 0 := by
  by_cases hh : h = 0
  · subst hh
    rw [(erase_outOfRange M _).1 (Or.inl (by simp))]
    simp [Matrix.pop_back, hM.1]
  · have hcast : ((h : Int) - 1) = ((h - 1 : Nat) : Int) := by omega
    rw [hcast, erase0_eq M h w (h - 1) hM (by omega),
      eraseIdx_last M.array_ (h - 1) (by rw [hM.2.2.1]; omega)]
    obtain ⟨h1, h2, h3, -⟩ := hM
    have hh' : (h : Int) ≠ 0 := by exact_mod_cast hh
    simp [Matrix.pop_back, h1, h2, hh', vecPopBack, h3, hh]

theorem pop_back1_eq_erase (M : Matrix T) (h w : Nat) (hM : M.HasShape h w) :
    M.pop_back 1 = M.erase ((w : Int) - 1) 1 := by
  by_cases hw : w = 0
  · subst hw
    rw [(erase_outOfRange M _).2 (Or.inl (by simp))]
    simp [Matrix.pop_back, hM.2.1]
  · have hcast : ((w : Int) - 1) = ((w - 1 : Nat) : Int) := by omega
    rw [hcast, erase1_eq M h w (w - 1) hM (by omega)]
    obtain ⟨h1, h2, h3, h4⟩ := hM
    have hloop := rowLoop_spec (fun i arr => do
        let row ← vecAt arr i
        let row' ← vecPopBack row
        pure (arr.set i row')) h M.array_ (M.array_.map fun row => row.eraseIdx (w - 1)) h3
      (by simp [h3]) (by
        intro i hi arr' _ hrow
        have hi1 : i < M.array_.length := by omega
        have hlenrow : (M.array_[i]).length = w := h4 _ (List.getElem_mem hi1)
        refine ⟨(M.array_[i]).eraseIdx (w - 1), ?_, ?_⟩
        · simp [List.getElem?_eq_getElem hi1]
        · rw [List.getElem?_eq_getElem hi1] at hrow
          rw [eraseIdx_last _ (w - 1) (by omega)]
          have hne : ¬ (M.array_[i]).length = 0 := by omega
          simp only [vecAt_eq_ok arr' i _ hrow, vecPopBack, hne, if_false, bind, Except.bind,
            pure, Except.pure])
    simp only [bind, Except.bind] at hloop
    have hw' : (w : Int) ≠ 0 := by exact_mod_cast hw
    unfold Matrix.pop_back
    rw [if_neg (by decide), if_pos rfl, if_neg (by rw [h2]; exact hw')]
    simp only [h1, h2, sizeT_natCast, bind, Except.bind, hloop]

/-- Claim C10. On every matrix whose rows all have `width` elements: `push_back(data, axis)`
has the same outcome (same resulting matrix, or same exception and same receiver) as
`insert(size, data, axis)`, and `pop_back(axis)` the same outcome as `erase(size - 1, axis)`,
with `size` the height for axis 0 and the width for axis 1; for any other axis the four
methods all fail with InvalidArgument. `pop_back` fails with OutOfRange exactly when the
size along the axis is 0. -/
theorem push_pop_spec (M : Matrix T) (hM : M.WF) (data : List T) :
    M.push_back data 0 = M.insert M.height_ data 0 ∧
    M.push_back data 1 = M.insert M.width_ data 1 ∧
    M.pop_back 0 = M.erase (M.height_ - 1) 0 ∧
    M.pop_back 1 = M.erase (M.width_ - 1) 1 ∧
    (∀ axis index : Int, axis ≠ 0 → axis ≠ 1 →
      M.push_back data axis = .error (.InvalidArgument, M) ∧
      M.insert index data axis = .error (.InvalidArgument, M) ∧
      M.pop_back axis = .error (.InvalidArgument, M) ∧
      M.erase index axis = .error (.InvalidArgument, M)) ∧
    ((∃ s, M.pop_back 0 = .error (.OutOfRange, s)) ↔ M.height_ = 0) ∧
    ((∃ s, M.pop_back 1 = .error (.OutOfRange, s)) ↔ M.width_ = 0) := by
  have hS := hM.hasShape
  have e1 : ((M.height_.toNat : Nat) : Int) = M.height_ := hS.1.symm
  have e2 : ((M.width_.toNat : Nat) : Int) = M.width_ := hS.2.1.symm
  have p0 := push_back0_eq_insert M _ _ hS data
  have p1 := push_back1_eq_insert M _ _ hS data
  have q0 := pop_back0_eq_erase M _ _ hS
  have q1 := pop_back1_eq_erase M _ _ hS
  rw [e1] at p0 q0
  rw [e2] at p1 q1
  refine ⟨p0, p1, q0, q1, ?_, ?_, ?_⟩
  · intro axis index h0 h1
    simp [Matrix.push_back, Matrix.insert, Matrix.pop_back, Matrix.erase, h0, h1]
  · constructor
    · rintro ⟨s, hs⟩
      by_contra hne
      have hpos : 0 ≤ M.height_ - 1 ∧ M.height_ - 1 < M.height_.toNat := by omega
      obtain ⟨R, hR⟩ := (erase_ok M _ _ hS (M.height_ - 1) hpos.1).1 hpos.2
      rw [q0, hR] at hs
      cases hs
    · intro hz
      exact ⟨M, by simp [Matrix.pop_back, hz]⟩
  · constructor
    · rintro ⟨s, hs⟩
      by_contra hne
      have hpos : 0 ≤ M.width_ - 1 ∧ M.width_ - 1 < M.width_.toNat := by omega
      obtain ⟨R, hR⟩ := (erase_ok M _ _ hS (M.width_ - 1) hpos.1).2 hpos.2
      rw [q1, hR] at hs
      cases hs
    · intro hz
      exact ⟨M, by simp [Matrix.pop_back, hz]⟩

theorem push_pop_spec_witness :
    Matrix.push_back ({ array_ := [[1, 1], [1, 1]], height_ := 2, width_ := 2 } : Matrix Int)
        [3, 3] 0
      = Matrix.insert ({ array_ := [[1, 1], [1, 1]], height_ := 2, width_ := 2 } : Matrix Int)
        2 [3, 3] 0 ∧
    Matrix.pop_back ({ array_ := [[1, 1], [1, 1]], height_ := 2, width_ := 2 } : Matrix Int) 1
      = Matrix.erase ({ array_ := [[1, 1], [1, 1]], height_ := 2, width_ := 2 } : Matrix Int)
        (2 - 1) 1 :=
  ⟨(push_pop_spec ({ array_ := [[1, 1], [1, 1]], height_ := 2, width_ := 2 } : Matrix Int)
      (by decide) [3, 3]).1,
    (push_pop_spec ({ array_ := [[1, 1], [1, 1]], height_ := 2, width_ := 2 } : Matrix Int)
      (by decide) [3, 3]).2.2.2.1⟩

/-! ## Invalid axis, atomic failure, `put` -/

/-- Claim C11. For every axis other than 0 and 1, every matrix and every other argument:
`insert`, `push_back`, `pop_back`, `erase`, `sum(axis)` and `cumuSum(axis)` fail with
InvalidArgument, while `max(axis)` and `min(axis)` raise nothing and return an empty list. -/
theorem invalid_axis_spec [Add T] [Zero T] [LT T] [DecidableRel ((· < ·) : T → T → Prop)]
    (M : Matrix T) (axis : Int) (h0 : axis ≠ 0) (h1 : axis ≠ 1) (index : Int) (data : List T) :
    M.insert index data axis = .error (.InvalidArgument, M) ∧
    M.push_back data axis = .error (.InvalidArgument, M) ∧
    M.pop_back axis = .error (.InvalidArgument, M) ∧
    M.erase index axis = .error (.InvalidArgument, M) ∧
    M.sum_axis axis = .error .InvalidArgument ∧
    M.cumuSum axis = .error .InvalidArgument ∧
    M.max_axis axis = .ok [] ∧
    M.min_axis axis = .ok [] := by
  refine ⟨?_, ?_, ?_, ?_, ?_, ?_, ?_, ?_⟩
  · simp [Matrix.insert, h0, h1]
  · simp [Matrix.push_back, h0, h1]
  · simp [Matrix.pop_back, h0, h1]
  · simp [Matrix.erase, h0, h1]
  · simp [Matrix.sum_axis, h0, h1]
  · simp [Matrix.cumuSum, h0, h1]
  · simp [Matrix.max_axis, h0, h1]
  · simp [Matrix.min_axis, h0, h1]

theorem invalid_axis_spec_witness :
    Matrix.sum_axis ({ array_ := [[1, 2], [3, 4]], height_ := 2, width_ := 2 } : Matrix Int) 2
      = .error .InvalidArgument ∧
    Matrix.max_axis ({ array_ := [[1, 2], [3, 4]], height_ := 2, width_ := 2 } : Matrix Int) 2
      = .ok [] :=
  have h := invalid_axis_spec
    ({ array_ := [[1, 2], [3, 4]], height_ := 2, width_ := 2 } : Matrix Int) 2
    (by decide) (by decide) 0 []
  ⟨h.2.2.2.2.1, h.2.2.2.2.2.2.1⟩

theorem outcome_error_state {x : Error × Matrix T} {e : Error} {s M : Matrix T}
    (h : (Except.error x : Outcome T) = .error (e, s)) (hx : x.2 = M) : s = M := by
  cases h
  exact hx

theorem insert_error_state (M : Matrix T) (index : Int) (data : List T) (axis : Int)
    (e : Error) (s : Matrix T) (h : M.insert index data axis = .error (e, s)) : s = M := by
  unfold Matrix.insert at h
  dsimp only at h
  repeat' split at h
  all_goals first
    | exact outcome_error_state h rfl
    | cases h

theorem erase_error_state (M : Matrix T) (index : Int) (axis : Int)
    (e : Error) (s : Matrix T) (h : M.erase index axis = .error (e, s)) : s = M := by
  unfold Matrix.erase at h
  repeat' split at h
  all_goals first
    | exact outcome_error_state h rfl
    | cases h

theorem push_back_error_state (M : Matrix T) (data : List T) (axis : Int)
    (e : Error) (s : Matrix T) (h : M.push_back data axis = .error (e, s)) : s = M := by
  unfold Matrix.push_back at h
  dsimp only at h
  repeat' split at h
  all_goals first
    | exact outcome_error_state h rfl
    | cases h

theorem pop_back_error_state (M : Matrix T) (axis : Int)
    (e : Error) (s : Matrix T) (h : M.pop_back axis = .error (e, s)) : s = M := by
  unfold Matrix.pop_back at h
  repeat' split at h
  all_goals first
    | exact outcome_error_state h rfl
    | cases h

theorem put_error_state (M : Matrix T) (r c : Int) (v : T)
    (e : Error) (s : Matrix T) (h : M.put r c v = .error (e, s)) : s = M := by
  unfold Matrix.put at h
  repeat' split at h
  all_goals first
    | exact outcome_error_state h rfl
    | cases h

theorem zipCellsAssign_error_state (op : T → T → Except Error T) (M m : Matrix T)
    (e : Error) (s : Matrix T) (h : M.zipCellsAssign op m = .error (e, s)) : s = M := by
  unfold Matrix.zipCellsAssign at h
  repeat' split at h
  all_goals first
    | exact outcome_error_state h rfl
    | cases h

theorem broadcastCellsAssign_error_state (op : T → T → Except Error T) (M : Matrix T)
    (v : List T) (e : Error) (s : Matrix T)
    (h : M.broadcastCellsAssign op v = .error (e, s)) : s = M := by
  unfold Matrix.broadcastCellsAssign at h
  repeat' split at h
  all_goals first
    | exact outcome_error_state h rfl
    | cases h

/-- Claim C12. Failure is atomic: when `insert`, `push_back`, `erase`, `pop_back`, `put`
or a compound assignment with a matrix or vector operand fails with InvalidArgument or
OutOfRange, the receiver is what it was before the call (same height, width, elements). -/
theorem failure_atomic [Add T] [Sub T] [Mul T] [NativeDiv T] (M : Matrix T) (e : Error)
    (s : Matrix T) (_he : e = .InvalidArgument ∨ e = .OutOfRange) :
    (∀ index data axis, M.insert index data axis = .error (e, s) → s = M) ∧
    (∀ data axis, M.push_back data axis = .error (e, s) → s = M) ∧
    (∀ index axis, M.erase index axis = .error (e, s) → s = M) ∧
    (∀ axis, M.pop_back axis = .error (e, s) → s = M) ∧
    (∀ r c v, M.put r c v = .error (e, s) → s = M) ∧
    (∀ m, M.operator_add_assign m = .error (e, s) → s = M) ∧
    (∀ m, M.operator_sub_assign m = .error (e, s) → s = M) ∧
    (∀ m, M.operator_mul_assign m = .error (e, s) → s = M) ∧
    (∀ m, M.operator_div_assign m = .error (e, s) → s = M) ∧
    (∀ v, M.operator_mul_assign_vector v = .error (e, s) → s = M) ∧
    (∀ v, M.operator_div_assign_vector v = .error (e, s) → s = M) :=
  ⟨fun index data axis h => insert_error_state M index data axis e s h,
    fun data axis h => push_back_error_state M data axis e s h,
    fun index axis h => erase_error_state M index axis e s h,
    fun axis h => pop_back_error_state M axis e s h,
    fun r c v h => put_error_state M r c v e s h,
    fun m h => zipCellsAssign_error_state _ M m e s h,
    fun m h => zipCellsAssign_error_state _ M m e s h,
    fun m h => zipCellsAssign_error_state _ M m e s h,
    fun m h => zipCellsAssign_error_state _ M m e s h,
    fun v h => broadcastCellsAssign_error_state _ M v e s h,
    fun v h => broadcastCellsAssign_error_state _ M v e s h⟩

theorem failure_atomic_witness :
    Matrix.operator_add_assign
        ({ array_ := [[1, 1], [1, 1]], height_ := 2, width_ := 2 } : Matrix Int)
        { array_ := [[1, 1, 1]], height_ := 1, width_ := 3 }
      = .error (.InvalidArgument, { array_ := [[1, 1], [1, 1]], height_ := 2, width_ := 2 }) ∧
    ({ array_ := [[1, 1], [1, 1]], height_ := 2, width_ := 2 } : Matrix Int)
      = { array_ := [[1, 1], [1, 1]], height_ := 2, width_ := 2 } :=
  ⟨rfl, (failure_atomic ({ array_ := [[1, 1], [1, 1]], height_ := 2, width_ := 2 } : Matrix Int)
    .InvalidArgument { array_ := [[1, 1], [1, 1]], height_ := 2, width_ := 2 }
    (Or.inl rfl)).2.2.2.2.2.1 { array_ := [[1, 1, 1]], height_ := 1, width_ := 3 } rfl⟩

/-- What `put` does inside an `h x w` matrix. -/
theorem put_eq (M : Matrix T) (h w r c : Nat) (v : T) (hM : M.HasShape h w)
    (hr : r < h) (hc : c < w) :
    ∃ arr, M.put r c v = .ok { array_ := arr, height_ := h, width_ := w } ∧
      Rect arr h w ∧ read2 arr r c = .ok v ∧
      ∀ i j, (i ≠ r ∨ j ≠ c) → read2 arr i j = read2 M.array_ i j := by
  obtain ⟨arr, hw, hR, hself, hother⟩ := write2_spec M.array_ h w r c v hM.rect hr hc
  obtain ⟨h1, h2, -, -⟩ := hM
  refine ⟨arr, ?_, hR, hself, hother⟩
  have hguard : ¬ ¬ ((r : Int) ≥ 0 ∧ (r : Int) < M.height_ ∧ (c : Int) ≥ 0 ∧ (c : Int) < M.width_) := by
    rw [h1, h2]; omega
  unfold Matrix.put
  rw [if_neg hguard]
  simp only [Int.toNat_ofNat, hw, h1, h2]

/-- Claim C13. On an `h x w` matrix `M`, `put(r, c, v)` fails with InvalidArgument exactly
when `r < 0`, `r >= h`, `c < 0` or `c >= w`; when it succeeds, `get(r, c)` afterwards is
`v`, every other element is unchanged, and height and width are unchanged. -/
theorem put_spec (M : Matrix T) (h w : Nat) (hM : M.HasShape h w) (r c : Int) (v : T) :
    ((∃ s, M.put r c v = .error (.InvalidArgument, s)) ↔ (r < 0 ∨ r ≥ h ∨ c < 0 ∨ c ≥ w)) ∧
    (0 ≤ r → r < h → 0 ≤ c → c < w →
      ∃ R, M.put r c v = .ok R ∧ R.getHeight = h ∧ R.getWidth = w ∧ R.HasShape h w ∧
        R.get r c = .ok v ∧
        ∀ i j : Int, 0 ≤ i → i < h → 0 ≤ j → j < w → (i ≠ r ∨ j ≠ c) →
          ∃ x, M.get i j = .ok x ∧ R.get i j = .ok x) := by
  have hok : 0 ≤ r → r < h → 0 ≤ c → c < w →
      ∃ R, M.put r c v = .ok R ∧ R.getHeight = h ∧ R.getWidth = w ∧ R.HasShape h w ∧
        R.get r c = .ok v ∧
        ∀ i j : Int, 0 ≤ i → i < h → 0 ≤ j → j < w → (i ≠ r ∨ j ≠ c) →
          ∃ x, M.get i j = .ok x ∧ R.get i j = .ok x := by
    intro hr0 hr hc0 hc
    obtain ⟨r, rfl⟩ := Int.eq_ofNat_of_zero_le hr0
    obtain ⟨c, rfl⟩ := Int.eq_ofNat_of_zero_le hc0
    obtain ⟨arr, hput, hR, hself, hother⟩ := put_eq M h w r c v hM (by omega) (by omega)
    refine ⟨_, hput, rfl, rfl, ⟨rfl, rfl, hR.1, hR.2⟩, ?_, ?_⟩
    · rw [get_ofNat]; exact hself
    · intro i j hi0 hi hj0 hj hne
      obtain ⟨i, rfl⟩ := Int.eq_ofNat_of_zero_le hi0
      obtain ⟨j, rfl⟩ := Int.eq_ofNat_of_zero_le hj0
      obtain ⟨row, hrow, hlen⟩ := rect_row M.array_ h w i hM.rect (by omega)
      have hjr : j < row.length := by omega
      refine ⟨row[j], ?_, ?_⟩
      · rw [get_natCast_row M i j row hrow]; exact vecAt_ok row j hjr
      · rw [get_ofNat]
        simp only []
        rw [hother i j (by omega), read2_row M.array_ i j row hrow]
        exact vecAt_ok row j hjr
  refine ⟨⟨?_, ?_⟩, hok⟩
  · rintro ⟨s, hs⟩
    by_contra hc
    obtain ⟨R, hR, _⟩ := hok (by omega) (by omega) (by omega) (by omega)
    rw [hR] at hs
    cases hs
  · intro hc
    have hguard : ¬ (r ≥ 0 ∧ r < M.height_ ∧ c ≥ 0 ∧ c < M.width_) := by
      rw [hM.1, hM.2.1]; omega
    exact ⟨M, by unfold Matrix.put; rw [if_pos hguard]⟩

theorem put_spec_witness :
    ∃ R : Matrix Int,
      Matrix.put ({ array_ := [[1, 1], [1, 1]], height_ := 2, width_ := 2 } : Matrix Int) 0 0 5
        = .ok R ∧ R.getHeight = 2 ∧ R.getWidth = 2 ∧ R.get 0 0 = .ok 5 ∧ R.get 1 1 = .ok 1 := by
  obtain ⟨R, hR, hh, hw, -, hget, hother⟩ :=
    (put_spec ({ array_ := [[1, 1], [1, 1]], height_ := 2, width_ := 2 } : Matrix Int) 2 2
      (by decide) 0 0 5).2 (by decide) (by decide) (by decide) (by decide)
  obtain ⟨x, hx, hRx⟩ := hother 1 1 (by decide) (by decide) (by decide) (by decide)
    (Or.inl (by decide))
  have : x = 1 := (Except.ok.inj hx).symm
  exact ⟨R, hR, hh, hw, hget, this ▸ hRx⟩

/-! ## Equality -/

/-- A loop that returns `false` at the first index where `p` fails and falls through
when `p` holds everywhere. -/
theorem forLoopR_unit (body : Nat → Unit → Except Error (Flow Bool Unit)) (p : Nat → Prop) :
    ∀ (n i : Nat),
      (∀ k, i ≤ k → k < i + n →
        (p k → body k () = .ok (.next ())) ∧ (¬ p k → body k () = .ok (.ret false))) →
      ((∀ k, i ≤ k → k < i + n → p k) → forLoopR body n i () = .ok (.next ())) ∧
      ((∃ k, i ≤ k ∧ k < i + n ∧ ¬ p k) → forLoopR body n i () = .ok (.ret false)) := by
  intro n
  induction n with
  | zero =>
    intro i _
    refine ⟨fun _ => rfl, ?_⟩
    rintro ⟨k, h1, h2, -⟩
    omega
  | succ n ih =>
    intro i hb
    have ih' := ih (i + 1) (fun k hk1 hk2 => hb k (by omega) (by omega))
    have hbi := hb i (Nat.le_refl i) (by omega)
    constructor
    · intro hall
      simp only [forLoopR, hbi.1 (hall i (Nat.le_refl i) (by omega))]
      exact ih'.1 (fun k hk1 hk2 => hall k (by omega) (by omega))
    · rintro ⟨k, hk1, hk2, hk⟩
      by_cases hpi : p i
      · simp only [forLoopR, hbi.1 hpi]
        refine ih'.2 ⟨k, ?_, by omega, hk⟩
        rcases Nat.lt_or_ge i k with h | h
        · exact h
        · have : k = i := by omega
          subst this
          exact absurd hpi hk
      · simp only [forLoopR, hbi.2 hpi]

/-- What `==` returns on two `h x w` matrices. -/
theorem operator_eq_same_shape [Zero T] [DecidableEq T] (A B : Matrix T) (h w : Nat)
    (hA : A.HasShape h w) (hB : B.HasShape h w) :
    ((∀ i < h, ∀ j < w, elem A.array_ i j = elem B.array_ i j) →
      A.operator_eq B = .ok true) ∧
    ((∃ i < h, ∃ j < w, elem A.array_ i j ≠ elem B.array_ i j) →
      A.operator_eq B = .ok false) := by
  have hinner : ∀ i < h,
      ((∀ j < w, elem A.array_ i j = elem B.array_ i j) →
        forLoopR (fun j (_ : Unit) => do
          let a ← read2 A.array_ i j
          let b ← read2 B.array_ i j
          if a ≠ b then pure (Flow.ret false) else pure (Flow.next ())) w 0 ()
          = .ok (.next ())) ∧
      (¬ (∀ j < w, elem A.array_ i j = elem B.array_ i j) →
        forLoopR (fun j (_ : Unit) => do
          let a ← read2 A.array_ i j
          let b ← read2 B.array_ i j
          if a ≠ b then pure (Flow.ret false) else pure (Flow.next ())) w 0 ()
          = .ok (.ret false)) := by
    intro i hi
    have := forLoopR_unit (fun j (_ : Unit) => do
        let a ← read2 A.array_ i j
        let b ← read2 B.array_ i j
        if a ≠ b then pure (Flow.ret false) else pure (Flow.next ()))
      (fun j => elem A.array_ i j = elem B.array_ i j) w 0 (by
        intro j _ hj
        have hj : j < w := by omega
        constructor
        · intro hp
          simp [read2_elem A.array_ h w i j hA.rect hi hj,
            read2_elem B.array_ h w i j hB.rect hi hj, bind, Except.bind, pure, Except.pure, hp]
        · intro hp
          simp [read2_elem A.array_ h w i j hA.rect hi hj,
            read2_elem B.array_ h w i j hB.rect hi hj, bind, Except.bind, pure, Except.pure, hp])
    constructor
    · intro hall
      exact this.1 (fun j _ hj => hall j (by omega))
    · intro hne
      apply this.2
      by_contra hc
      apply hne
      intro j hj
      by_contra hj2
      exact hc ⟨j, Nat.zero_le j, by omega, hj2⟩
  have houter := forLoopR_unit (fun i (_ : Unit) =>
      forLoopR (fun j (_ : Unit) => do
        let a ← read2 A.array_ i j
        let b ← read2 B.array_ i j
        if a ≠ b then pure (Flow.ret false) else pure (Flow.next ())) w 0 ())
    (fun i => ∀ j < w, elem A.array_ i j = elem B.array_ i j) h 0 (by
      intro i _ hi
      exact hinner i (by omega))
  obtain ⟨a1, a2, -, -⟩ := hA
  obtain ⟨b1, b2, -, -⟩ := hB
  constructor
  · intro hall
    have := houter.1 (fun i _ hi => hall i (by omega))
    simp only [Matrix.operator_eq, a1, a2, b1, b2, Int.toNat_ofNat, and_self, if_true]
    rw [this]
  · rintro ⟨i, hi, j, hj, hne⟩
    have := houter.2 ⟨i, Nat.zero_le i, by omega, fun hc => hne (hc j hj)⟩
    simp only [Matrix.operator_eq, a1, a2, b1, b2, Int.toNat_ofNat, and_self, if_true]
    rw [this]

/-- Claim C20. For matrices `A` (`h x w`) and `B` (`h' x w'`), each with every row of its
own width: `A == B` returns without error, and it is true exactly when the heights are
equal, the widths are equal and `A(i,j)` equals `B(i,j)` for every in-range `(i, j)`; a
shape mismatch gives `false`; `A != B` is the negation of `A == B`. -/
theorem operator_eq_spec [Zero T] [DecidableEq T] (A B : Matrix T) (h w h' w' : Nat)
    (hA : A.HasShape h w) (hB : B.HasShape h' w') :
    ∃ r, A.operator_eq B = .ok r ∧ A.operator_ne B = .ok (!r) ∧
      (r = true ↔ (A.getHeight = B.getHeight ∧ A.getWidth = B.getWidth ∧
        ∀ i < h, ∀ j < w, A.get i j = B.get i j)) ∧
      ((A.getHeight ≠ B.getHeight ∨ A.getWidth ≠ B.getWidth) → r = false) := by
  have hne : ∀ r, A.operator_eq B = .ok r → A.operator_ne B = .ok (!r) := by
    intro r hr
    simp [Matrix.operator_ne, hr, bind, Except.bind, pure, Except.pure]
  by_cases hshape : A.height_ = B.height_ ∧ A.width_ = B.width_
  · have e1 : h = h' := by
      have := hshape.1; rw [hA.1, hB.1] at this; exact_mod_cast this
    have e2 : w = w' := by
      have := hshape.2; rw [hA.2.1, hB.2.1] at this; exact_mod_cast this
    subst e1 e2
    have hchar := operator_eq_same_shape A B h w hA hB
    by_cases hall : ∀ i < h, ∀ j < w, elem A.array_ i j = elem B.array_ i j
    · refine ⟨true, hchar.1 hall, hne _ (hchar.1 hall), ?_, ?_⟩
      · refine ⟨fun _ => ⟨hshape.1, hshape.2, ?_⟩, fun _ => rfl⟩
        intro i hi j hj
        rw [get_elem A h w i j hA hi hj, get_elem B h w i j hB hi hj, hall i hi j hj]
      · intro hc
        rcases hc with hc | hc
        · exact absurd hshape.1 hc
        · exact absurd hshape.2 hc
    · have hex : ∃ i < h, ∃ j < w, elem A.array_ i j ≠ elem B.array_ i j := by
        by_contra hc
        apply hall
        intro i hi j hj
        by_contra hij
        exact hc ⟨i, hi, j, hj, hij⟩
      refine ⟨false, hchar.2 hex, hne _ (hchar.2 hex), ?_, fun _ => rfl⟩
      constructor
      · intro hc; cases hc
      · rintro ⟨-, -, hcells⟩
        exfalso
        apply hall
        intro i hi j hj
        have := hcells i hi j hj
        rw [get_elem A h w i j hA hi hj, get_elem B h w i j hB hi hj] at this
        exact Except.ok.inj this
  · have hres : A.operator_eq B = .ok false := by
      unfold Matrix.operator_eq
      rw [if_neg hshape]
    refine ⟨false, hres, hne _ hres, ?_, fun _ => rfl⟩
    constructor
    · intro hc; cases hc
    · rintro ⟨h1, h2, -⟩
      exact absurd ⟨h1, h2⟩ hshape

theorem operator_eq_spec_witness :
    ∃ r, Matrix.operator_eq ({ array_ := [[1, 1], [1, 1]], height_ := 2, width_ := 2 } : Matrix Int)
        { array_ := [[2, 2], [2, 2]], height_ := 2, width_ := 2 } = .ok r ∧
      Matrix.operator_ne ({ array_ := [[1, 1], [1, 1]], height_ := 2, width_ := 2 } : Matrix Int)
        { array_ := [[2, 2], [2, 2]], height_ := 2, width_ := 2 } = .ok (!r) := by
  obtain ⟨r, h1, h2, -, -⟩ := operator_eq_spec
    ({ array_ := [[1, 1], [1, 1]], height_ := 2, width_ := 2 } : Matrix Int)
    { array_ := [[2, 2], [2, 2]], height_ := 2, width_ := 2 } 2 2 2 2 (by decide) (by decide)
  exact ⟨r, h1, h2⟩

/-! ## Loops over a region of a buffer -/

/-- Invariant rule for a loop that starts at `i0`, the invariant being indexed by the
number of iterations done. -/
theorem forLoop_inv_off {σ : Type} (body : Nat → σ → Except Error σ) (P : Nat → σ → Prop)
    (n i0 : Nat) (s : σ) (h0 : P 0 s)
    (hstep : ∀ c s, c < n → P c s → ∃ s', body (i0 + c) s = .ok s' ∧ P (c + 1) s') :
    ∃ s', forLoop body n i0 s = .ok s' ∧ P n s' := by
  obtain ⟨s', hs', hP⟩ := forLoop_inv body (fun k s => P (k - i0) s) n i0 s
    (by simpa using h0) (by
      intro k s hk1 hk2 hP
      obtain ⟨s', hb, hP'⟩ := hstep (k - i0) s (by omega) hP
      have e1 : i0 + (k - i0) = k := by omega
      have e2 : k + 1 - i0 = k - i0 + 1 := by omega
      rw [e1] at hb
      exact ⟨s', hb, by show P (k + 1 - i0) s'; rw [e2]; exact hP'⟩)
  refine ⟨s', hs', ?_⟩
  have : i0 + n - i0 = n := by omega
  simpa [this] using hP

/-- Two nested loops over the rows `i0 .. i0 + H'` and columns `j0 .. j0 + W'` that store
`g a b` into the cell `(a, b) = (i - i0, j - j0)` of an `H x W` buffer. The body may read
the buffer: it is told that the cells stored so far (in row-major order) hold `g`, and
that the cell it is about to store into still holds its initial value. Afterwards the
region `H' x W'` holds `g` and every other cell its initial value. -/
theorem fill2_gen {σ : Type} (proj : σ → List (List T)) (Q : σ → Prop)
    (H W H' W' i0 j0 : Nat) (body : Nat → Nat → σ → Except Error σ) (g : Nat → Nat → T)
    (s0 : σ)
    (hbody : ∀ a < H', ∀ b < W', ∀ s, Q s → Rect (proj s) H W →
      (∀ a' b', (a' < a ∨ (a' = a ∧ b' < b)) → a' < H' → b' < W' →
        read2 (proj s) a' b' = .ok (g a' b')) →
      read2 (proj s) a b = read2 (proj s0) a b →
      ∃ s', body (i0 + a) (j0 + b) s = .ok s' ∧ Q s' ∧
        write2 (proj s) a b (g a b) = .ok (proj s'))
    (hH : H' ≤ H) (hW : W' ≤ W) (hQ : Q s0) (ha : Rect (proj s0) H W) :
    ∃ s', forLoop (fun i s => forLoop (fun j s => body i j s) W' j0 s) H' i0 s0 = .ok s' ∧
      Q s' ∧ Rect (proj s') H W ∧
      (∀ a < H', ∀ b < W', read2 (proj s') a b = .ok (g a b)) ∧
      (∀ a b, ¬ (a < H' ∧ b < W') → read2 (proj s') a b = read2 (proj s0) a b) := by
  obtain ⟨s', hs', hQ', hR', hdone, hrest⟩ := forLoop_inv_off
    (fun i s => forLoop (fun j s => body i j s) W' j0 s)
    (fun a s => Q s ∧ Rect (proj s) H W ∧
      (∀ a' b', a' < a → a' < H' → b' < W' → read2 (proj s) a' b' = .ok (g a' b')) ∧
      (∀ a' b', ¬ (a' < a ∧ b' < W') → read2 (proj s) a' b' = read2 (proj s0) a' b'))
    H' i0 s0 ⟨hQ, ha, fun a' b' h => absurd h (Nat.not_lt_zero _), fun _ _ _ => rfl⟩ (by
      intro a s1 haH ⟨hQ1, hR1, hd1, hr1⟩
      obtain ⟨s2, hs2, hQ2, hR2, hd2, hr2⟩ := forLoop_inv_off (fun j s => body (i0 + a) j s)
        (fun b s => Q s ∧ Rect (proj s) H W ∧
          (∀ a' b', (a' < a ∨ (a' = a ∧ b' < b)) → a' < H' → b' < W' →
            read2 (proj s) a' b' = .ok (g a' b')) ∧
          (∀ a' b', ¬ ((a' < a ∧ b' < W') ∨ (a' = a ∧ b' < b)) →
            read2 (proj s) a' b' = read2 (proj s0) a' b'))
        W' j0 s1
        ⟨hQ1, hR1, fun a' b' h h1 h2 => hd1 a' b' (by omega) h1 h2,
          fun a' b' h => hr1 a' b' (fun c => h (Or.inl c))⟩ (by
          intro b s2 hbW ⟨hQ2, hR2, hd2, hr2⟩
          obtain ⟨s3, hb, hQ3, hw⟩ := hbody a haH b hbW s2 hQ2 hR2 hd2 (hr2 a b (by omega))
          obtain ⟨arr', hw', hR3, hself, hother⟩ :=
            write2_spec (proj s2) H W a b (g a b) hR2 (by omega) (by omega)
          rw [hw] at hw'
          have harr : proj s3 = arr' := Except.ok.inj hw'
          refine ⟨s3, hb, hQ3, harr ▸ hR3, ?_, ?_⟩
          · intro a' b' hlt h1 h2
            rw [harr]
            by_cases hcell : a' = a ∧ b' = b
            · rw [hcell.1, hcell.2]; exact hself
            · rw [hother a' b' (by omega)]
              exact hd2 a' b' (by omega) h1 h2
          · intro a' b' hnot
            rw [harr, hother a' b' (by omega)]
            exact hr2 a' b' (by omega))
      refine ⟨s2, hs2, hQ2, hR2, ?_, ?_⟩
      · intro a' b' hlt h1 h2
        exact hd2 a' b' (by omega) h1 h2
      · intro a' b' hnot
        exact hr2 a' b' (by omega))
  exact ⟨s', hs', hQ', hR', fun a ha' b hb' => hdone a b ha' ha' hb', hrest⟩

/-- The buffer after `fill2_gen` over a whole `H x W` rectangle is the table of `g`. -/
theorem fill2_full {σ : Type} (proj : σ → List (List T)) (Q : σ → Prop)
    (H W : Nat) (body : Nat → Nat → σ → Except Error σ) (g : Nat → Nat → T) (s0 : σ)
    (hbody : ∀ a < H, ∀ b < W, ∀ s, Q s → Rect (proj s) H W →
      (∀ a' b', (a' < a ∨ (a' = a ∧ b' < b)) → a' < H → b' < W →
        read2 (proj s) a' b' = .ok (g a' b')) →
      read2 (proj s) a b = read2 (proj s0) a b →
      ∃ s', body a b s = .ok s' ∧ Q s' ∧ write2 (proj s) a b (g a b) = .ok (proj s'))
    (hQ : Q s0) (ha : Rect (proj s0) H W) :
    ∃ s', forLoop (fun i s => forLoop (fun j s => body i j s) W 0 s) H 0 s0 = .ok s' ∧
      Q s' ∧ proj s' = table H W g := by
  obtain ⟨s', hs', hQ', hR', hdone, -⟩ := fill2_gen proj Q H W H W 0 0 body g s0
    (by
      intro a haH b hbW s hQs hRs hd hc
      have := hbody a haH b hbW s hQs hRs hd hc
      simpa using this)
    (Nat.le_refl H) (Nat.le_refl W) hQ ha
  exact ⟨s', hs', hQ', eq_table _ H W g hR' hdone⟩

/-! ## Elementwise operations -/

/-- The failure of a loop is a failure of one of its iterations. -/
theorem forLoop_error {σ : Type} (body : Nat → σ → Except Error σ) (S : Error → Prop)
    (hb : ∀ k s e, body k s = .error e → S e) :
    ∀ (n i : Nat) (s : σ) (e : Error), forLoop body n i s = .error e → S e := by
  intro n
  induction n with
  | zero => intro i s e h; cases h
  | succ n ih =>
    intro i s e h
    simp only [forLoop] at h
    split at h
    · rename_i e' hbe
      cases h
      exact hb i s _ hbe
    · exact ih _ _ _ h

theorem read2_error (arr : List (List T)) (i j : Nat) (e : Error)
    (h : read2 arr i j = .error e) : e = .Undefined := by
  unfold read2 vecAt at h
  repeat' split at h
  all_goals cases h
  all_goals rfl

theorem vecAt_error {α : Type} (v : List α) (i : Nat) (e : Error)
    (h : vecAt v i = .error e) : e = .Undefined := by
  unfold vecAt at h
  split at h
  · cases h
  · cases h; rfl

theorem write2_error (arr : List (List T)) (i j : Nat) (v : T) (e : Error)
    (h : write2 arr i j v = .error e) : e = .Undefined := by
  unfold write2 at h
  repeat' split at h
  all_goals cases h
  all_goals rfl

/-- The matrix forms on two `h x w` matrices, when the operator is defined on every pair
of cells. -/
theorem zipCells_eq [Zero T] (op : T → T → Except Error T) (A B : Matrix T) (h w : Nat)
    (g : Nat → Nat → T) (hA : A.HasShape h w) (hB : B.HasShape h w)
    (hop : ∀ i < h, ∀ j < w, op (elem A.array_ i j) (elem B.array_ i j) = .ok (g i j)) :
    A.zipCells op B = .ok { array_ := table h w g, height_ := h, width_ := w } := by
  obtain ⟨s', hs', -, htab⟩ := fill2_full (fun arr : List (List T) => arr) (fun _ => True) h w
    (fun i j arr => do
      let a ← read2 A.array_ i j
      let b ← read2 B.array_ i j
      let c ← op a b
      write2 arr i j c) g (List.replicate h (List.replicate w 0))
    (by
      intro i hi j hj arr _ hR _ _
      obtain ⟨arr', hw, _⟩ := write2_spec arr h w i j (g i j) hR hi hj
      refine ⟨arr', ?_, trivial, hw⟩
      simp only [read2_elem A.array_ h w i j hA.rect hi hj,
        read2_elem B.array_ h w i j hB.rect hi hj, hop i hi j hj, bind, Except.bind]
      exact hw)
    trivial (rect_replicate h w 0)
  obtain ⟨a1, a2, -, -⟩ := hA
  obtain ⟨b1, b2, -, -⟩ := hB
  simp only [bind, Except.bind] at hs'
  simp only [Matrix.zipCells, Matrix.sized, a1, a2, b1, b2, Int.toNat_ofNat, bind, Except.bind,
    and_self, not_true_eq_false, if_false, Int.natCast_nonneg, not_lt.mpr]
  rw [hs', htab]
  rfl

theorem zipCells_mismatch [Zero T] (op : T → T → Except Error T) (A B : Matrix T)
    (h : ¬ (A.height_ = B.height_ ∧ A.width_ = B.width_)) :
    A.zipCells op B = .error .InvalidArgument := by
  unfold Matrix.zipCells
  rw [if_pos h]

/-- With matching shapes the matrix forms do not raise InvalidArgument, whatever the
operator does on the cells (short of raising it itself). -/
theorem zipCells_not_invalid [Zero T] (op : T → T → Except Error T) (A B : Matrix T)
    (h w : Nat) (hA : A.HasShape h w) (hB : B.HasShape h w)
    (hop : ∀ a b e, op a b = .error e → e = .Undefined) :
    A.zipCells op B ≠ .error .InvalidArgument := by
  intro hc
  obtain ⟨a1, a2, -, -⟩ := hA
  obtain ⟨b1, b2, -, -⟩ := hB
  simp only [Matrix.zipCells, Matrix.sized, a1, a2, b1, b2, Int.toNat_ofNat, bind, Except.bind,
    and_self, not_true_eq_false, if_false, Int.natCast_nonneg, not_lt.mpr] at hc
  split at hc
  · rename_i e hloop
    have hu : e = .Undefined := by
      refine forLoop_error _ (fun e => e = .Undefined) ?_ _ _ _ _ hloop
      intro i arr e hin
      refine forLoop_error _ (fun e => e = .Undefined) ?_ _ _ _ _ hin
      intro j arr e hbody
      simp only [] at hbody
      split at hbody
      · rename_i e1 h1; cases hbody; exact read2_error _ _ _ _ h1
      · split at hbody
        · rename_i e1 h1; cases hbody; exact read2_error _ _ _ _ h1
        · split at hbody
          · rename_i e1 h1; cases hbody; exact hop _ _ _ h1
          · exact write2_error _ _ _ _ _ hbody
    rw [hu] at hc
    cases hc
  · cases hc

/-- An exact result that fits in an `int` is not changed by the wrap-around. -/
theorem wrapInt_of_range (x : Int) (h1 : -2147483648 ≤ x) (h2 : x < 2147483648) :
    wrapInt x = x := by
  unfold wrapInt
  omega

theorem CInt.ext {a b : CInt} (h : a.val = b.val) : a = b := by
  cases a
  cases b
  simp only [] at h
  subst h
  rfl

/-- The truncated quotient of two `int` values is an `int`, `INT_MIN / -1` apart. -/
theorem tdiv_range (a b : Int) (ha1 : -2147483648 ≤ a) (ha2 : a < 2147483648)
    (hb : b ≠ 0) (hmin : ¬ (a = -2147483648 ∧ b = -1)) :
    -2147483648 ≤ Int.tdiv a b ∧ Int.tdiv a b < 2147483648 := by
  have hq : (Int.tdiv a b).natAbs = a.natAbs / b.natAbs := Int.natAbs_tdiv a b
  by_cases hb1 : b = 1
  · subst hb1
    rw [Int.tdiv_one]
    exact ⟨ha1, ha2⟩
  by_cases hb2 : b = -1
  · subst hb2
    rw [Int.tdiv_neg, Int.tdiv_one]
    have : a ≠ -2147483648 := fun h => hmin ⟨h, rfl⟩
    omega
  · have h2 : 2 ≤ b.natAbs := by omega
    have h3 : a.natAbs / b.natAbs ≤ a.natAbs / 2 := Nat.div_le_div_left h2 (by decide)
    have h4 : a.natAbs ≤ 2147483648 := by omega
    omega

/-- The division of `int` fails with an undefined result only. -/
theorem nativeDiv_cint_error (a b : CInt) (e : Error) (h : NativeDiv.div a b = .error e) :
    e = .Undefined := by
  simp only [NativeDiv.div] at h
  split at h
  · cases h; rfl
  · split at h
    · cases h; rfl
    · cases h

/-- The division of `int` by a non-zero divisor, `INT_MIN / -1` apart, is the quotient
truncated towards zero. -/
theorem nativeDiv_cint_ok (a b : CInt) (hb : b.val ≠ 0)
    (hmin : ¬ (a.val = -2147483648 ∧ b.val = -1)) :
    NativeDiv.div a b = .ok (CInt.ofInt (Int.tdiv a.val b.val)) ∧
      (CInt.ofInt (Int.tdiv a.val b.val)).val = Int.tdiv a.val b.val := by
  constructor
  · simp only [NativeDiv.div]
    rw [if_neg hb, if_neg hmin]
  · obtain ⟨h1, h2⟩ := tdiv_range a.val b.val a.lo a.hi hb hmin
    exact wrapInt_of_range _ h1 h2

theorem zipCells_cells [Zero T] (op : T → T → Except Error T) (f : T → T → T)
    (A B : Matrix T) (h w : Nat) (hA : A.HasShape h w) (hB : B.HasShape h w)
    (hop : ∀ i < h, ∀ j < w,
      op (elem A.array_ i j) (elem B.array_ i j) = .ok (f (elem A.array_ i j) (elem B.array_ i j))) :
    ∃ R, A.zipCells op B = .ok R ∧ R.getHeight = h ∧ R.getWidth = w ∧ R.HasShape h w ∧
      ∀ i < h, ∀ j < w, ∃ a b, A.get i j = .ok a ∧ B.get i j = .ok b ∧ R.get i j = .ok (f a b) := by
  refine ⟨_, zipCells_eq op A B h w _ hA hB hop, rfl, rfl, hasShape_table h w _, ?_⟩
  intro i hi j hj
  refine ⟨_, _, get_elem A h w i j hA hi hj, get_elem B h w i j hB hi hj, ?_⟩
  rw [get_ofNat]
  exact read2_table h w _ i j hi hj

theorem zipCells_invalid_iff [Zero T] (op : T → T → Except Error T) (A B : Matrix T)
    (h w h' w' : Nat) (hA : A.HasShape h w) (hB : B.HasShape h' w')
    (hop : ∀ a b e, op a b = .error e → e = .Undefined) :
    A.zipCells op B = .error .InvalidArgument ↔ (h ≠ h' ∨ w ≠ w') := by
  constructor
  · intro herr
    by_contra hc
    have e1 : h = h' := by omega
    have e2 : w = w' := by omega
    subst e1 e2
    exact zipCells_not_invalid op A B h w hA hB hop herr
  · intro hne
    apply zipCells_mismatch
    rw [hA.1, hA.2.1, hB.1, hB.2.1]
    intro hc
    have := hc.1
    have := hc.2
    omega

/-- Claim C17, counterexample. In `{{INT_MIN}} / {{-1}}` no element of the divisor is 0,
yet the quotient `2^31` is not an `int`: the division is undefined (it traps) and `divide`
returns no matrix. -/
theorem divide_min_counterexample :
    Matrix.get ({ array_ := [[CInt.ofInt (-1)]], height_ := 1, width_ := 1 } : Matrix CInt) 0 0
      = .ok (CInt.ofInt (-1)) ∧
    (CInt.ofInt (-1)).val ≠ 0 ∧
    Matrix.divide
      ({ array_ := [[CInt.ofInt (-2147483648)]], height_ := 1, width_ := 1 } : Matrix CInt)
      { array_ := [[CInt.ofInt (-1)]], height_ := 1, width_ := 1 } = .error .Undefined :=
  ⟨rfl, by decide, rfl⟩

/-- Claim C17, amended. `add`, `subtract`, `multiply(matrix)` and `divide(matrix)` on `int`
matrices `A` (`h x w`) and `B` (`h' x w'`): each fails with InvalidArgument exactly when
the shapes differ; with equal shapes the result is `h x w` and its element `(i, j)` is
`A(i,j) op B(i,j)`, with `op` the `+`, `-`, `*` of `int`, whose exact result wraps around
in 32 bits (and is the exact result when that fits in an `int`), and, when no element of
`B` is 0 and no pair `A(i,j), B(i,j)` is `INT_MIN, -1`, the quotient truncated towards
zero. -/
theorem elementwise_spec (A B : Matrix CInt) (h w h' w' : Nat)
    (hA : A.HasShape h w) (hB : B.HasShape h' w') :
    ((A.add B = .error .InvalidArgument ↔ (h ≠ h' ∨ w ≠ w')) ∧
      (A.subtract B = .error .InvalidArgument ↔ (h ≠ h' ∨ w ≠ w')) ∧
      (A.multiply B = .error .InvalidArgument ↔ (h ≠ h' ∨ w ≠ w')) ∧
      (A.divide B = .error .InvalidArgument ↔ (h ≠ h' ∨ w ≠ w'))) ∧
    (h = h' → w = w' →
      (∃ R, A.add B = .ok R ∧ R.getHeight = h ∧ R.getWidth = w ∧ R.HasShape h w ∧
        ∀ i < h, ∀ j < w, ∃ a b, A.get i j = .ok a ∧ B.get i j = .ok b ∧
          R.get i j = .ok (a + b) ∧ (a + b).val = wrapInt (a.val + b.val)) ∧
      (∃ R, A.subtract B = .ok R ∧ R.getHeight = h ∧ R.getWidth = w ∧ R.HasShape h w ∧
        ∀ i < h, ∀ j < w, ∃ a b, A.get i j = .ok a ∧ B.get i j = .ok b ∧
          R.get i j = .ok (a - b) ∧ (a - b).val = wrapInt (a.val - b.val)) ∧
      (∃ R, A.multiply B = .ok R ∧ R.getHeight = h ∧ R.getWidth = w ∧ R.HasShape h w ∧
        ∀ i < h, ∀ j < w, ∃ a b, A.get i j = .ok a ∧ B.get i j = .ok b ∧
          R.get i j = .ok (a * b) ∧ (a * b).val = wrapInt (a.val * b.val)) ∧
      ((∀ i < h, ∀ j < w, ∀ a b, A.get i j = .ok a → B.get i j = .ok b →
          b.val ≠ 0 ∧ ¬ (a.val = -2147483648 ∧ b.val = -1)) →
        ∃ R, A.divide B = .ok R ∧ R.getHeight = h ∧ R.getWidth = w ∧ R.HasShape h w ∧
          ∀ i < h, ∀ j < w, ∃ a b q, A.get i j = .ok a ∧ B.get i j = .ok b ∧
            R.get i j = .ok q ∧ q.val = Int.tdiv a.val b.val)) ∧
    (∀ x : Int, -2147483648 ≤ x → x < 2147483648 → wrapInt x = x) := by
  have htot : ∀ (f : CInt → CInt → CInt) (a b : CInt) (e : Error),
      (Except.ok (f a b) : Except Error CInt) = .error e → e = .Undefined := by
    intro f a b e hc
    cases hc
  refine ⟨⟨?_, ?_, ?_, ?_⟩, ?_, wrapInt_of_range⟩
  · exact zipCells_invalid_iff _ A B h w h' w' hA hB (htot (· + ·))
  · exact zipCells_invalid_iff _ A B h w h' w' hA hB (htot (· - ·))
  · exact zipCells_invalid_iff _ A B h w h' w' hA hB (htot (· * ·))
  · exact zipCells_invalid_iff _ A B h w h' w' hA hB nativeDiv_cint_error
  · intro e1 e2
    subst e1 e2
    refine ⟨?_, ?_, ?_, ?_⟩
    · obtain ⟨R, hR, d1, d2, hS, hc⟩ :=
        zipCells_cells (fun a b : CInt => .ok (a + b)) (· + ·) A B h w hA hB
          (fun _ _ _ _ => rfl)
      refine ⟨R, hR, d1, d2, hS, fun i hi j hj => ?_⟩
      obtain ⟨a, b, ha, hb, hr⟩ := hc i hi j hj
      exact ⟨a, b, ha, hb, hr, rfl⟩
    · obtain ⟨R, hR, d1, d2, hS, hc⟩ :=
        zipCells_cells (fun a b : CInt => .ok (a - b)) (· - ·) A B h w hA hB
          (fun _ _ _ _ => rfl)
      refine ⟨R, hR, d1, d2, hS, fun i hi j hj => ?_⟩
      obtain ⟨a, b, ha, hb, hr⟩ := hc i hi j hj
      exact ⟨a, b, ha, hb, hr, rfl⟩
    · obtain ⟨R, hR, d1, d2, hS, hc⟩ :=
        zipCells_cells (fun a b : CInt => .ok (a * b)) (· * ·) A B h w hA hB
          (fun _ _ _ _ => rfl)
      refine ⟨R, hR, d1, d2, hS, fun i hi j hj => ?_⟩
      obtain ⟨a, b, ha, hb, hr⟩ := hc i hi j hj
      exact ⟨a, b, ha, hb, hr, rfl⟩
    · intro hpre
      obtain ⟨R, hR, d1, d2, hS, hc⟩ := zipCells_cells NativeDiv.div
        (fun a b : CInt => CInt.ofInt (Int.tdiv a.val b.val)) A B h w hA hB (by
          intro i hi j hj
          obtain ⟨hb0, hmin⟩ := hpre i hi j hj _ _ (get_elem A h w i j hA hi hj)
            (get_elem B h w i j hB hi hj)
          exact (nativeDiv_cint_ok _ _ hb0 hmin).1)
      refine ⟨R, hR, d1, d2, hS, fun i hi j hj => ?_⟩
      obtain ⟨a, b, ha, hb, hr⟩ := hc i hi j hj
      obtain ⟨hb0, hmin⟩ := hpre i hi j hj a b ha hb
      exact ⟨a, b, _, ha, hb, hr, (nativeDiv_cint_ok a b hb0 hmin).2⟩

theorem elementwise_spec_witness :
    (∃ R : Matrix CInt,
      Matrix.add
        ({ array_ := [[CInt.ofInt 1, CInt.ofInt 1], [CInt.ofInt 1, CInt.ofInt 1]]
           height_ := 2
           width_ := 2 } : Matrix CInt)
        { array_ := [[CInt.ofInt 2, CInt.ofInt 2], [CInt.ofInt 2, CInt.ofInt 2]]
          height_ := 2
          width_ := 2 } = .ok R ∧
      R.get 0 0 = .ok (CInt.ofInt 3) ∧ R.get 1 1 = .ok (CInt.ofInt 3)) ∧
    (∃ R : Matrix CInt,
      Matrix.divide
        ({ array_ := [[CInt.ofInt 4, CInt.ofInt 4], [CInt.ofInt 4, CInt.ofInt 4]]
           height_ := 2
           width_ := 2 } : Matrix CInt)
        { array_ := [[CInt.ofInt 2, CInt.ofInt 2], [CInt.ofInt 2, CInt.ofInt 2]]
          height_ := 2
          width_ := 2 } = .ok R ∧
      (∃ q, R.get 0 0 = .ok q ∧ q.val = 2) ∧ (∃ q, R.get 1 1 = .ok q ∧ q.val = 2)) := by
  constructor
  · obtain ⟨⟨R, hR, -, -, -, hcells⟩, -⟩ :=
      (elementwise_spec
        ({ array_ := [[CInt.ofInt 1, CInt.ofInt 1], [CInt.ofInt 1, CInt.ofInt 1]]
           height_ := 2
           width_ := 2 } : Matrix CInt)
        { array_ := [[CInt.ofInt 2, CInt.ofInt 2], [CInt.ofInt 2, CInt.ofInt 2]]
          height_ := 2
          width_ := 2 } 2 2 2 2 (by decide) (by decide)).2.1 rfl rfl
    obtain ⟨a, b, ha, hb, h00, -⟩ := hcells 0 (by decide) 0 (by decide)
    obtain ⟨c, d, hc, hd, h11, -⟩ := hcells 1 (by decide) 1 (by decide)
    cases Except.ok.inj ha
    cases Except.ok.inj hb
    cases Except.ok.inj hc
    cases Except.ok.inj hd
    exact ⟨R, hR, h00, h11⟩
  · obtain ⟨R, hR, -, -, -, hcells⟩ :=
      ((elementwise_spec
        ({ array_ := [[CInt.ofInt 4, CInt.ofInt 4], [CInt.ofInt 4, CInt.ofInt 4]]
           height_ := 2
           width_ := 2 } : Matrix CInt)
        { array_ := [[CInt.ofInt 2, CInt.ofInt 2], [CInt.ofInt 2, CInt.ofInt 2]]
          height_ := 2
          width_ := 2 } 2 2 2 2 (by decide) (by decide)).2.1 rfl rfl).2.2.2 (by
          intro i hi j hj a b ha hb
          have hi2 : i = 0 ∨ i = 1 := by omega
          have hj2 : j = 0 ∨ j = 1 := by omega
          rcases hi2 with rfl | rfl <;> rcases hj2 with rfl | rfl <;>
            (cases Except.ok.inj ha; cases Except.ok.inj hb; decide))
    obtain ⟨a, b, q, ha, hb, h00, hq⟩ := hcells 0 (by decide) 0 (by decide)
    obtain ⟨c, d, r, hc, hd, h11, hr⟩ := hcells 1 (by decide) 1 (by decide)
    cases Except.ok.inj ha
    cases Except.ok.inj hb
    cases Except.ok.inj hc
    cases Except.ok.inj hd
    exact ⟨R, hR, ⟨q, h00, hq⟩, ⟨r, h11, hr⟩⟩

theorem vecAt_getD [Zero T] (v : List T) (j : Nat) (hj : j < v.length) :
    vecAt v j = .ok (v.getD j 0) := by
  simp [vecAt, List.getD_eq_getElem?_getD, List.getElem?_eq_getElem hj]

/-- The vector forms on an `h x w` matrix and a vector of length `w`, when the operator is
defined on every pair it is applied to. -/
theorem broadcastCells_eq [Zero T] (op : T → T → Except Error T) (A : Matrix T) (v : List T)
    (h w : Nat) (g : Nat → Nat → T) (hA : A.HasShape h w) (hv : v.length = w)
    (hop : ∀ i < h, ∀ j < w, op (elem A.array_ i j) (v.getD j 0) = .ok (g i j)) :
    A.broadcastCells op v = .ok { array_ := table h w g, height_ := h, width_ := w } := by
  obtain ⟨s', hs', -, htab⟩ := fill2_full (fun arr : List (List T) => arr) (fun _ => True) h w
    (fun i j arr => do
      let a ← read2 A.array_ i j
      let b ← vecAt v j
      let c ← op a b
      write2 arr i j c) g (List.replicate h (List.replicate w 0))
    (by
      intro i hi j hj arr _ hR _ _
      obtain ⟨arr', hw, _⟩ := write2_spec arr h w i j (g i j) hR hi hj
      refine ⟨arr', ?_, trivial, hw⟩
      simp only [read2_elem A.array_ h w i j hA.rect hi hj, vecAt_getD v j (by omega),
        hop i hi j hj, bind, Except.bind]
      exact hw)
    trivial (rect_replicate h w 0)
  obtain ⟨a1, a2, -, -⟩ := hA
  simp only [bind, Except.bind] at hs'
  simp only [Matrix.broadcastCells, Matrix.sized, a1, a2, sizeT_natCast, hv, Int.toNat_ofNat,
    bind, Except.bind, ne_eq, not_true_eq_false, if_false, Int.natCast_nonneg, not_lt.mpr]
  rw [hs', htab]
  rfl

theorem broadcastCells_not_invalid [Zero T] (op : T → T → Except Error T) (A : Matrix T)
    (v : List T) (h w : Nat) (hA : A.HasShape h w) (hv : v.length = w)
    (hop : ∀ a b e, op a b = .error e → e = .Undefined) :
    A.broadcastCells op v ≠ .error .InvalidArgument := by
  intro hc
  obtain ⟨a1, a2, -, -⟩ := hA
  simp only [Matrix.broadcastCells, Matrix.sized, a1, a2, sizeT_natCast, hv, Int.toNat_ofNat,
    bind, Except.bind, ne_eq, not_true_eq_false, if_false, Int.natCast_nonneg, not_lt.mpr] at hc
  split at hc
  · rename_i e hloop
    have hu : e = .Undefined := by
      refine forLoop_error _ (fun e => e = .Undefined) ?_ _ _ _ _ hloop
      intro i arr e hin
      refine forLoop_error _ (fun e => e = .Undefined) ?_ _ _ _ _ hin
      intro j arr e hbody
      simp only [] at hbody
      split at hbody
      · rename_i e1 h1; cases hbody; exact read2_error _ _ _ _ h1
      · split at hbody
        · rename_i e1 h1; cases hbody; exact vecAt_error _ _ _ h1
        · split at hbody
          · rename_i e1 h1; cases hbody; exact hop _ _ _ h1
          · exact write2_error _ _ _ _ _ hbody
    rw [hu] at hc
    cases hc
  · cases hc

theorem broadcastCells_invalid_iff [Zero T] (op : T → T → Except Error T) (A : Matrix T)
    (v : List T) (h w : Nat) (hA : A.HasShape h w)
    (hop : ∀ a b e, op a b = .error e → e = .Undefined) :
    A.broadcastCells op v = .error .InvalidArgument ↔ v.length ≠ w := by
  constructor
  · intro herr hc
    exact broadcastCells_not_invalid op A v h w hA hc hop herr
  · intro hne
    have hg : sizeT A.width_ ≠ v.length := by
      rw [hA.2.1, sizeT_natCast]; exact fun c => hne c.symm
    unfold Matrix.broadcastCells
    rw [if_pos hg]

theorem broadcastCells_cells [Zero T] (op : T → T → Except Error T) (f : T → T → T)
    (A : Matrix T) (v : List T) (h w : Nat) (hA : A.HasShape h w) (hv : v.length = w)
    (hop : ∀ i < h, ∀ j < w,
      op (elem A.array_ i j) (v.getD j 0) = .ok (f (elem A.array_ i j) (v.getD j 0))) :
    ∃ R, A.broadcastCells op v = .ok R ∧ R.getHeight = h ∧ R.getWidth = w ∧ R.HasShape h w ∧
      ∀ i < h, ∀ j < w, ∃ a b, A.get i j = .ok a ∧ vecAt v j = .ok b ∧ R.get i j = .ok (f a b) := by
  refine ⟨_, broadcastCells_eq op A v h w _ hA hv hop, rfl, rfl, hasShape_table h w _, ?_⟩
  intro i hi j hj
  refine ⟨_, _, get_elem A h w i j hA hi hj, vecAt_getD v j (by omega), ?_⟩
  rw [get_ofNat]
  exact read2_table h w _ i j hi hj

/-- Claim C18, counterexample. In `{{INT_MIN}}.divide({-1})` no `v[j]` is 0, yet the
quotient `2^31` is not an `int`: the division is undefined (it traps) and `divide` returns
no matrix. -/
theorem divideVector_min_counterexample :
    (∀ x ∈ [CInt.ofInt (-1)], x.val ≠ 0) ∧
    Matrix.divideVector
      ({ array_ := [[CInt.ofInt (-2147483648)]], height_ := 1, width_ := 1 } : Matrix CInt)
      [CInt.ofInt (-1)] = .error .Undefined :=
  ⟨by decide, rfl⟩

/-- Claim C18, amended. The vector forms on an `h x w` matrix `M` of `int` and a vector
`v`: `multiply(v)` and `divide(v)` fail with InvalidArgument exactly when `len(v) != w`;
otherwise the result is `h x w` with element `(i, j)` equal to `M(i,j) * v[j]`, the
product of `int`, whose exact result wraps around in 32 bits (and is the exact result when
that fits in an `int`), and, when no `v[j]` is 0 and no pair `M(i,j), v[j]` is
`INT_MIN, -1`, to `M(i,j) / v[j]` truncated towards zero. -/
theorem broadcast_spec (M : Matrix CInt) (h w : Nat) (hM : M.HasShape h w) (v : List CInt) :
    (M.multiplyVector v = .error .InvalidArgument ↔ v.length ≠ w) ∧
    (M.divideVector v = .error .InvalidArgument ↔ v.length ≠ w) ∧
    (v.length = w →
      (∃ R, M.multiplyVector v = .ok R ∧ R.getHeight = h ∧ R.getWidth = w ∧ R.HasShape h w ∧
        ∀ i < h, ∀ j < w, ∃ a b, M.get i j = .ok a ∧ vecAt v j = .ok b ∧
          R.get i j = .ok (a * b) ∧ (a * b).val = wrapInt (a.val * b.val)) ∧
      ((∀ i < h, ∀ j < w, ∀ a b, M.get i j = .ok a → vecAt v j = .ok b →
          b.val ≠ 0 ∧ ¬ (a.val = -2147483648 ∧ b.val = -1)) →
        ∃ R, M.divideVector v = .ok R ∧ R.getHeight = h ∧ R.getWidth = w ∧ R.HasShape h w ∧
          ∀ i < h, ∀ j < w, ∃ a b q, M.get i j = .ok a ∧ vecAt v j = .ok b ∧
            R.get i j = .ok q ∧ q.val = Int.tdiv a.val b.val)) ∧
    (∀ x : Int, -2147483648 ≤ x → x < 2147483648 → wrapInt x = x) := by
  refine ⟨?_, ?_, ?_, wrapInt_of_range⟩
  · refine broadcastCells_invalid_iff _ M v h w hM ?_
    intro a b e hc
    cases hc
  · exact broadcastCells_invalid_iff _ M v h w hM nativeDiv_cint_error
  · intro hv
    refine ⟨?_, ?_⟩
    · obtain ⟨R, hR, d1, d2, hS, hc⟩ :=
        broadcastCells_cells (fun a b : CInt => .ok (a * b)) (· * ·) M v h w hM hv
          (fun _ _ _ _ => rfl)
      refine ⟨R, hR, d1, d2, hS, fun i hi j hj => ?_⟩
      obtain ⟨a, b, ha, hb, hr⟩ := hc i hi j hj
      exact ⟨a, b, ha, hb, hr, rfl⟩
    · intro hpre
      obtain ⟨R, hR, d1, d2, hS, hc⟩ := broadcastCells_cells NativeDiv.div
        (fun a b : CInt => CInt.ofInt (Int.tdiv a.val b.val)) M v h w hM hv (by
          intro i hi j hj
          obtain ⟨hb0, hmin⟩ := hpre i hi j hj _ _ (get_elem M h w i j hM hi hj)
            (vecAt_getD v j (by omega))
          exact (nativeDiv_cint_ok _ _ hb0 hmin).1)
      refine ⟨R, hR, d1, d2, hS, fun i hi j hj => ?_⟩
      obtain ⟨a, b, ha, hb, hr⟩ := hc i hi j hj
      obtain ⟨hb0, hmin⟩ := hpre i hi j hj a b ha hb
      exact ⟨a, b, _, ha, hb, hr, (nativeDiv_cint_ok a b hb0 hmin).2⟩

theorem broadcast_spec_witness :
    (∃ R : Matrix CInt,
      Matrix.divideVector
        ({ array_ := [[CInt.ofInt 4, CInt.ofInt 9], [CInt.ofInt (-7), CInt.ofInt 8]]
           height_ := 2
           width_ := 2 } : Matrix CInt)
        [CInt.ofInt 2, CInt.ofInt 3] = .ok R ∧
      (∃ q, R.get 0 1 = .ok q ∧ q.val = 3) ∧ (∃ q, R.get 1 0 = .ok q ∧ q.val = -3)) := by
  obtain ⟨R, hR, -, -, -, hcells⟩ :=
    ((broadcast_spec
      ({ array_ := [[CInt.ofInt 4, CInt.ofInt 9], [CInt.ofInt (-7), CInt.ofInt 8]]
         height_ := 2
         width_ := 2 } : Matrix CInt)
      2 2 (by decide) [CInt.ofInt 2, CInt.ofInt 3]).2.2.1 rfl).2 (by
        intro i hi j hj a b ha hb
        have hi2 : i = 0 ∨ i = 1 := by omega
        have hj2 : j = 0 ∨ j = 1 := by omega
        rcases hi2 with rfl | rfl <;> rcases hj2 with rfl | rfl <;>
          (cases Except.ok.inj ha; cases Except.ok.inj hb; decide))
  obtain ⟨a, b, q, ha, hb, h01, hq⟩ := hcells 0 (by decide) 1 (by decide)
  obtain ⟨c, d, r, hc, hd, h10, hr⟩ := hcells 1 (by decide) 0 (by decide)
  cases Except.ok.inj ha
  cases Except.ok.inj hb
  cases Except.ok.inj hc
  cases Except.ok.inj hd
  exact ⟨R, hR, ⟨q, h01, hq⟩, ⟨r, h10, hr⟩⟩

/-! ## `resize` and `subMat` -/

theorem read2_replicate (H W : Nat) (x : T) (i j : Nat) (hi : i < H) (hj : j < W) :
    read2 (List.replicate H (List.replicate W x)) i j = .ok x := by
  rw [read2_eq_ok_iff]
  refine ⟨List.replicate W x, ?_, ?_⟩
  · rw [List.getElem?_eq_getElem (by simpa using hi)]; simp
  · rw [List.getElem?_eq_getElem (by simpa using hj)]; simp

theorem toNat_min_natCast (a b : Nat) : (min (a : Int) (b : Int)).toNat = min a b := by
  rcases Nat.le_total a b with h | h
  · rw [Nat.min_eq_left h, min_eq_left (by exact_mod_cast h), Int.toNat_ofNat]
  · rw [Nat.min_eq_right h, min_eq_right (by exact_mod_cast h), Int.toNat_ofNat]

/-- What `resize(rows, cols)` makes of an `h x w` matrix. -/
theorem resize_eq [Zero T] (M : Matrix T) (h w rows cols : Nat) (hM : M.HasShape h w) :
    M.resize rows cols =
      .ok { array_ := table rows cols fun i j => if i < h ∧ j < w then elem M.array_ i j else 0
            height_ := rows
            width_ := cols } := by
  obtain ⟨s', hs', -, hR, hdone, hrest⟩ := fill2_gen (fun arr : List (List T) => arr)
    (fun _ => True) rows cols (min rows h) (min cols w) 0 0
    (fun i j arr => do
      let v ← read2 M.array_ i j
      write2 arr i j v) (elem M.array_) (List.replicate rows (List.replicate cols 0))
    (by
      intro a ha b hb arr _ hRa _ _
      have ha1 : a < rows := lt_of_lt_of_le ha (Nat.min_le_left _ _)
      have ha2 : a < h := lt_of_lt_of_le ha (Nat.min_le_right _ _)
      have hb1 : b < cols := lt_of_lt_of_le hb (Nat.min_le_left _ _)
      have hb2 : b < w := lt_of_lt_of_le hb (Nat.min_le_right _ _)
      obtain ⟨arr', hw, _⟩ := write2_spec arr rows cols a b (elem M.array_ a b) hRa ha1 hb1
      refine ⟨arr', ?_, trivial, hw⟩
      simp only [Nat.zero_add, read2_elem M.array_ h w a b hM.rect ha2 hb2, bind, Except.bind]
      exact hw)
    (Nat.min_le_left _ _) (Nat.min_le_left _ _) trivial (rect_replicate rows cols 0)
  have htab : s' = table rows cols fun i j => if i < h ∧ j < w then elem M.array_ i j else 0 := by
    apply eq_table _ rows cols _ hR
    intro i hi j hj
    by_cases hin : i < h ∧ j < w
    · rw [if_pos hin]
      exact hdone i (lt_min hi hin.1) j (lt_min hj hin.2)
    · rw [if_neg hin, hrest i j (by
        intro hc
        exact hin ⟨lt_of_lt_of_le hc.1 (Nat.min_le_right _ _),
          lt_of_lt_of_le hc.2 (Nat.min_le_right _ _)⟩)]
      exact read2_replicate rows cols 0 i j hi hj
  obtain ⟨h1, h2, -, -⟩ := hM
  simp only [bind, Except.bind] at hs'
  simp only [Matrix.resize, h1, h2, toNat_min_natCast, Int.toNat_ofNat, bind, Except.bind,
    Int.natCast_nonneg, not_lt.mpr, if_false]
  rw [hs', htab]

/-- Claim C15. On an `h x w` matrix `M`, for `rows >= 0` and `cols >= 0`, `resize(rows, cols)`
succeeds; afterwards the height is `rows`, the width is `cols`, the element `(i, j)` is
`M(i, j)` for `i < min(rows, h)` and `j < min(cols, w)`, and every other element is 0. -/
theorem resize_spec [Zero T] (M : Matrix T) (h w : Nat) (hM : M.HasShape h w)
    (rows cols : Int) (hr : 0 ≤ rows) (hc : 0 ≤ cols) :
    ∃ R, M.resize rows cols = .ok R ∧ R.getHeight = rows ∧ R.getWidth = cols ∧
      R.HasShape rows.toNat cols.toNat ∧
      ∀ i j : Nat, (i : Int) < rows → (j : Int) < cols →
        ((i < h ∧ j < w) → ∃ x, M.get i j = .ok x ∧ R.get i j = .ok x) ∧
        (¬ (i < h ∧ j < w) → R.get i j = .ok 0) := by
  obtain ⟨rows, rfl⟩ := Int.eq_ofNat_of_zero_le hr
  obtain ⟨cols, rfl⟩ := Int.eq_ofNat_of_zero_le hc
  refine ⟨_, resize_eq M h w rows cols hM, rfl, rfl, hasShape_table rows cols _, ?_⟩
  intro i j hi hj
  have hi : i < rows := by omega
  have hj : j < cols := by omega
  constructor
  · intro hin
    refine ⟨elem M.array_ i j, get_elem M h w i j hM hin.1 hin.2, ?_⟩
    rw [get_ofNat]
    simp only []
    rw [read2_table rows cols _ i j hi hj, if_pos hin]
  · intro hout
    rw [get_ofNat]
    simp only []
    rw [read2_table rows cols _ i j hi hj, if_neg hout]

theorem resize_spec_witness :
    ∃ R : Matrix Int,
      Matrix.resize ({ array_ := [[1, 2], [3, 4]], height_ := 2, width_ := 2 } : Matrix Int) 3 1
        = .ok R ∧ R.getHeight = 3 ∧ R.getWidth = 1 ∧ R.get 1 0 = .ok 3 ∧ R.get 2 0 = .ok 0 := by
  obtain ⟨R, hR, hh, hw, -, hcells⟩ := resize_spec
    ({ array_ := [[1, 2], [3, 4]], height_ := 2, width_ := 2 } : Matrix Int) 2 2 (by decide)
    3 1 (by decide) (by decide)
  obtain ⟨x, hx, hRx⟩ := (hcells 1 0 (by decide) (by decide)).1 (by decide)
  have h20 := (hcells 2 0 (by decide) (by decide)).2 (by decide)
  have : x = 3 := (Except.ok.inj hx).symm
  exact ⟨R, hR, hh, hw, this ▸ hRx, h20⟩

/-- What `subMat` returns for a region inside an `H x W` matrix. -/
theorem subMat_eq [Zero T] (M : Matrix T) (H W sH sW h w : Nat) (hM : M.HasShape H W)
    (hH : (H : Int) < 2147483648) (hW : (W : Int) < 2147483648)
    (hrow : sH + h ≤ H) (hcol : sW + w ≤ W) :
    M.subMat sH sW h w =
      .ok { array_ := table h w fun i j => elem M.array_ (sH + i) (sW + j)
            height_ := h
            width_ := w } := by
  obtain ⟨s', hs', -, hR, hdone, -⟩ := fill2_gen (fun arr : List (List T) => arr)
    (fun _ => True) h w h w sH sW
    (fun i j arr => do
      let v ← read2 M.array_ i j
      write2 arr (i - sH) (j - sW) v) (fun i j => elem M.array_ (sH + i) (sW + j))
    (List.replicate h (List.replicate w 0))
    (by
      intro a ha b hb arr _ hRa _ _
      obtain ⟨arr', hw, _⟩ :=
        write2_spec arr h w a b (elem M.array_ (sH + a) (sW + b)) hRa ha hb
      refine ⟨arr', ?_, trivial, hw⟩
      simp only [read2_elem M.array_ H W (sH + a) (sW + b) hM.rect (by omega) (by omega),
        Nat.add_sub_cancel_left, bind, Except.bind]
      exact hw)
    (Nat.le_refl h) (Nat.le_refl w) trivial (rect_replicate h w 0)
  have htab := eq_table s' h w _ hR hdone
  obtain ⟨h1, h2, -, -⟩ := hM
  have wh : wrapInt ((sH : Int) + (h : Int)) = (sH : Int) + (h : Int) := by
    unfold wrapInt; omega
  have ww : wrapInt ((sW : Int) + (w : Int)) = (sW : Int) + (w : Int) := by
    unfold wrapInt; omega
  have hguard : ¬ ¬ ((sH : Int) ≥ 0 ∧ wrapInt ((sH : Int) + h) ≤ M.height_ ∧ (sW : Int) ≥ 0 ∧
      wrapInt ((sW : Int) + w) ≤ M.width_) := by
    rw [h1, h2, wh, ww]; omega
  have ch : ((sH : Int) + (h : Int) - (sH : Int)).toNat = h := by omega
  have cw : ((sW : Int) + (w : Int) - (sW : Int)).toNat = w := by omega
  simp only [bind, Except.bind] at hs'
  unfold Matrix.subMat
  rw [if_neg hguard, wh, ww, ch, cw]
  simp only [Matrix.sized, Int.toNat_ofNat, bind, Except.bind, Int.natCast_nonneg, not_lt.mpr,
    if_false]
  rw [hs', htab]
  rfl

/-- Claim C16, counterexample. On a 2 x 2 matrix, `subMat(1, 0, -1, 1)` passes the bounds
guard (`1 + (-1) <= 2`) and then fails in the constructor of the result, with the
vector's length error and not with InvalidArgument. -/
theorem subMat_negative_counterexample :
    Matrix.subMat ({ array_ := [[1, 1], [1, 1]], height_ := 2, width_ := 2 } : Matrix Int)
        1 0 (-1) 1 = .error .LengthError ∧
    Matrix.subMat ({ array_ := [[1, 1], [1, 1]], height_ := 2, width_ := 2 } : Matrix Int)
        1 0 (-1) 1 ≠ .error .InvalidArgument := by
  have h : Matrix.subMat ({ array_ := [[1, 1], [1, 1]], height_ := 2, width_ := 2 } : Matrix Int)
      1 0 (-1) 1 = .error .LengthError := rfl
  refine ⟨h, ?_⟩
  rw [h]
  intro hc
  cases hc

/-- With the guard passed, `subMat` does not fail with InvalidArgument. -/
theorem subMat_not_invalid [Zero T] (M : Matrix T) (startRow startCol h w : Int)
    (hg : startRow ≥ 0 ∧ wrapInt (startRow + h) ≤ M.height_ ∧ startCol ≥ 0 ∧
      wrapInt (startCol + w) ≤ M.width_) :
    M.subMat startRow startCol h w ≠ .error .InvalidArgument := by
  intro hc
  unfold Matrix.subMat at hc
  rw [if_neg (not_not.mpr hg)] at hc
  simp only [Matrix.sized, bind, Except.bind] at hc
  split at hc
  · rename_i e hs
    split at hs
    · cases hs; cases hc
    · split at hs
      · cases hs; cases hc
      · cases hs
  · rename_i R hs
    split at hc
    · rename_i e hloop
      have hu : e = .Undefined := by
        refine forLoop_error _ (fun e => e = .Undefined) ?_ _ _ _ _ hloop
        intro i arr e hin
        refine forLoop_error _ (fun e => e = .Undefined) ?_ _ _ _ _ hin
        intro j arr e hbody
        simp only [] at hbody
        split at hbody
        · rename_i e1 h1; cases hbody; exact read2_error _ _ _ _ h1
        · exact write2_error _ _ _ _ _ hbody
      rw [hu] at hc
      cases hc
    · cases hc

/-- Claim C16, amended. On an `H x W` matrix `M` (`H` and `W` being `int` values),
`subMat(startRow, startCol, h, w)` fails with InvalidArgument exactly when `startRow < 0`,
`startRow + h > H`, `startCol < 0` or `startCol + w > W`, the two sums being the `int`
sums the code computes, which wrap around in 32 bits (and are the exact sums when these
fit in an `int`). When these bounds hold and `h` or `w` is negative it fails as well, with
the length error of the result's constructor; when the exact sums satisfy the bounds and
`h, w >= 0` it returns an `h x w` matrix whose element `(i, j)` is
`M(startRow + i, startCol + j)`. -/
theorem subMat_spec [Zero T] (M : Matrix T) (H W : Nat) (hM : M.HasShape H W)
    (hH : (H : Int) < 2147483648) (hW : (W : Int) < 2147483648)
    (startRow startCol h w : Int) :
    (M.subMat startRow startCol h w = .error .InvalidArgument ↔
      (startRow < 0 ∨ wrapInt (startRow + h) > H ∨ startCol < 0 ∨
        wrapInt (startCol + w) > W)) ∧
    ((-2147483648 ≤ startRow + h → startRow + h < 2147483648 →
        wrapInt (startRow + h) = startRow + h) ∧
      (-2147483648 ≤ startCol + w → startCol + w < 2147483648 →
        wrapInt (startCol + w) = startCol + w)) ∧
    (0 ≤ startRow → wrapInt (startRow + h) ≤ H → 0 ≤ startCol → wrapInt (startCol + w) ≤ W →
      (h < 0 ∨ w < 0) → M.subMat startRow startCol h w = .error .LengthError) ∧
    (0 ≤ startRow → startRow + h ≤ H → 0 ≤ startCol → startCol + w ≤ W → 0 ≤ h → 0 ≤ w →
      ∃ R, M.subMat startRow startCol h w = .ok R ∧ R.getHeight = h ∧ R.getWidth = w ∧
        R.HasShape h.toNat w.toNat ∧
        ∀ i j : Nat, (i : Int) < h → (j : Int) < w →
          ∃ x, M.get (startRow + i) (startCol + j) = .ok x ∧ R.get i j = .ok x) := by
  refine ⟨⟨?_, ?_⟩, ⟨?_, ?_⟩, ?_, ?_⟩
  · intro herr
    by_contra hc
    refine subMat_not_invalid M startRow startCol h w ?_ herr
    rw [hM.1, hM.2.1]
    omega
  · intro hout
    have hguard : ¬ (startRow ≥ 0 ∧ wrapInt (startRow + h) ≤ M.height_ ∧ startCol ≥ 0 ∧
        wrapInt (startCol + w) ≤ M.width_) := by
      rw [hM.1, hM.2.1]; omega
    unfold Matrix.subMat
    rw [if_pos hguard]
  · intro h1 h2
    unfold wrapInt
    omega
  · intro h1 h2
    unfold wrapInt
    omega
  · intro h1 h2 h3 h4 hneg
    have hguard : ¬ ¬ (startRow ≥ 0 ∧ wrapInt (startRow + h) ≤ M.height_ ∧ startCol ≥ 0 ∧
        wrapInt (startCol + w) ≤ M.width_) := by
      rw [hM.1, hM.2.1]; omega
    unfold Matrix.subMat
    rw [if_neg hguard]
    by_cases hw : w < 0
    · simp [Matrix.sized, hw, bind, Except.bind]
    · have hh : h < 0 := by omega
      simp [Matrix.sized, hw, hh, bind, Except.bind]
  · intro h1 h2 h3 h4 hh hw
    obtain ⟨sH, rfl⟩ := Int.eq_ofNat_of_zero_le h1
    obtain ⟨sW, rfl⟩ := Int.eq_ofNat_of_zero_le h3
    obtain ⟨h, rfl⟩ := Int.eq_ofNat_of_zero_le hh
    obtain ⟨w, rfl⟩ := Int.eq_ofNat_of_zero_le hw
    refine ⟨_, subMat_eq M H W sH sW h w hM hH hW (by omega) (by omega), rfl, rfl,
      hasShape_table h w _, ?_⟩
    intro i j hi hj
    have hi : i < h := by omega
    have hj : j < w := by omega
    refine ⟨elem M.array_ (sH + i) (sW + j), ?_, ?_⟩
    · have e1 : ((sH : Int) + (i : Int)) = ((sH + i : Nat) : Int) := by simp
      have e2 : ((sW : Int) + (j : Int)) = ((sW + j : Nat) : Int) := by simp
      rw [e1, e2]
      exact get_elem M H W (sH + i) (sW + j) hM (by omega) (by omega)
    · rw [get_ofNat]
      exact read2_table h w _ i j hi hj

theorem subMat_spec_witness :
    ∃ R : Matrix Int,
      Matrix.subMat ({ array_ := [[1, 2, 3], [4, 5, 6], [7, 8, 9]], height_ := 3, width_ := 3 } :
        Matrix Int) 1 1 2 2 = .ok R ∧
      R.getHeight = 2 ∧ R.getWidth = 2 ∧ R.get 0 0 = .ok 5 ∧ R.get 1 1 = .ok 9 := by
  obtain ⟨R, hR, hh, hw, -, hcells⟩ :=
    (subMat_spec ({ array_ := [[1, 2, 3], [4, 5, 6], [7, 8, 9]], height_ := 3, width_ := 3 } :
      Matrix Int) 3 3 (by decide) (by decide) (by decide) 1 1 2 2).2.2.2 (by decide)
      (by decide) (by decide) (by decide) (by decide) (by decide)
  obtain ⟨x, hx, hRx⟩ := hcells 0 0 (by decide) (by decide)
  obtain ⟨y, hy, hRy⟩ := hcells 1 1 (by decide) (by decide)
  have ex : x = 5 := (Except.ok.inj hx).symm
  have ey : y = 9 := (Except.ok.inj hy).symm
  exact ⟨R, hR, hh, hw, ex ▸ hRx, ey ▸ hRy⟩

/-! ## Where the code leaves the data model -/

/-- Claim C14, the failing input. `Matrix(3, 0)` holds three rows of no elements and
satisfies the invariant. `insert(0, [1, 2], 0)` is accepted, because the length check is
waived whenever the width is 0, and leaves four rows of lengths 2, 0, 0, 0 with width 2:
the invariant is lost. `push_back([1, 2], 0)` does the same. -/
theorem insert_breaks_invariant :
    Matrix.sized 3 0 = .ok ({ array_ := [[], [], []], height_ := 3, width_ := 0 } : Matrix Int) ∧
    Matrix.WF ({ array_ := [[], [], []], height_ := 3, width_ := 0 } : Matrix Int) ∧
    Matrix.insert ({ array_ := [[], [], []], height_ := 3, width_ := 0 } : Matrix Int) 0 [1, 2] 0
      = .ok { array_ := [[1, 2], [], [], []], height_ := 4, width_ := 2 } ∧
    Matrix.push_back ({ array_ := [[], [], []], height_ := 3, width_ := 0 } : Matrix Int) [1, 2] 0
      = .ok { array_ := [[], [], [], [1, 2]], height_ := 4, width_ := 2 } ∧
    ¬ Matrix.WF ({ array_ := [[1, 2], [], [], []], height_ := 4, width_ := 2 } : Matrix Int) ∧
    ¬ Matrix.WF ({ array_ := [[], [], [], [1, 2]], height_ := 4, width_ := 2 } : Matrix Int) :=
  ⟨rfl, by decide, rfl, rfl, by decide, by decide⟩

/-- Claim C19, the failing input. On `Matrix(0, 3)` (no rows, width 3), `A *= 2` leaves
`A` as it is, 0 x 3, while `A.multiply(2)` builds its result from the rows alone and
returns a 0 x 0 matrix; `==` between the two is false. The same holds for `/=`. -/
theorem scalar_assign_differs :
    Matrix.sized 0 3 = .ok ({ array_ := [], height_ := 0, width_ := 3 } : Matrix Int) ∧
    Matrix.operator_mul_assign_scalar ({ array_ := [], height_ := 0, width_ := 3 } : Matrix Int) 2
      = .ok { array_ := [], height_ := 0, width_ := 3 } ∧
    Matrix.multiplyScalar ({ array_ := [], height_ := 0, width_ := 3 } : Matrix Int) 2
      = .ok { array_ := [], height_ := 0, width_ := 0 } ∧
    Matrix.operator_eq ({ array_ := [], height_ := 0, width_ := 3 } : Matrix Int)
      { array_ := [], height_ := 0, width_ := 0 } = .ok false ∧
    Matrix.operator_div_assign_scalar ({ array_ := [], height_ := 0, width_ := 3 } : Matrix Int) 2
      = .ok { array_ := [], height_ := 0, width_ := 3 } ∧
    Matrix.divideScalar ({ array_ := [], height_ := 0, width_ := 3 } : Matrix Int) 2
      = .ok { array_ := [], height_ := 0, width_ := 0 } :=
  ⟨rfl, rfl, rfl, rfl, rfl, rfl⟩

/-! ## Compound assignment against the non-mutating forms -/

/-- The in-place matrix forms on two `h x w` matrices. -/
theorem zipCellsAssign_eq [Zero T] (op : T → T → Except Error T) (A B : Matrix T) (h w : Nat)
    (g : Nat → Nat → T) (hA : A.HasShape h w) (hB : B.HasShape h w)
    (hop : ∀ i < h, ∀ j < w, op (elem A.array_ i j) (elem B.array_ i j) = .ok (g i j)) :
    A.zipCellsAssign op B = .ok { array_ := table h w g, height_ := h, width_ := w } := by
  obtain ⟨s', hs', -, htab⟩ := fill2_full (fun arr : List (List T) => arr) (fun _ => True) h w
    (fun i j arr => do
      let a ← read2 arr i j
      let b ← read2 B.array_ i j
      let c ← op a b
      write2 arr i j c) g A.array_
    (by
      intro i hi j hj arr _ hR _ hcur
      obtain ⟨arr', hw, _⟩ := write2_spec arr h w i j (g i j) hR hi hj
      refine ⟨arr', ?_, trivial, hw⟩
      have hcur' : read2 arr i j = .ok (elem A.array_ i j) :=
        hcur.trans (read2_elem A.array_ h w i j hA.rect hi hj)
      simp only [hcur', read2_elem B.array_ h w i j hB.rect hi hj, hop i hi j hj, bind,
        Except.bind]
      exact hw)
    trivial hA.rect
  obtain ⟨a1, a2, -, -⟩ := hA
  obtain ⟨b1, b2, -, -⟩ := hB
  simp only [bind, Except.bind] at hs'
  have hguard : ¬ (A.height_ ≠ B.height_ ∨ A.width_ ≠ B.width_) := by
    rw [a1, a2, b1, b2]; simp
  unfold Matrix.zipCellsAssign
  rw [if_neg hguard]
  simp only [a1, a2, Int.toNat_ofNat, bind, Except.bind, hs', htab]

theorem zipCellsAssign_mismatch (op : T → T → Except Error T) (A B : Matrix T)
    (h : ¬ (A.height_ = B.height_ ∧ A.width_ = B.width_)) :
    A.zipCellsAssign op B = .error (.InvalidArgument, A) := by
  have hguard : A.height_ ≠ B.height_ ∨ A.width_ ≠ B.width_ := by
    by_contra hc
    apply h
    constructor
    · by_contra h1; exact hc (Or.inl h1)
    · by_contra h2; exact hc (Or.inr h2)
  unfold Matrix.zipCellsAssign
  rw [if_pos hguard]

/-- The in-place vector forms on an `h x w` matrix. -/
theorem broadcastCellsAssign_eq [Zero T] (op : T → T → Except Error T) (A : Matrix T)
    (v : List T) (h w : Nat) (g : Nat → Nat → T) (hA : A.HasShape h w) (hv : v.length = w)
    (hop : ∀ i < h, ∀ j < w, op (elem A.array_ i j) (v.getD j 0) = .ok (g i j)) :
    A.broadcastCellsAssign op v = .ok { array_ := table h w g, height_ := h, width_ := w } := by
  obtain ⟨s', hs', -, htab⟩ := fill2_full (fun arr : List (List T) => arr) (fun _ => True) h w
    (fun i j arr => do
      let a ← read2 arr i j
      let b ← vecAt v j
      let c ← op a b
      write2 arr i j c) g A.array_
    (by
      intro i hi j hj arr _ hR _ hcur
      obtain ⟨arr', hw, _⟩ := write2_spec arr h w i j (g i j) hR hi hj
      refine ⟨arr', ?_, trivial, hw⟩
      have hcur' : read2 arr i j = .ok (elem A.array_ i j) :=
        hcur.trans (read2_elem A.array_ h w i j hA.rect hi hj)
      simp only [hcur', vecAt_getD v j (by omega), hop i hi j hj, bind, Except.bind]
      exact hw)
    trivial hA.rect
  obtain ⟨a1, a2, -, -⟩ := hA
  simp only [bind, Except.bind] at hs'
  have hguard : ¬ (sizeT A.width_ ≠ v.length) := by
    rw [a2, sizeT_natCast, hv]; simp
  unfold Matrix.broadcastCellsAssign
  rw [if_neg hguard]
  simp only [a1, a2, Int.toNat_ofNat, bind, Except.bind, hs', htab]

/-- The constructor from rows gives back an `h x w` matrix with at least one row (or of
width 0) from its own buffer. -/
theorem ofRows_array (M : Matrix T) (h w : Nat) (hM : M.HasShape h w) (hh : 1 ≤ h ∨ w = 0) :
    Matrix.ofRows M.array_ = M := by
  obtain ⟨h1, h2, h3, h4⟩ := hM
  cases M with
  | mk arr ht wd =>
    simp only [] at h1 h2 h3 h4
    subst h1 h2
    cases arr with
    | nil =>
      simp only [List.length_nil] at h3
      subst h3
      rcases hh with hh | hh
      · omega
      · subst hh; rfl
    | cons row rest =>
      have := h4 row (List.mem_cons_self _ _)
      simp [Matrix.ofRows, ← h3, this]

/-- The scalar forms on an `h x w` matrix with at least one row (or of width 0). -/
theorem mapCells_eq [Zero T] (op : T → Except Error T) (A : Matrix T) (h w : Nat)
    (g : Nat → Nat → T) (hA : A.HasShape h w) (hh : 1 ≤ h ∨ w = 0)
    (hop : ∀ i < h, ∀ j < w, op (elem A.array_ i j) = .ok (g i j)) :
    A.mapCells op = .ok { array_ := table h w g, height_ := h, width_ := w } := by
  obtain ⟨s', hs', -, htab⟩ := fill2_full (fun arr : List (List T) => arr) (fun _ => True) h w
    (fun i j arr => do
      let a ← read2 arr i j
      let c ← op a
      write2 arr i j c) g A.array_
    (by
      intro i hi j hj arr _ hR _ hcur
      obtain ⟨arr', hw, _⟩ := write2_spec arr h w i j (g i j) hR hi hj
      refine ⟨arr', ?_, trivial, hw⟩
      have hcur' : read2 arr i j = .ok (elem A.array_ i j) :=
        hcur.trans (read2_elem A.array_ h w i j hA.rect hi hj)
      simp only [hcur', hop i hi j hj, bind, Except.bind]
      exact hw)
    trivial hA.rect
  have hof := ofRows_array A h w hA hh
  obtain ⟨a1, a2, -, -⟩ := hA
  simp only [bind, Except.bind] at hs'
  unfold Matrix.mapCells
  simp only [hof, a1, a2, Int.toNat_ofNat, bind, Except.bind, hs', htab, pure, Except.pure]

/-- The in-place scalar forms on an `h x w` matrix. -/
theorem mapCellsAssign_eq [Zero T] (op : T → Except Error T) (A : Matrix T) (h w : Nat)
    (g : Nat → Nat → T) (hA : A.HasShape h w)
    (hop : ∀ i < h, ∀ j < w, op (elem A.array_ i j) = .ok (g i j)) :
    A.mapCellsAssign op = .ok { array_ := table h w g, height_ := h, width_ := w } := by
  obtain ⟨s', hs', -, htab⟩ := fill2_full (fun arr : List (List T) => arr) (fun _ => True) h w
    (fun i j arr => do
      let a ← read2 arr i j
      let c ← op a
      write2 arr i j c) g A.array_
    (by
      intro i hi j hj arr _ hR _ hcur
      obtain ⟨arr', hw, _⟩ := write2_spec arr h w i j (g i j) hR hi hj
      refine ⟨arr', ?_, trivial, hw⟩
      have hcur' : read2 arr i j = .ok (elem A.array_ i j) :=
        hcur.trans (read2_elem A.array_ h w i j hA.rect hi hj)
      simp only [hcur', hop i hi j hj, bind, Except.bind]
      exact hw)
    trivial hA.rect
  obtain ⟨a1, a2, -, -⟩ := hA
  simp only [bind, Except.bind] at hs'
  unfold Matrix.mapCellsAssign
  simp only [a1, a2, Int.toNat_ofNat, bind, Except.bind, hs', htab]

theorem zipCells_agree [Zero T] (op : T → T → Except Error T) (f : T → T → T)
    (A B : Matrix T) (h w : Nat) (hA : A.HasShape h w) (hB : B.HasShape h w)
    (hop : ∀ i < h, ∀ j < w,
      op (elem A.array_ i j) (elem B.array_ i j) = .ok (f (elem A.array_ i j) (elem B.array_ i j))) :
    ∃ R, A.zipCells op B = .ok R ∧ A.zipCellsAssign op B = .ok R :=
  ⟨_, zipCells_eq op A B h w _ hA hB hop, zipCellsAssign_eq op A B h w _ hA hB hop⟩

theorem broadcastCells_agree [Zero T] (op : T → T → Except Error T) (f : T → T → T)
    (A : Matrix T) (v : List T) (h w : Nat) (hA : A.HasShape h w) (hv : v.length = w)
    (hop : ∀ i < h, ∀ j < w,
      op (elem A.array_ i j) (v.getD j 0) = .ok (f (elem A.array_ i j) (v.getD j 0))) :
    ∃ R, A.broadcastCells op v = .ok R ∧ A.broadcastCellsAssign op v = .ok R :=
  ⟨_, broadcastCells_eq op A v h w _ hA hv hop, broadcastCellsAssign_eq op A v h w _ hA hv hop⟩

theorem mapCells_agree [Zero T] (op : T → Except Error T) (f : T → T)
    (A : Matrix T) (h w : Nat) (hA : A.HasShape h w) (hh : 1 ≤ h ∨ w = 0)
    (hop : ∀ i < h, ∀ j < w, op (elem A.array_ i j) = .ok (f (elem A.array_ i j))) :
    ∃ R, A.mapCells op = .ok R ∧ A.mapCellsAssign op = .ok R :=
  ⟨_, mapCells_eq op A h w _ hA hh hop, mapCellsAssign_eq op A h w _ hA hop⟩

/-- Adding and then subtracting the same `int` gives the first operand back, wrap-around
included. -/
theorem cint_add_sub_cancel (a b : CInt) : a + b - b = a := by
  apply CInt.ext
  show wrapInt (wrapInt (a.val + b.val) - b.val) = a.val
  have h1 := a.lo
  have h2 := a.hi
  have h3 := b.lo
  have h4 := b.hi
  unfold wrapInt
  omega

/-- Compound assignment against the non-mutating forms, on matrices of `int` `A`
(`h x w`) and `B` (`h' x w'`), a vector `v` and a scalar `s`. With a matrix or vector
operand the two fail together with InvalidArgument (the receiver untouched) or return the
very same matrix, and `A += B` followed by `A -= B` gives `A` back. With a scalar operand
they return the same matrix when `A` has at least one row or has width 0. The divisions
are taken where they are defined: no divisor 0 and no pair `INT_MIN, -1`. -/
theorem compound_assign_agrees (A B : Matrix CInt) (h w h' w' : Nat)
    (hA : A.HasShape h w) (hB : B.HasShape h' w') (v : List CInt) (s : CInt) :
    ((h ≠ h' ∨ w ≠ w') →
      (A.add B = .error .InvalidArgument ∧
        A.operator_add_assign B = .error (.InvalidArgument, A)) ∧
      (A.subtract B = .error .InvalidArgument ∧
        A.operator_sub_assign B = .error (.InvalidArgument, A)) ∧
      (A.multiply B = .error .InvalidArgument ∧
        A.operator_mul_assign B = .error (.InvalidArgument, A)) ∧
      (A.divide B = .error .InvalidArgument ∧
        A.operator_div_assign B = .error (.InvalidArgument, A))) ∧
    (h = h' → w = w' →
      (∃ R, A.add B = .ok R ∧ A.operator_add_assign B = .ok R) ∧
      (∃ R, A.subtract B = .ok R ∧ A.operator_sub_assign B = .ok R) ∧
      (∃ R, A.multiply B = .ok R ∧ A.operator_mul_assign B = .ok R) ∧
      ((∀ i < h, ∀ j < w, ∀ a b, A.get i j = .ok a → B.get i j = .ok b →
          b.val ≠ 0 ∧ ¬ (a.val = -2147483648 ∧ b.val = -1)) →
        ∃ R, A.divide B = .ok R ∧ A.operator_div_assign B = .ok R) ∧
      (∃ R, A.operator_add_assign B = .ok R ∧ R.operator_sub_assign B = .ok A)) ∧
    (v.length ≠ w →
      (A.multiplyVector v = .error .InvalidArgument ∧
        A.operator_mul_assign_vector v = .error (.InvalidArgument, A)) ∧
      (A.divideVector v = .error .InvalidArgument ∧
        A.operator_div_assign_vector v = .error (.InvalidArgument, A))) ∧
    (v.length = w →
      (∃ R, A.multiplyVector v = .ok R ∧ A.operator_mul_assign_vector v = .ok R) ∧
      ((∀ i < h, ∀ j < w, ∀ a b, A.get i j = .ok a → vecAt v j = .ok b →
          b.val ≠ 0 ∧ ¬ (a.val = -2147483648 ∧ b.val = -1)) →
        ∃ R, A.divideVector v = .ok R ∧ A.operator_div_assign_vector v = .ok R)) ∧
    ((1 ≤ h ∨ w = 0) →
      (∃ R, A.multiplyScalar s = .ok R ∧ A.operator_mul_assign_scalar s = .ok R) ∧
      (s.val ≠ 0 →
        (∀ i < h, ∀ j < w, ∀ a, A.get i j = .ok a → ¬ (a.val = -2147483648 ∧ s.val = -1)) →
        ∃ R, A.divideScalar s = .ok R ∧ A.operator_div_assign_scalar s = .ok R)) := by
  refine ⟨?_, ?_, ?_, ?_, ?_⟩
  · intro hne
    have hg : ¬ (A.height_ = B.height_ ∧ A.width_ = B.width_) := by
      rw [hA.1, hA.2.1, hB.1, hB.2.1]
      intro hc
      have := hc.1
      have := hc.2
      omega
    exact ⟨⟨zipCells_mismatch _ A B hg, zipCellsAssign_mismatch _ A B hg⟩,
      ⟨zipCells_mismatch _ A B hg, zipCellsAssign_mismatch _ A B hg⟩,
      ⟨zipCells_mismatch _ A B hg, zipCellsAssign_mismatch _ A B hg⟩,
      ⟨zipCells_mismatch _ A B hg, zipCellsAssign_mismatch _ A B hg⟩⟩
  · intro e1 e2
    subst e1 e2
    refine ⟨?_, ?_, ?_, ?_, ?_⟩
    · exact zipCells_agree _ (· + ·) A B h w hA hB (fun _ _ _ _ => rfl)
    · exact zipCells_agree _ (· - ·) A B h w hA hB (fun _ _ _ _ => rfl)
    · exact zipCells_agree _ (· * ·) A B h w hA hB (fun _ _ _ _ => rfl)
    · intro hpre
      refine zipCells_agree _ (fun a b : CInt => CInt.ofInt (Int.tdiv a.val b.val))
        A B h w hA hB ?_
      intro i hi j hj
      obtain ⟨hb0, hmin⟩ := hpre i hi j hj _ _ (get_elem A h w i j hA hi hj)
        (get_elem B h w i j hB hi hj)
      exact (nativeDiv_cint_ok _ _ hb0 hmin).1
    · refine ⟨_, zipCellsAssign_eq (fun a b => .ok (a + b)) A B h w
        (fun i j => elem A.array_ i j + elem B.array_ i j) hA hB (fun _ _ _ _ => rfl), ?_⟩
      have hback := zipCellsAssign_eq (fun a b : CInt => .ok (a - b))
        { array_ := table h w fun i j => elem A.array_ i j + elem B.array_ i j
          height_ := h
          width_ := w } B h w (elem A.array_) (hasShape_table h w _) hB (by
          intro i hi j hj
          simp only []
          rw [elem_table h w _ i j hi hj, cint_add_sub_cancel])
      unfold Matrix.operator_sub_assign
      rw [hback, table_elem A.array_ h w hA.rect, hA.eta]
  · intro hne
    have hg : sizeT A.width_ ≠ v.length := by
      rw [hA.2.1, sizeT_natCast]; exact fun c => hne c.symm
    refine ⟨⟨?_, ?_⟩, ⟨?_, ?_⟩⟩
    · unfold Matrix.multiplyVector Matrix.broadcastCells; rw [if_pos hg]
    · unfold Matrix.operator_mul_assign_vector Matrix.broadcastCellsAssign; rw [if_pos hg]
    · unfold Matrix.divideVector Matrix.broadcastCells; rw [if_pos hg]
    · unfold Matrix.operator_div_assign_vector Matrix.broadcastCellsAssign; rw [if_pos hg]
  · intro hv
    refine ⟨?_, ?_⟩
    · exact broadcastCells_agree _ (· * ·) A v h w hA hv (fun _ _ _ _ => rfl)
    · intro hpre
      refine broadcastCells_agree _ (fun a b : CInt => CInt.ofInt (Int.tdiv a.val b.val))
        A v h w hA hv ?_
      intro i hi j hj
      obtain ⟨hb0, hmin⟩ := hpre i hi j hj _ _ (get_elem A h w i j hA hi hj)
        (vecAt_getD v j (by omega))
      exact (nativeDiv_cint_ok _ _ hb0 hmin).1
  · intro hh
    refine ⟨?_, ?_⟩
    · exact mapCells_agree _ (· * s) A h w hA hh (fun _ _ _ _ => rfl)
    · intro hs hpre
      exact mapCells_agree _ (fun a : CInt => CInt.ofInt (Int.tdiv a.val s.val)) A h w hA hh
        (fun i hi j hj => (nativeDiv_cint_ok _ _ hs
          (hpre i hi j hj _ (get_elem A h w i j hA hi hj))).1)

theorem compound_assign_agrees_sample :
    ∃ R : Matrix CInt,
      Matrix.operator_add_assign
        ({ array_ := [[CInt.ofInt 1, CInt.ofInt 1], [CInt.ofInt 1, CInt.ofInt 1]]
           height_ := 2
           width_ := 2 } : Matrix CInt)
        { array_ := [[CInt.ofInt 2, CInt.ofInt 2], [CInt.ofInt 2, CInt.ofInt 2]]
          height_ := 2
          width_ := 2 } = .ok R ∧
      R.operator_sub_assign
        { array_ := [[CInt.ofInt 2, CInt.ofInt 2], [CInt.ofInt 2, CInt.ofInt 2]]
          height_ := 2
          width_ := 2 }
        = .ok { array_ := [[CInt.ofInt 1, CInt.ofInt 1], [CInt.ofInt 1, CInt.ofInt 1]]
                height_ := 2
                width_ := 2 } :=
  ((compound_assign_agrees
    ({ array_ := [[CInt.ofInt 1, CInt.ofInt 1], [CInt.ofInt 1, CInt.ofInt 1]]
       height_ := 2
       width_ := 2 } : Matrix CInt)
    { array_ := [[CInt.ofInt 2, CInt.ofInt 2], [CInt.ofInt 2, CInt.ofInt 2]]
      height_ := 2
      width_ := 2 } 2 2 2 2 (by decide) (by decide)
    [] (CInt.ofInt 0)).2.1 rfl rfl).2.2.2.2

/-! ## The invariant after a successful mutation -/

theorem insert_ok_inv (M : Matrix T) (h w : Nat) (hM : M.HasShape h w) (index : Int)
    (data : List T) (axis : Int) (R : Matrix T) (hR : M.insert index data axis = .ok R) :
    (axis = 0 ∧ 0 ≤ index ∧ index ≤ h ∧ (data.length = w ∨ w = 0)) ∨
    (axis = 1 ∧ 0 ≤ index ∧ index ≤ w ∧ data.length = h) := by
  obtain ⟨h1, h2, -, -⟩ := hM
  unfold Matrix.insert at hR
  rw [h1, h2, sizeT_natCast, sizeT_natCast] at hR
  split at hR
  · rename_i hax
    split at hR
    · cases hR
    · rename_i hchk
      split at hR
      · cases hR
      · rename_i hidx
        left
        refine ⟨hax, by omega, by omega, ?_⟩
        by_cases hw : w = 0
        · exact Or.inr hw
        · left
          by_contra hne
          exact hchk ⟨hne, by exact_mod_cast hw⟩
  · split at hR
    · rename_i hax
      split at hR
      · cases hR
      · rename_i hchk
        split at hR
        · cases hR
        · rename_i hidx
          right
          exact ⟨hax, by omega, by omega, not_not.mp hchk⟩
    · cases hR

theorem erase_ok_inv (M : Matrix T) (h w : Nat) (hM : M.HasShape h w) (index : Int)
    (axis : Int) (R : Matrix T) (hR : M.erase index axis = .ok R) :
    (axis = 0 ∧ 0 ≤ index ∧ index < h) ∨ (axis = 1 ∧ 0 ≤ index ∧ index < w) := by
  obtain ⟨h1, h2, -, -⟩ := hM
  unfold Matrix.erase at hR
  rw [h1, h2] at hR
  split at hR
  · rename_i hax
    split at hR
    · cases hR
    · rename_i hidx
      left
      exact ⟨hax, by omega, by omega⟩
  · split at hR
    · rename_i hax
      split at hR
      · cases hR
      · rename_i hidx
        right
        exact ⟨hax, by omega, by omega⟩
    · cases hR

theorem insert_ok_wf (M : Matrix T) (h w : Nat) (hM : M.HasShape h w) (index : Int)
    (data : List T) (axis : Int) (R : Matrix T) (hR : M.insert index data axis = .ok R)
    (hcase : axis = 0 → (w ≠ 0 ∨ h = 0 ∨ data.length = 0)) : R.WF := by
  rcases insert_ok_inv M h w hM index data axis R hR with ⟨hax, h0, hidx, hdata⟩ | ⟨hax, h0, hidx, hdata⟩
  · subst hax
    obtain ⟨idx, rfl⟩ := Int.eq_ofNat_of_zero_le h0
    have hidx : idx ≤ h := by omega
    rw [insert0_eq M h w idx data hM hidx hdata] at hR
    have hR := (Except.ok.inj hR).symm
    by_cases hlen : data.length = w
    · have hwid : (if w = 0 then (data.length : Int) else (w : Int)) = w := by
        split
        · rw [hlen]
        · rfl
      rw [hwid] at hR
      rw [hR]
      exact (hasShape_insert0 M h w idx data hM hidx hlen).wf
    · have hw : w = 0 := by
        rcases hdata with hd | hd
        · exact absurd hd hlen
        · exact hd
      have hh : h = 0 := by
        rcases hcase rfl with hc | hc | hc
        · exact absurd hw hc
        · exact hc
        · rw [hw] at hlen; exact absurd hc hlen
      subst hw hh
      have harr : M.array_ = [] := List.eq_nil_of_length_eq_zero hM.2.2.1
      have hidx0 : idx = 0 := by omega
      subst hidx0
      rw [hR, harr]
      refine ⟨by simp, by simp, ?_⟩
      intro row hrow
      simp at hrow
      simp [hrow]
  · subst hax
    obtain ⟨idx, rfl⟩ := Int.eq_ofNat_of_zero_le h0
    have hidx : idx ≤ w := by omega
    rw [insert1_eq M h w idx data hM hidx hdata] at hR
    rw [← Except.ok.inj hR]
    exact (hasShape_insert1 M h w idx data hM hidx hdata).wf

theorem erase_ok_wf (M : Matrix T) (h w : Nat) (hM : M.HasShape h w) (index : Int)
    (axis : Int) (R : Matrix T) (hR : M.erase index axis = .ok R) : R.WF := by
  rcases erase_ok_inv M h w hM index axis R hR with ⟨hax, h0, hidx⟩ | ⟨hax, h0, hidx⟩
  · subst hax
    obtain ⟨idx, rfl⟩ := Int.eq_ofNat_of_zero_le h0
    have hidx : idx < h := by omega
    rw [erase0_eq M h w idx hM hidx] at hR
    rw [← Except.ok.inj hR]
    exact (hasShape_erase0 M h w idx hM hidx).wf
  · subst hax
    obtain ⟨idx, rfl⟩ := Int.eq_ofNat_of_zero_le h0
    have hidx : idx < w := by omega
    rw [erase1_eq M h w idx hM hidx] at hR
    rw [← Except.ok.inj hR]
    exact (hasShape_erase1 M h w idx hM hidx).wf

/-- The invariant (every row has `width` elements, `height` is the number of rows) after
a successful mutation of an `h x w` matrix. It is kept by `insert` and `push_back` on
axis 1, by `erase`, `pop_back`, `put`, `fill`, `resize(rows, cols)` and `clear`, and by
`insert` and `push_back` on axis 0 unless the matrix has rows, has width 0 and the new
row is not empty. -/
theorem invariant_preserved [Zero T] (M : Matrix T) (h w : Nat) (hM : M.HasShape h w)
    (R : Matrix T) :
    (∀ index data axis, (axis = 0 → (w ≠ 0 ∨ h = 0 ∨ data.length = 0)) →
      M.insert index data axis = .ok R → R.WF) ∧
    (∀ data axis, (axis = 0 → (w ≠ 0 ∨ h = 0 ∨ data.length = 0)) →
      M.push_back data axis = .ok R → R.WF) ∧
    (∀ index axis, M.erase index axis = .ok R → R.WF) ∧
    (∀ axis, M.pop_back axis = .ok R → R.WF) ∧
    (∀ r c v, M.put r c v = .ok R → R.WF) ∧
    (∀ v, (M.fill v).WF) ∧
    (∀ rows cols, M.resize rows cols = .ok R → R.WF) ∧
    M.clear.WF := by
  refine ⟨?_, ?_, ?_, ?_, ?_, ?_, ?_, ?_⟩
  · intro index data axis hcase hR
    exact insert_ok_wf M h w hM index data axis R hR hcase
  · intro data axis hcase hR
    by_cases h0 : axis = 0
    · subst h0
      rw [push_back0_eq_insert M h w hM data] at hR
      exact insert_ok_wf M h w hM h data 0 R hR hcase
    · by_cases h1 : axis = 1
      · subst h1
        rw [push_back1_eq_insert M h w hM data] at hR
        exact insert_ok_wf M h w hM w data 1 R hR hcase
      · simp [Matrix.push_back, h0, h1] at hR
  · intro index axis hR
    exact erase_ok_wf M h w hM index axis R hR
  · intro axis hR
    by_cases h0 : axis = 0
    · subst h0
      rw [pop_back0_eq_erase M h w hM] at hR
      exact erase_ok_wf M h w hM _ 0 R hR
    · by_cases h1 : axis = 1
      · subst h1
        rw [pop_back1_eq_erase M h w hM] at hR
        exact erase_ok_wf M h w hM _ 1 R hR
      · simp [Matrix.pop_back, h0, h1] at hR
  · intro r c v hR
    by_cases hin : 0 ≤ r ∧ r < h ∧ 0 ≤ c ∧ c < w
    · obtain ⟨hr0, hr, hc0, hc⟩ := hin
      obtain ⟨r, rfl⟩ := Int.eq_ofNat_of_zero_le hr0
      obtain ⟨c, rfl⟩ := Int.eq_ofNat_of_zero_le hc0
      obtain ⟨arr, hput, hRect, -, -⟩ := put_eq M h w r c v hM (by omega) (by omega)
      rw [hput] at hR
      rw [← Except.ok.inj hR]
      exact (show Matrix.HasShape { array_ := arr, height_ := h, width_ := w } h w from
        ⟨rfl, rfl, hRect.1, hRect.2⟩).wf
    · have hguard : ¬ (r ≥ 0 ∧ r < M.height_ ∧ c ≥ 0 ∧ c < M.width_) := by
        rw [hM.1, hM.2.1]; omega
      unfold Matrix.put at hR
      rw [if_pos hguard] at hR
      cases hR
  · intro v
    obtain ⟨h1, h2, h3, h4⟩ := hM
    refine ⟨by simp [Matrix.fill, h1, h3], by simp [Matrix.fill, h2], ?_⟩
    intro row hrow
    simp only [Matrix.fill, List.mem_map] at hrow
    obtain ⟨r, hr, rfl⟩ := hrow
    simp [Matrix.fill, h4 r hr, h2]
  · intro rows cols hR
    by_cases hneg : 0 ≤ rows ∧ 0 ≤ cols
    · obtain ⟨hr0, hc0⟩ := hneg
      obtain ⟨rows, rfl⟩ := Int.eq_ofNat_of_zero_le hr0
      obtain ⟨cols, rfl⟩ := Int.eq_ofNat_of_zero_le hc0
      rw [resize_eq M h w rows cols hM] at hR
      rw [← Except.ok.inj hR]
      exact (hasShape_table rows cols _).wf
    · unfold Matrix.resize at hR
      by_cases hc : cols < 0
      · rw [if_pos hc] at hR; cases hR
      · have hr : rows < 0 := by omega
        rw [if_neg hc, if_pos hr] at hR; cases hR
  · exact ⟨rfl, Int.le_refl 0, fun row hrow => by simp [Matrix.clear] at hrow⟩

theorem invariant_preserved_sample :
    Matrix.WF ({ array_ := [[1, 1, 1], [3, 3, 3], [1, 1, 1]], height_ := 3, width_ := 3 } :
      Matrix Int) :=
  (invariant_preserved ({ array_ := [[1, 1, 1], [1, 1, 1]], height_ := 2, width_ := 3 } :
    Matrix Int) 2 3 (by decide)
    { array_ := [[1, 1, 1], [3, 3, 3], [1, 1, 1]], height_ := 3, width_ := 3 }).1
    1 [3, 3, 3] 0 (fun _ => Or.inl (by decide)) rfl

/-! ## Two nested loops with any state -/

/-- Invariant rule for two nested counted loops. `P a b s` is what holds before the
iteration `(a, b)`; the end of a row `P a W s` gives the start of the next, `P (a+1) 0 s`. -/
theorem nested_inv {σ : Type} (body : Nat → Nat → σ → Except Error σ)
    (P : Nat → Nat → σ → Prop) (H W : Nat) (s0 : σ) (h0 : P 0 0 s0)
    (hstep : ∀ a < H, ∀ b < W, ∀ s, P a b s → ∃ s', body a b s = .ok s' ∧ P a (b + 1) s')
    (hrow : ∀ a < H, ∀ s, P a W s → P (a + 1) 0 s) :
    ∃ s', forLoop (fun i s => forLoop (fun j s => body i j s) W 0 s) H 0 s0 = .ok s' ∧
      P H 0 s' := by
  have := forLoop_inv_off (fun i s => forLoop (fun j s => body i j s) W 0 s)
    (fun a s => P a 0 s) H 0 s0 h0 (by
      intro a s ha hP
      obtain ⟨s', hs', hP'⟩ := forLoop_inv_off (fun j s => body (0 + a) j s)
        (fun b s => P a b s) W 0 s hP (by
          intro b s hb hPb
          obtain ⟨s', hb', hP'⟩ := hstep a ha b hb s hPb
          exact ⟨s', by simpa using hb', hP'⟩)
      exact ⟨s', hs', hrow a ha s' hP'⟩)
  exact this

/-! ## Assignment from rows against the constructor -/

/-- Claim C29, the failing input. With no rows, `m = src` assigns the buffer and the
height and then reads `m[0].size()` of an empty vector, outside `src`: undefined
behaviour, in both overloads. The constructor `Matrix(src)` tests `height_ > 0` first and
gives width 0. -/
theorem assign_empty_rows_undefined :
    (∃ s, (Matrix.empty : Matrix Int).operator_assign_rows [] = .error (.Undefined, s)) ∧
    (∃ s, (Matrix.empty : Matrix Int).operator_assign_rows_move [] = .error (.Undefined, s)) ∧
    (Matrix.ofRows [] : Matrix Int) = { array_ := [], height_ := 0, width_ := 0 } :=
  ⟨⟨_, rfl⟩, ⟨_, rfl⟩, rfl⟩

/-- With at least one row, both assignments from rows leave the matrix that the
constructor from rows builds. -/
theorem assign_rows_eq_ofRows (M : Matrix T) (src : List (List T)) (hsrc : src ≠ []) :
    M.operator_assign_rows src = .ok (Matrix.ofRows src) ∧
    M.operator_assign_rows_move src = .ok (Matrix.ofRows src) := by
  cases src with
  | nil => exact absurd rfl hsrc
  | cons row rest =>
    constructor
    · simp [Matrix.operator_assign_rows, vecAt, Matrix.ofRows]
    · simp [Matrix.operator_assign_rows_move, vecAt, Matrix.ofRows]

/-! ## Transpose of a product -/

/-- Claim C28. For an `h x k` matrix `A` and a `k x w` matrix `B` over a commutative
semiring (the integers in particular), all five calls succeed and
`A.dot(B).transpose() == B.transpose().dot(A.transpose())` is true; both sides are `w x h`. -/
theorem dot_transpose [CommSemiring T] [DecidableEq T] (A B : Matrix T) (h k w : Nat)
    (hA : A.HasShape h k) (hB : B.HasShape k w) :
    ∃ P Pt Bt At Q, A.dot B = .ok P ∧ P.transpose = .ok Pt ∧ B.transpose = .ok Bt ∧
      A.transpose = .ok At ∧ Bt.dot At = .ok Q ∧ Pt.operator_eq Q = .ok true ∧
      Pt.HasShape w h ∧ Q.HasShape w h := by
  have hP := dot_eq A B h k w hA hB
  have hPt := transpose_eq _ h w (hasShape_table h w (dotCell A.array_ B.array_ k))
  have hBt := transpose_eq B k w hB
  have hAt := transpose_eq A h k hA
  have hQ := dot_eq _ _ w k h (hasShape_table w k fun i j => elem B.array_ j i)
    (hasShape_table k h fun i j => elem A.array_ j i)
  have harr : (table w h fun i j => elem (table h w (dotCell A.array_ B.array_ k)) j i)
      = table w h (dotCell (table w k fun i j => elem B.array_ j i)
          (table k h fun i j => elem A.array_ j i) k) := by
    apply table_congr
    intro i hi j hj
    rw [elem_table h w _ j i hj hi, dotCell_eq_sum, dotCell_eq_sum]
    apply Finset.sum_congr rfl
    intro t ht
    have ht : t < k := Finset.mem_range.mp ht
    rw [elem_table w k _ i t hi ht, elem_table k h _ t j ht hj, mul_comm]
  refine ⟨_, _, _, _, _, hP, hPt, hBt, hAt, hQ, ?_, hasShape_table w h _, hasShape_table w h _⟩
  simp only [] at harr ⊢
  rw [harr]
  exact operator_eq_self _ w h (hasShape_table w h _)

theorem dot_transpose_witness :
    ∃ P Pt Bt At Q : Matrix Int,
      Matrix.dot ({ array_ := [[1, 2, 3], [4, 5, 6]], height_ := 2, width_ := 3 } : Matrix Int)
        { array_ := [[1], [0], [2]], height_ := 3, width_ := 1 } = .ok P ∧
      P.transpose = .ok Pt ∧
      Matrix.transpose ({ array_ := [[1], [0], [2]], height_ := 3, width_ := 1 } : Matrix Int)
        = .ok Bt ∧
      Matrix.transpose ({ array_ := [[1, 2, 3], [4, 5, 6]], height_ := 2, width_ := 3 } :
        Matrix Int) = .ok At ∧
      Bt.dot At = .ok Q ∧ Pt.operator_eq Q = .ok true := by
  obtain ⟨P, Pt, Bt, At, Q, h1, h2, h3, h4, h5, h6, -, -⟩ := dot_transpose
    ({ array_ := [[1, 2, 3], [4, 5, 6]], height_ := 2, width_ := 3 } : Matrix Int)
    { array_ := [[1], [0], [2]], height_ := 3, width_ := 1 } 2 3 1 (by decide) (by decide)
  exact ⟨P, Pt, Bt, At, Q, h1, h2, h3, h4, h5, h6⟩

/-! ## The three input forms on a constant operand -/

/-- Claim C26, the failing input. On `Matrix(0, 3)` (no rows, width 3) with the scalar 2:
`multiply(2)` builds its result from the rows alone and returns a 0 x 0 matrix, while
`multiply({2, 2, 2})` and `multiply(Matrix(0, 3, 2))` return 0 x 3 matrices; `==` between
the scalar form and either of the others is false. The same holds for `divide`. -/
theorem scalar_forms_differ :
    Matrix.filled 0 3 2 = .ok ({ array_ := [], height_ := 0, width_ := 3 } : Matrix Int) ∧
    Matrix.multiplyScalar ({ array_ := [], height_ := 0, width_ := 3 } : Matrix Int) 2
      = .ok { array_ := [], height_ := 0, width_ := 0 } ∧
    Matrix.multiplyVector ({ array_ := [], height_ := 0, width_ := 3 } : Matrix Int) [2, 2, 2]
      = .ok { array_ := [], height_ := 0, width_ := 3 } ∧
    Matrix.multiply ({ array_ := [], height_ := 0, width_ := 3 } : Matrix Int)
      { array_ := [], height_ := 0, width_ := 3 }
      = .ok { array_ := [], height_ := 0, width_ := 3 } ∧
    Matrix.operator_eq ({ array_ := [], height_ := 0, width_ := 0 } : Matrix Int)
      { array_ := [], height_ := 0, width_ := 3 } = .ok false ∧
    Matrix.divideScalar ({ array_ := [], height_ := 0, width_ := 3 } : Matrix Int) 2
      = .ok { array_ := [], height_ := 0, width_ := 0 } ∧
    Matrix.divideVector ({ array_ := [], height_ := 0, width_ := 3 } : Matrix Int) [2, 2, 2]
      = .ok { array_ := [], height_ := 0, width_ := 3 } ∧
    Matrix.divide ({ array_ := [], height_ := 0, width_ := 3 } : Matrix Int)
      { array_ := [], height_ := 0, width_ := 3 }
      = .ok { array_ := [], height_ := 0, width_ := 3 } :=
  ⟨rfl, rfl, rfl, rfl, rfl, rfl, rfl, rfl⟩

theorem elem_replicate [Zero T] (H W : Nat) (x : T) (i j : Nat) (hi : i < H) (hj : j < W) :
    elem (List.replicate H (List.replicate W x)) i j = x := by
  have h1 := read2_replicate H W x i j hi hj
  rw [read2_elem _ H W i j (rect_replicate H W x) hi hj] at h1
  exact Except.ok.inj h1

theorem getD_replicate_lt [Zero T] (W : Nat) (x : T) (j : Nat) (hj : j < W) :
    (List.replicate W x).getD j 0 = x := by
  rw [List.getD_eq_getElem?_getD, List.getElem?_eq_getElem (by simpa using hj)]
  simp

/-- On an `h x w` matrix `M` of `int` with at least one row (or of width 0) and a scalar
`s`, the three forms of `multiply`, with `s`, with the vector of `w` copies of `s` and with
`Matrix(h, w, s)`, return the same matrix, which is `==` to itself; for `s != 0`, and no
element `INT_MIN` when `s` is `-1`, so do the three forms of `divide`. -/
theorem constant_forms_agree (M : Matrix CInt) (h w : Nat) (hM : M.HasShape h w)
    (hh : 1 ≤ h ∨ w = 0) (s : CInt) :
    (∃ R C, M.multiplyScalar s = .ok R ∧ M.multiplyVector (List.replicate w s) = .ok R ∧
      Matrix.filled h w s = .ok C ∧ M.multiply C = .ok R ∧ R.operator_eq R = .ok true) ∧
    (s.val ≠ 0 →
      (∀ i < h, ∀ j < w, ∀ a, M.get i j = .ok a → ¬ (a.val = -2147483648 ∧ s.val = -1)) →
      ∃ R C, M.divideScalar s = .ok R ∧ M.divideVector (List.replicate w s) = .ok R ∧
        Matrix.filled h w s = .ok C ∧ M.divide C = .ok R ∧ R.operator_eq R = .ok true) := by
  have hC : Matrix.filled h w s
      = .ok ({ array_ := List.replicate h (List.replicate w s)
               height_ := h
               width_ := w } : Matrix CInt) := by
    simp only [Matrix.filled, Int.natCast_nonneg, not_lt.mpr, if_false, Int.toNat_ofNat]
  have hCS : Matrix.HasShape ({ array_ := List.replicate h (List.replicate w s)
                                height_ := h
                                width_ := w } : Matrix CInt) h w :=
    ⟨rfl, rfl, (rect_replicate h w s).1, (rect_replicate h w s).2⟩
  constructor
  · refine ⟨_, _, mapCells_eq _ M h w (fun i j => elem M.array_ i j * s) hM hh
      (fun _ _ _ _ => rfl), ?_, hC, ?_, operator_eq_self _ h w (hasShape_table h w _)⟩
    · refine broadcastCells_eq _ M _ h w _ hM (by simp) ?_
      intro i hi j hj
      rw [getD_replicate_lt w s j hj]
    · refine zipCells_eq _ M _ h w _ hM hCS ?_
      intro i hi j hj
      simp only []
      rw [elem_replicate h w s i j hi hj]
  · intro hs hpre
    have hdiv : ∀ i < h, ∀ j < w, NativeDiv.div (elem M.array_ i j) s
        = .ok (CInt.ofInt (Int.tdiv (elem M.array_ i j).val s.val)) :=
      fun i hi j hj => (nativeDiv_cint_ok _ _ hs
        (hpre i hi j hj _ (get_elem M h w i j hM hi hj))).1
    refine ⟨_, _, mapCells_eq _ M h w
      (fun i j => CInt.ofInt (Int.tdiv (elem M.array_ i j).val s.val)) hM hh hdiv, ?_, hC, ?_,
      operator_eq_self _ h w (hasShape_table h w _)⟩
    · refine broadcastCells_eq _ M _ h w _ hM (by simp) ?_
      intro i hi j hj
      rw [getD_replicate_lt w s j hj]
      exact hdiv i hi j hj
    · refine zipCells_eq _ M _ h w _ hM hCS ?_
      intro i hi j hj
      simp only []
      rw [elem_replicate h w s i j hi hj]
      exact hdiv i hi j hj

theorem constant_forms_agree_sample :
    ∃ R C : Matrix CInt,
      Matrix.divideScalar
        ({ array_ := [[CInt.ofInt 4, CInt.ofInt 4], [CInt.ofInt 4, CInt.ofInt 4]]
           height_ := 2
           width_ := 2 } : Matrix CInt) (CInt.ofInt 2) = .ok R ∧
      Matrix.divideVector
        ({ array_ := [[CInt.ofInt 4, CInt.ofInt 4], [CInt.ofInt 4, CInt.ofInt 4]]
           height_ := 2
           width_ := 2 } : Matrix CInt) (List.replicate 2 (CInt.ofInt 2)) = .ok R ∧
      Matrix.filled 2 2 (CInt.ofInt 2) = .ok C ∧
      Matrix.divide
        ({ array_ := [[CInt.ofInt 4, CInt.ofInt 4], [CInt.ofInt 4, CInt.ofInt 4]]
           height_ := 2
           width_ := 2 } : Matrix CInt) C = .ok R ∧
      R.operator_eq R = .ok true :=
  (constant_forms_agree
    ({ array_ := [[CInt.ofInt 4, CInt.ofInt 4], [CInt.ofInt 4, CInt.ofInt 4]]
       height_ := 2
       width_ := 2 } : Matrix CInt) 2 2 (by decide) (Or.inl (by decide)) (CInt.ofInt 2)).2
    (by decide) (fun _ _ _ _ _ _ hc => absurd hc.2 (by decide))

/-! ## Sums -/

/-- Two nested loops that add `f a b` to entry `a` of a vector of `H` zeros leave the
vector of the sums over `b < W`. -/
theorem accumLoop_spec [AddCommMonoid T] (body : Nat → Nat → List T → Except Error (List T))
    (f : Nat → Nat → T) (H W : Nat)
    (hbody : ∀ a < H, ∀ b < W, ∀ (res : List T) (r : T), res[a]? = some r →
      body a b res = .ok (res.set a (r + f a b))) :
    forLoop (fun i res => forLoop (fun j res => body i j res) W 0 res) H 0 (List.replicate H 0)
      = .ok ((List.range H).map fun a => ∑ b in Finset.range W, f a b) := by
  obtain ⟨res, hres, hlen, hdone, -, -⟩ := nested_inv body
    (fun a b res => res.length = H ∧
      (∀ i < a, res[i]? = some (∑ b in Finset.range W, f i b)) ∧
      (a < H → res[a]? = some (∑ j in Finset.range b, f a j)) ∧
      (∀ i, a < i → i < H → res[i]? = some 0))
    H W (List.replicate H 0)
    ⟨by simp, fun i hi => absurd hi (Nat.not_lt_zero _),
      fun h0 => by simp [List.getElem?_replicate, h0],
      fun i _ hi => by simp [List.getElem?_replicate, hi]⟩
    (by
      intro a ha b hb res ⟨hlen, hdone, hcur, hrest⟩
      refine ⟨_, hbody a ha b hb res _ (hcur ha), by simpa using hlen, ?_, ?_, ?_⟩
      · intro i hi
        rw [List.getElem?_set_ne (by omega)]
        exact hdone i hi
      · intro _
        rw [List.getElem?_set_self (by omega), Finset.sum_range_succ]
      · intro i hi1 hi2
        rw [List.getElem?_set_ne (by omega)]
        exact hrest i hi1 hi2)
    (by
      intro a ha res ⟨hlen, hdone, hcur, hrest⟩
      refine ⟨hlen, ?_, ?_, ?_⟩
      · intro i hi
        rcases Nat.lt_succ_iff_lt_or_eq.mp hi with h | h
        · exact hdone i h
        · subst h; exact hcur ha
      · intro ha1
        rw [hrest (a + 1) (by omega) ha1]
        simp
      · intro i hi1 hi2
        exact hrest i (by omega) hi2)
  rw [hres]
  congr 1
  apply List.ext_getElem?
  intro i
  by_cases hi : i < H
  · rw [hdone i hi]
    simp [List.getElem?_range hi]
  · rw [List.getElem?_eq_none (by omega), List.getElem?_eq_none (by simp; omega)]

/-- What `sum(0)` returns on an `h x w` matrix: the sums of the rows. -/
theorem sum_axis0_eq [AddCommMonoid T] (M : Matrix T) (h w : Nat) (hM : M.HasShape h w) :
    M.sum_axis 0
      = .ok ((List.range h).map fun i => ∑ j in Finset.range w, elem M.array_ i j) := by
  have hloop := accumLoop_spec (fun i j (result : List T) => do
      let r ← vecAt result i
      let a ← read2 M.array_ i j
      pure (result.set i (r + a))) (fun i j => elem M.array_ i j) h w (by
      intro a ha b hb res r hr
      simp only [vecAt_eq_ok res a r hr, read2_elem M.array_ h w a b hM.rect ha hb, bind,
        Except.bind, pure, Except.pure])
  obtain ⟨h1, h2, -, -⟩ := hM
  simp only [bind, Except.bind] at hloop
  simp only [Matrix.sum_axis, if_true, h1, h2, Int.toNat_ofNat, Int.natCast_nonneg, not_lt.mpr,
    if_false, bind, Except.bind, hloop]

/-- What `sum(1)` returns on an `h x w` matrix: the sums of the columns. -/
theorem sum_axis1_eq [AddCommMonoid T] (M : Matrix T) (h w : Nat) (hM : M.HasShape h w) :
    M.sum_axis 1
      = .ok ((List.range w).map fun j => ∑ i in Finset.range h, elem M.array_ i j) := by
  have hloop := accumLoop_spec (fun i j (result : List T) => do
      let r ← vecAt result i
      let a ← read2 M.array_ j i
      pure (result.set i (r + a))) (fun j i => elem M.array_ i j) w h (by
      intro a ha b hb res r hr
      simp only [vecAt_eq_ok res a r hr, read2_elem M.array_ h w b a hM.rect hb ha, bind,
        Except.bind, pure, Except.pure])
  obtain ⟨h1, h2, -, -⟩ := hM
  simp only [bind, Except.bind] at hloop
  simp only [Matrix.sum_axis, one_ne_zero, if_true, h1, h2, Int.toNat_ofNat, Int.natCast_nonneg,
    not_lt.mpr, if_false, bind, Except.bind, hloop]

/-- What `sum()` returns on an `h x w` matrix. -/
theorem sum_eq [AddCommMonoid T] (M : Matrix T) (h w : Nat) (hM : M.HasShape h w) :
    M.sum = .ok (∑ i in Finset.range h, ∑ j in Finset.range w, elem M.array_ i j) := by
  obtain ⟨s, hs, hP⟩ := nested_inv (fun i j (sum : T) => do
      let a ← read2 M.array_ i j
      pure (sum + a))
    (fun a b s => s = (∑ i in Finset.range a, ∑ j in Finset.range w, elem M.array_ i j)
      + ∑ j in Finset.range b, elem M.array_ a j)
    h w 0 (by simp)
    (by
      intro a ha b hb s hs
      refine ⟨s + elem M.array_ a b, ?_, ?_⟩
      · simp only [read2_elem M.array_ h w a b hM.rect ha hb, bind, Except.bind, pure,
          Except.pure]
      · show s + elem M.array_ a b = _ + ∑ j in Finset.range (b + 1), elem M.array_ a j
        rw [hs, Finset.sum_range_succ, add_assoc])
    (by
      intro a ha s hs
      show s = (∑ i in Finset.range (a + 1), ∑ j in Finset.range w, elem M.array_ i j)
        + ∑ j in Finset.range 0, elem M.array_ (a + 1) j
      rw [hs, Finset.sum_range_succ]
      simp)
  obtain ⟨h1, h2, -, -⟩ := hM
  simp only [bind, Except.bind] at hs
  simp only [Matrix.sum, h1, h2, Int.toNat_ofNat, bind, Except.bind, hs]
  rw [hP]
  simp

theorem elem_of_get [Zero T] (M : Matrix T) (h w : Nat) (hM : M.HasShape h w)
    (e : Nat → Nat → T) (he : ∀ i < h, ∀ j < w, M.get i j = .ok (e i j)) :
    ∀ i < h, ∀ j < w, elem M.array_ i j = e i j := by
  intro i hi j hj
  have := he i hi j hj
  rw [get_elem M h w i j hM hi hj] at this
  exact Except.ok.inj this

/-- Claim C22. On an `h x w` matrix `M` (also with `h = 0` or `w = 0`) whose element
`(i, j)` is `e i j`: `sum()` is the sum of all the elements, 0 when there is none; `sum(0)`
is a list of length `h` whose entry `i` is the sum of row `i`; `sum(1)` is a list of
length `w` whose entry `j` is the sum of column `j`. -/
theorem sum_spec [AddCommMonoid T] (M : Matrix T) (h w : Nat) (hM : M.HasShape h w)
    (e : Nat → Nat → T) (he : ∀ i < h, ∀ j < w, M.get i j = .ok (e i j)) :
    M.sum = .ok (∑ i in Finset.range h, ∑ j in Finset.range w, e i j) ∧
    ((h = 0 ∨ w = 0) → M.sum = .ok 0) ∧
    (∃ l, M.sum_axis 0 = .ok l ∧ l.length = h ∧
      ∀ i < h, l[i]? = some (∑ j in Finset.range w, e i j)) ∧
    (∃ l, M.sum_axis 1 = .ok l ∧ l.length = w ∧
      ∀ j < w, l[j]? = some (∑ i in Finset.range h, e i j)) := by
  have hel := elem_of_get M h w hM e he
  have hsum : M.sum = .ok (∑ i in Finset.range h, ∑ j in Finset.range w, e i j) := by
    rw [sum_eq M h w hM]
    congr 1
    apply Finset.sum_congr rfl
    intro i hi
    apply Finset.sum_congr rfl
    intro j hj
    exact hel i (Finset.mem_range.mp hi) j (Finset.mem_range.mp hj)
  refine ⟨hsum, ?_, ?_, ?_⟩
  · intro hz
    rw [hsum]
    rcases hz with hz | hz
    · subst hz; simp
    · subst hz; simp
  · refine ⟨_, sum_axis0_eq M h w hM, by simp, ?_⟩
    intro i hi
    simp only [List.getElem?_map, List.getElem?_range hi, Option.map_some']
    congr 1
    apply Finset.sum_congr rfl
    intro j hj
    exact hel i hi j (Finset.mem_range.mp hj)
  · refine ⟨_, sum_axis1_eq M h w hM, by simp, ?_⟩
    intro j hj
    simp only [List.getElem?_map, List.getElem?_range hj, Option.map_some']
    congr 1
    apply Finset.sum_congr rfl
    intro i hi
    exact hel i (Finset.mem_range.mp hi) j hj

theorem sum_spec_witness :
    Matrix.sum ({ array_ := [[1, 2], [3, 4]], height_ := 2, width_ := 2 } : Matrix Int)
      = .ok 10 ∧
    (∃ l, Matrix.sum_axis ({ array_ := [[1, 2], [3, 4]], height_ := 2, width_ := 2 } :
        Matrix Int) 0 = .ok l ∧ l.length = 2 ∧ l[0]? = some 3 ∧ l[1]? = some 7) ∧
    (∃ l, Matrix.sum_axis ({ array_ := [[1, 2], [3, 4]], height_ := 2, width_ := 2 } :
        Matrix Int) 1 = .ok l ∧ l.length = 2 ∧ l[0]? = some 4 ∧ l[1]? = some 6) := by
  obtain ⟨h1, -, ⟨l0, hl0, hlen0, hc0⟩, ⟨l1, hl1, hlen1, hc1⟩⟩ := sum_spec
    ({ array_ := [[1, 2], [3, 4]], height_ := 2, width_ := 2 } : Matrix Int) 2 2 (by decide)
    (fun i j => elem [[1, 2], [3, 4]] i j)
    (fun i hi j hj => get_elem _ 2 2 i j (by decide) hi hj)
  exact ⟨h1, ⟨l0, hl0, hlen0, hc0 0 (by decide), hc0 1 (by decide)⟩,
    ⟨l1, hl1, hlen1, hc1 0 (by decide), hc1 1 (by decide)⟩⟩

/-! ## Cumulative sums -/

/-- What `cumuSum(0)` returns on an `h x w` matrix: the running sums down each column. -/
theorem cumuSum0_eq [AddCommMonoid T] (M : Matrix T) (h w : Nat) (hM : M.HasShape h w) :
    M.cumuSum 0
      = .ok { array_ := table h w fun i j => ∑ r in Finset.range (i + 1), elem M.array_ r j
              height_ := h
              width_ := w } := by
  obtain ⟨s', hs', -, htab⟩ := fill2_full (fun arr : List (List T) => arr) (fun _ => True) h w
    (fun i j arr =>
      if i = 0 then do
        let a ← read2 M.array_ i j
        write2 arr i j a
      else do
        let a ← read2 M.array_ i j
        let b ← read2 arr (i - 1) j
        write2 arr i j (a + b))
    (fun i j => ∑ r in Finset.range (i + 1), elem M.array_ r j)
    (List.replicate h (List.replicate w 0))
    (by
      intro i hi j hj arr _ hR hdone _
      obtain ⟨arr', hw, _⟩ := write2_spec arr h w i j
        (∑ r in Finset.range (i + 1), elem M.array_ r j) hR hi hj
      refine ⟨arr', ?_, trivial, hw⟩
      by_cases hi0 : i = 0
      · subst hi0
        simp only [if_true, read2_elem M.array_ h w 0 j hM.rect hi hj, bind, Except.bind]
        rw [← hw]
        simp
      · have hidx : i - 1 + 1 = i := by omega
        have hprev : read2 arr (i - 1) j = .ok (∑ r in Finset.range i, elem M.array_ r j) := by
          have := hdone (i - 1) j (Or.inl (by omega)) (by omega) hj
          simp only [hidx] at this
          exact this
        simp only [if_neg hi0, read2_elem M.array_ h w i j hM.rect hi hj, hprev, bind,
          Except.bind]
        rw [← hw, Finset.sum_range_succ, add_comm])
    trivial (rect_replicate h w 0)
  obtain ⟨h1, h2, -, -⟩ := hM
  simp only [bind, Except.bind] at hs'
  simp only [Matrix.cumuSum, if_true, Matrix.sized, h1, h2, Int.toNat_ofNat, bind, Except.bind,
    Int.natCast_nonneg, not_lt.mpr, if_false]
  rw [hs', htab]
  rfl

/-- What `cumuSum(1)` returns on an `h x w` matrix: the running sums along each row. The
loops run over the columns first. -/
theorem cumuSum1_eq [AddCommMonoid T] (M : Matrix T) (h w : Nat) (hM : M.HasShape h w) :
    M.cumuSum 1
      = .ok { array_ := table h w fun i j => ∑ c in Finset.range (j + 1), elem M.array_ i c
              height_ := h
              width_ := w } := by
  obtain ⟨s', hs', hR', hcells⟩ := nested_inv
    (fun i j (arr : List (List T)) =>
      if i = 0 then do
        let a ← read2 M.array_ j i
        write2 arr j i a
      else do
        let a ← read2 M.array_ j i
        let b ← read2 arr j (i - 1)
        write2 arr j i (a + b))
    (fun c r arr => Rect arr h w ∧
      ∀ r' c', (c' < c ∨ (c' = c ∧ r' < r)) → r' < h → c' < w →
        read2 arr r' c' = .ok (∑ k in Finset.range (c' + 1), elem M.array_ r' k))
    w h (List.replicate h (List.replicate w 0))
    ⟨rect_replicate h w 0, fun r' c' hlt => by omega⟩
    (by
      intro c hc r hr arr ⟨hR, hdone⟩
      obtain ⟨arr', hw, hR2, hself, hother⟩ := write2_spec arr h w r c
        (∑ k in Finset.range (c + 1), elem M.array_ r k) hR hr hc
      refine ⟨arr', ?_, hR2, ?_⟩
      · by_cases hc0 : c = 0
        · subst hc0
          simp only [if_true, read2_elem M.array_ h w r 0 hM.rect hr hc, bind, Except.bind]
          rw [← hw]
          simp
        · have hidx : c - 1 + 1 = c := by omega
          have hprev : read2 arr r (c - 1)
              = .ok (∑ k in Finset.range c, elem M.array_ r k) := by
            have := hdone r (c - 1) (Or.inl (by omega)) hr (by omega)
            simp only [hidx] at this
            exact this
          simp only [if_neg hc0, read2_elem M.array_ h w r c hM.rect hr hc, hprev, bind,
            Except.bind]
          rw [← hw, Finset.sum_range_succ, add_comm]
      · intro r' c' hlt hr' hc'
        by_cases hcell : r' = r ∧ c' = c
        · rw [hcell.1, hcell.2]; exact hself
        · rw [hother r' c' (by omega)]
          exact hdone r' c' (by omega) hr' hc')
    (by
      intro c hc arr ⟨hR, hdone⟩
      exact ⟨hR, fun r' c' hlt hr' hc' => hdone r' c' (by omega) hr' hc'⟩)
  have htab := eq_table s' h w _ hR' (fun i hi j hj => hcells i j (Or.inl hj) hi hj)
  obtain ⟨h1, h2, -, -⟩ := hM
  simp only [bind, Except.bind] at hs'
  simp only [Matrix.cumuSum, one_ne_zero, if_true, Matrix.sized, h1, h2, Int.toNat_ofNat, bind,
    Except.bind, Int.natCast_nonneg, not_lt.mpr, if_false]
  rw [hs', htab]
  rfl

/-- Claim C23. On an `h x w` matrix `M` whose element `(i, j)` is `e i j`, `cumuSum(0)` and
`cumuSum(1)` return `h x w` matrices; the element `(i, j)` of `cumuSum(0)` is the sum of
`e r j` over `r <= i` (down the column) and that of `cumuSum(1)` is the sum of `e i c`
over `c <= j` (along the row). -/
theorem cumuSum_spec [AddCommMonoid T] (M : Matrix T) (h w : Nat) (hM : M.HasShape h w)
    (e : Nat → Nat → T) (he : ∀ i < h, ∀ j < w, M.get i j = .ok (e i j)) :
    (∃ R, M.cumuSum 0 = .ok R ∧ R.getHeight = h ∧ R.getWidth = w ∧ R.HasShape h w ∧
      ∀ i < h, ∀ j < w, R.get i j = .ok (∑ r in Finset.range (i + 1), e r j)) ∧
    (∃ R, M.cumuSum 1 = .ok R ∧ R.getHeight = h ∧ R.getWidth = w ∧ R.HasShape h w ∧
      ∀ i < h, ∀ j < w, R.get i j = .ok (∑ c in Finset.range (j + 1), e i c)) := by
  have hel := elem_of_get M h w hM e he
  constructor
  · refine ⟨_, cumuSum0_eq M h w hM, rfl, rfl, hasShape_table h w _, ?_⟩
    intro i hi j hj
    rw [get_ofNat]
    simp only []
    rw [read2_table h w _ i j hi hj]
    congr 1
    apply Finset.sum_congr rfl
    intro r hr
    exact hel r (by have := Finset.mem_range.mp hr; omega) j hj
  · refine ⟨_, cumuSum1_eq M h w hM, rfl, rfl, hasShape_table h w _, ?_⟩
    intro i hi j hj
    rw [get_ofNat]
    simp only []
    rw [read2_table h w _ i j hi hj]
    congr 1
    apply Finset.sum_congr rfl
    intro c hc
    exact hel i hi c (by have := Finset.mem_range.mp hc; omega)

theorem cumuSum_spec_witness :
    (∃ R, Matrix.cumuSum ({ array_ := [[1, 2], [3, 4]], height_ := 2, width_ := 2 } :
        Matrix Int) 0 = .ok R ∧ R.get 0 0 = .ok 1 ∧ R.get 1 0 = .ok 4) ∧
    (∃ R, Matrix.cumuSum ({ array_ := [[1, 2], [3, 4]], height_ := 2, width_ := 2 } :
        Matrix Int) 1 = .ok R ∧ R.get 0 1 = .ok 3 ∧ R.get 1 1 = .ok 7) := by
  obtain ⟨⟨R0, hR0, -, -, -, hc0⟩, ⟨R1, hR1, -, -, -, hc1⟩⟩ := cumuSum_spec
    ({ array_ := [[1, 2], [3, 4]], height_ := 2, width_ := 2 } : Matrix Int) 2 2 (by decide)
    (fun i j => elem [[1, 2], [3, 4]] i j)
    (fun i hi j hj => get_elem _ 2 2 i j (by decide) hi hj)
  exact ⟨⟨R0, hR0, hc0 0 (by decide) 0 (by decide), hc0 1 (by decide) 0 (by decide)⟩,
    ⟨R1, hR1, hc1 0 (by decide) 1 (by decide), hc1 1 (by decide) 1 (by decide)⟩⟩

theorem table_row (H W : Nat) (g : Nat → Nat → T) (i : Nat) (hi : i < H) :
    (table H W g)[i]? = some ((List.range W).map (g i)) := by
  simp [table, List.getElem?_map, List.getElem?_range hi]

/-- Claim C27. On an `h x w` matrix `M` with `h >= 1` and `w >= 1`: the last row of
`M.cumuSum(0)` is the list `M.sum(1)` of the column sums, and the last column of
`M.cumuSum(1)` is, entry by entry, the list `M.sum(0)` of the row sums. -/
theorem cumuSum_sum_consistent [AddCommMonoid T] (M : Matrix T) (h w : Nat)
    (hM : M.HasShape h w) (hh : 1 ≤ h) (hw : 1 ≤ w) :
    (∃ R l, M.cumuSum 0 = .ok R ∧ M.sum_axis 1 = .ok l ∧ l.length = w ∧
      R.getRow ((h : Int) - 1) = .ok l ∧ R.getRow (-1) = .ok l) ∧
    (∃ S l, M.cumuSum 1 = .ok S ∧ M.sum_axis 0 = .ok l ∧ l.length = h ∧
      ∀ i < h, ∃ x, l[i]? = some x ∧ S.get i ((w : Int) - 1) = .ok x) := by
  have hcast : ((h : Int) - 1) = ((h - 1 : Nat) : Int) := by omega
  have hcastw : ((w : Int) - 1) = ((w - 1 : Nat) : Int) := by omega
  have hidx : h - 1 + 1 = h := by omega
  have hidxw : w - 1 + 1 = w := by omega
  constructor
  · have hrow : vecAt (table h w fun i j => ∑ r in Finset.range (i + 1), elem M.array_ r j)
        (h - 1) = .ok ((List.range w).map fun j => ∑ i in Finset.range h, elem M.array_ i j) := by
      apply vecAt_eq_ok
      rw [table_row h w _ (h - 1) (by omega), hidx]
    refine ⟨_, _, cumuSum0_eq M h w hM, sum_axis1_eq M h w hM, by simp, ?_, ?_⟩
    · rw [hcast, getRow_natCast]
      exact hrow
    · have hneg : (-1 : Int) < 0 := by decide
      have hpos : (0 : Int) ≤ -1 + (h : Int) := by omega
      have htn : (-1 + (h : Int)).toNat = h - 1 := by omega
      simp only [Matrix.getRow, hneg, if_true, hpos, htn]
      exact hrow
  · refine ⟨_, _, cumuSum1_eq M h w hM, sum_axis0_eq M h w hM, by simp, ?_⟩
    intro i hi
    refine ⟨∑ j in Finset.range w, elem M.array_ i j, ?_, ?_⟩
    · simp [List.getElem?_range hi]
    · rw [hcastw, get_ofNat]
      simp only []
      rw [read2_table h w _ i (w - 1) hi (by omega), hidxw]

theorem cumuSum_sum_consistent_witness :
    ∃ R l, Matrix.cumuSum ({ array_ := [[1, 2], [3, 4]], height_ := 2, width_ := 2 } :
        Matrix Int) 0 = .ok R ∧
      Matrix.sum_axis ({ array_ := [[1, 2], [3, 4]], height_ := 2, width_ := 2 } : Matrix Int) 1
        = .ok l ∧ l.length = 2 ∧ R.getRow (-1) = .ok l := by
  obtain ⟨⟨R, l, h1, h2, h3, -, h5⟩, -⟩ := cumuSum_sum_consistent
    ({ array_ := [[1, 2], [3, 4]], height_ := 2, width_ := 2 } : Matrix Int) 2 2 (by decide)
    (by decide) (by decide)
  exact ⟨R, l, h1, h2, h3, h5⟩

/-! ## Scans for an extreme value

The scans for a maximum and for a minimum differ in the comparison only. `better c y`
is the test that replaces the current value `c` by `y`, and `le y m` says that `m` is at
least as extreme as `y`. -/

/-- The fold of `std::max_element` / `std::min_element` over a row: the result is an
element of the row and is extreme among its elements. -/
theorem foldl_best {α : Type} (better : α → α → Prop) [DecidableRel better]
    (le : α → α → Prop) (hrefl : ∀ x, le x x) (htrans : ∀ x y z, le x y → le y z → le x z)
    (hyes : ∀ c y, better c y → le c y) (hno : ∀ c y, ¬ better c y → le y c) :
    ∀ (rest : List α) (x : α),
      rest.foldl (fun c y => if better c y then y else c) x ∈ x :: rest ∧
      ∀ y ∈ x :: rest, le y (rest.foldl (fun c y => if better c y then y else c) x) := by
  intro rest
  induction rest with
  | nil =>
    intro x
    refine ⟨by simp, ?_⟩
    intro y hy
    simp only [List.mem_singleton] at hy
    subst hy
    exact hrefl y
  | cons z rest ih =>
    intro x
    simp only [List.foldl_cons]
    by_cases hb : better x z
    · rw [if_pos hb]
      obtain ⟨hmem, hle⟩ := ih z
      refine ⟨List.mem_cons_of_mem _ hmem, ?_⟩
      intro y hy
      rcases List.mem_cons.mp hy with h | h
      · subst h
        exact htrans _ _ _ (hyes _ _ hb) (hle z (List.mem_cons_self _ _))
      · exact hle y h
    · rw [if_neg hb]
      obtain ⟨hmem, hle⟩ := ih x
      refine ⟨?_, ?_⟩
      · rcases List.mem_cons.mp hmem with h | h
        · rw [h]; exact List.mem_cons_self _ _
        · exact List.mem_cons_of_mem _ (List.mem_cons_of_mem _ h)
      · intro y hy
        rcases List.mem_cons.mp hy with h | h
        · subst h; exact hle _ (List.mem_cons_self _ _)
        · rcases List.mem_cons.mp h with h2 | h2
          · subst h2
            exact htrans _ _ _ (hno _ _ hb) (hle x (List.mem_cons_self _ _))
          · exact hle y (List.mem_cons_of_mem _ h2)

/-- A loop that scans `f 0, ..., f (n-1)` starting from `c0`. -/
theorem scanLoop_spec (better : T → T → Prop) [DecidableRel better] (le : T → T → Prop)
    (hrefl : ∀ x, le x x) (htrans : ∀ x y z, le x y → le y z → le x z)
    (hyes : ∀ c y, better c y → le c y) (hno : ∀ c y, ¬ better c y → le y c)
    (f : Nat → T) (body : Nat → T → Except Error T) (n : Nat)
    (hbody : ∀ i < n, ∀ c, body i c = .ok (if better c (f i) then f i else c)) (c0 : T) :
    ∃ m, forLoop body n 0 c0 = .ok m ∧ (m = c0 ∨ ∃ i < n, m = f i) ∧ le c0 m ∧
      ∀ i < n, le (f i) m := by
  obtain ⟨m, hm, hP⟩ := forLoop_inv_off body
    (fun k c => (c = c0 ∨ ∃ i < k, c = f i) ∧ le c0 c ∧ ∀ i < k, le (f i) c)
    n 0 c0 ⟨Or.inl rfl, hrefl c0, fun i hi => absurd hi (Nat.not_lt_zero _)⟩ (by
      intro k c hk ⟨hmem, hc0, hall⟩
      refine ⟨_, by rw [Nat.zero_add]; exact hbody k hk c, ?_⟩
      by_cases hb : better c (f k)
      · rw [if_pos hb]
        refine ⟨Or.inr ⟨k, by omega, rfl⟩, htrans _ _ _ hc0 (hyes _ _ hb), ?_⟩
        intro i hi
        rcases Nat.lt_succ_iff_lt_or_eq.mp hi with h | h
        · exact htrans _ _ _ (hall i h) (hyes _ _ hb)
        · subst h; exact hrefl _
      · rw [if_neg hb]
        refine ⟨?_, hc0, ?_⟩
        · rcases hmem with h | ⟨i, hi, h⟩
          · exact Or.inl h
          · exact Or.inr ⟨i, by omega, h⟩
        · intro i hi
          rcases Nat.lt_succ_iff_lt_or_eq.mp hi with h | h
          · exact hall i h
          · subst h; exact hno _ _ hb)
  exact ⟨m, hm, hP.1, hP.2.1, hP.2.2⟩

/-- Two nested loops that scan all `e a b`, starting from `e 0 0`. -/
theorem scan2_spec (better : T → T → Prop) [DecidableRel better] (le : T → T → Prop)
    (hrefl : ∀ x, le x x) (htrans : ∀ x y z, le x y → le y z → le x z)
    (hyes : ∀ c y, better c y → le c y) (hno : ∀ c y, ¬ better c y → le y c)
    (e : Nat → Nat → T) (body : Nat → Nat → T → Except Error T) (H W : Nat)
    (hH : 0 < H) (hW : 0 < W)
    (hbody : ∀ a < H, ∀ b < W, ∀ c, body a b c = .ok (if better c (e a b) then e a b else c)) :
    ∃ m, forLoop (fun i c => forLoop (fun j c => body i j c) W 0 c) H 0 (e 0 0) = .ok m ∧
      (∃ i < H, ∃ j < W, m = e i j) ∧ ∀ i < H, ∀ j < W, le (e i j) m := by
  obtain ⟨m, hm, hmem, hall⟩ := nested_inv body
    (fun a b c => (∃ i < H, ∃ j < W, c = e i j) ∧
      ∀ a' b', (a' < a ∨ (a' = a ∧ b' < b)) → a' < H → b' < W → le (e a' b') c)
    H W (e 0 0) ⟨⟨0, hH, 0, hW, rfl⟩, fun a' b' h => by omega⟩
    (by
      intro a ha b hb c ⟨hmem, hall⟩
      refine ⟨_, hbody a ha b hb c, ?_⟩
      by_cases hbt : better c (e a b)
      · rw [if_pos hbt]
        refine ⟨⟨a, ha, b, hb, rfl⟩, ?_⟩
        intro a' b' hlt ha' hb'
        by_cases hcell : a' = a ∧ b' = b
        · rw [hcell.1, hcell.2]; exact hrefl _
        · exact htrans _ _ _ (hall a' b' (by omega) ha' hb') (hyes _ _ hbt)
      · rw [if_neg hbt]
        refine ⟨hmem, ?_⟩
        intro a' b' hlt ha' hb'
        by_cases hcell : a' = a ∧ b' = b
        · rw [hcell.1, hcell.2]; exact hno _ _ hbt
        · exact hall a' b' (by omega) ha' hb')
    (by
      intro a ha c ⟨hmem, hall⟩
      exact ⟨hmem, fun a' b' hlt ha' hb' => hall a' b' (by omega) ha' hb'⟩)
  exact ⟨m, hm, hmem, fun i hi j hj => hall i j (Or.inl hi) hi hj⟩

/-- A counted loop that appends one value per iteration. -/
theorem collectLoop_spec (obody : Nat → List T → Except Error (List T)) (Q : Nat → T → Prop)
    (n : Nat)
    (hob : ∀ j < n, ∀ acc, ∃ m, obody j acc = .ok (vecPushBack acc m) ∧ Q j m) :
    ∃ l, forLoop obody n 0 [] = .ok l ∧ l.length = n ∧ ∀ j < n, ∃ m, l[j]? = some m ∧ Q j m := by
  obtain ⟨l, hl, hlen, hQ⟩ := forLoop_inv_off obody
    (fun k l => l.length = k ∧ ∀ j < k, ∃ m, l[j]? = some m ∧ Q j m)
    n 0 [] ⟨rfl, fun j hj => absurd hj (Nat.not_lt_zero _)⟩ (by
      intro k l hk ⟨hlen, hQ⟩
      obtain ⟨m, hm, hQm⟩ := hob k hk l
      refine ⟨_, by rw [Nat.zero_add]; exact hm, by simp [vecPushBack, hlen], ?_⟩
      intro j hj
      rcases Nat.lt_succ_iff_lt_or_eq.mp hj with h | h
      · obtain ⟨m', hm', hQ'⟩ := hQ j h
        refine ⟨m', ?_, hQ'⟩
        rw [vecPushBack, List.getElem?_append_left (by omega)]
        exact hm'
      · subst h
        refine ⟨m, ?_, hQm⟩
        rw [vecPushBack, List.getElem?_append_right (by omega)]
        simp [hlen])
  exact ⟨l, hl, hlen, hQ⟩

/-- A range-based loop over the rows that appends one value per row. -/
theorem collectEach_spec (body : List T → List T → Except Error (List T))
    (Q : Nat → T → Prop) :
    ∀ (rows : List (List T)) (acc : List T) (k : Nat),
      (∀ i row, rows[i]? = some row → ∀ acc, ∃ m, body row acc = .ok (vecPushBack acc m) ∧
        Q (k + i) m) →
      ∃ l, forEach body rows acc = .ok (acc ++ l) ∧ l.length = rows.length ∧
        ∀ i < rows.length, ∃ m, l[i]? = some m ∧ Q (k + i) m := by
  intro rows
  induction rows with
  | nil =>
    intro acc k _
    exact ⟨[], by simp [forEach], rfl, fun i hi => absurd hi (Nat.not_lt_zero _)⟩
  | cons row rest ih =>
    intro acc k hb
    obtain ⟨m, hm, hQm⟩ := hb 0 row (by simp) acc
    obtain ⟨l, hl, hlen, hQ⟩ := ih (vecPushBack acc m) (k + 1) (by
      intro i r hr acc'
      have := hb (i + 1) r (by simpa using hr) acc'
      have e : k + (i + 1) = k + 1 + i := by omega
      rw [e] at this
      exact this)
    refine ⟨m :: l, ?_, by simp [hlen], ?_⟩
    · simp only [forEach, hm]
      rw [hl]
      simp [vecPushBack]
    · intro i hi
      cases i with
      | zero => exact ⟨m, by simp, hQm⟩
      | succ i =>
        obtain ⟨m', hm', hQ'⟩ := hQ i (by simpa using hi)
        have e : k + 1 + i = k + (i + 1) := by omega
        rw [e] at hQ'
        exact ⟨m', by simpa using hm', hQ'⟩

theorem elem_eq_getElem [Zero T] (arr : List (List T)) (i j : Nat) (row : List T)
    (hrow : arr[i]? = some row) (hj : j < row.length) : elem arr i j = row[j] := by
  simp [elem, List.getD_eq_getElem?_getD, hrow, List.getElem?_eq_getElem hj]

/-- The per-row scan of `max(0)` / `min(0)` on an `h x w` buffer with `w >= 1`. -/
theorem rowScan_spec [Zero T] (better : T → T → Prop) [DecidableRel better]
    (le : T → T → Prop) (hrefl : ∀ x, le x x) (htrans : ∀ x y z, le x y → le y z → le x z)
    (hyes : ∀ c y, better c y → le c y) (hno : ∀ c y, ¬ better c y → le y c)
    (arr : List (List T)) (h w : Nat) (ha : Rect arr h w) (hw : 1 ≤ w)
    (best : List T → Except Error T)
    (hbest : ∀ x rest, best (x :: rest)
      = .ok (rest.foldl (fun c y => if better c y then y else c) x)) :
    ∃ l, forEach (fun row acc => do
        let m ← best row
        pure (vecPushBack acc m)) arr [] = .ok l ∧ l.length = h ∧
      ∀ i < h, ∃ m, l[i]? = some m ∧ (∃ j < w, m = elem arr i j) ∧
        ∀ j < w, le (elem arr i j) m := by
  obtain ⟨l, hl, hlen, hQ⟩ := collectEach_spec (fun row acc => do
      let m ← best row
      pure (vecPushBack acc m))
    (fun i m => (∃ j < w, m = elem arr i j) ∧ ∀ j < w, le (elem arr i j) m) arr [] 0 (by
      intro i row hrow acc
      have hi : i < arr.length := by
        by_contra hc
        rw [List.getElem?_eq_none (by omega)] at hrow
        cases hrow
      have hmemrow : row ∈ arr := by
        rw [List.getElem?_eq_getElem hi] at hrow
        cases hrow
        exact List.getElem_mem hi
      have hlen : row.length = w := ha.2 row hmemrow
      cases row with
      | nil => simp at hlen; omega
      | cons x rest =>
        obtain ⟨hmem, hle⟩ := foldl_best better le hrefl htrans hyes hno rest x
        refine ⟨rest.foldl (fun c y => if better c y then y else c) x,
          by simp only [hbest, bind, Except.bind, pure, Except.pure], ?_, ?_⟩
        · obtain ⟨j, hj, hjm⟩ := List.getElem_of_mem hmem
          refine ⟨j, by omega, ?_⟩
          rw [Nat.zero_add, elem_eq_getElem arr i j _ hrow hj, hjm]
        · intro j hj
          have hj' : j < (x :: rest).length := by omega
          rw [Nat.zero_add, elem_eq_getElem arr i j _ hrow hj']
          exact hle _ (List.getElem_mem hj'))
  refine ⟨l, by simpa using hl, by rw [hlen, ha.1], ?_⟩
  intro i hi
  have := hQ i (by rw [ha.1]; exact hi)
  simpa using this

/-- The per-column scan of `max(1)` / `min(1)` on an `h x w` buffer with `h >= 1`. -/
theorem colScan_spec [Zero T] (better : T → T → Prop) [DecidableRel better]
    (le : T → T → Prop) (hrefl : ∀ x, le x x) (htrans : ∀ x y z, le x y → le y z → le x z)
    (hyes : ∀ c y, better c y → le c y) (hno : ∀ c y, ¬ better c y → le y c)
    (arr : List (List T)) (h w : Nat) (ha : Rect arr h w) (hh : 1 ≤ h)
    (ibody : Nat → Nat → T → Except Error T)
    (hib : ∀ j < w, ∀ i < h, ∀ c,
      ibody j i c = .ok (if better c (elem arr i j) then elem arr i j else c)) :
    ∃ l, forLoop (fun j acc => do
        let c ← read2 arr 0 j
        let c ← forLoop (ibody j) h 0 c
        pure (vecPushBack acc c)) w 0 [] = .ok l ∧ l.length = w ∧
      ∀ j < w, ∃ m, l[j]? = some m ∧ (∃ i < h, m = elem arr i j) ∧
        ∀ i < h, le (elem arr i j) m := by
  apply collectLoop_spec
  intro j hj acc
  obtain ⟨m, hm, hmem, -, hall⟩ := scanLoop_spec better le hrefl htrans hyes hno
    (fun i => elem arr i j) (ibody j) h (hib j hj) (elem arr 0 j)
  refine ⟨m, ?_, ?_, hall⟩
  · simp only [read2_elem arr h w 0 j ha (by omega) hj, hm, bind, Except.bind, pure,
      Except.pure]
  · rcases hmem with h0 | ⟨i, hi, h1⟩
    · exact ⟨0, by omega, h0⟩
    · exact ⟨i, hi, h1⟩

/-! ## Maxima and minima of an integer matrix -/

/-- The no-axis `max()` and `min()` on an `h x w` integer matrix with `h, w >= 1`. -/
theorem int_max_min (M : Matrix Int) (h w : Nat) (hM : M.HasShape h w) (hh : 1 ≤ h)
    (hw : 1 ≤ w) :
    (∃ m, M.max = .ok m ∧ (∃ i < h, ∃ j < w, m = elem M.array_ i j) ∧
      ∀ i < h, ∀ j < w, elem M.array_ i j ≤ m) ∧
    (∃ m, M.min = .ok m ∧ (∃ i < h, ∃ j < w, m = elem M.array_ i j) ∧
      ∀ i < h, ∀ j < w, m ≤ elem M.array_ i j) := by
  have hR : Rect M.array_ h w := ⟨hM.2.2.1, hM.2.2.2⟩
  obtain ⟨h1, h2, -, -⟩ := hM
  constructor
  · obtain ⟨m, hm, hmem, hall⟩ := scan2_spec (fun c a : Int => c < a) (fun y m => y ≤ m)
      (fun x => Int.le_refl x) (fun x y z => Int.le_trans) (fun c y hc => Int.le_of_lt hc)
      (fun c y hc => Int.not_lt.mp hc) (elem M.array_)
      (fun i j m => do
        let a ← read2 M.array_ i j
        if a > m then pure a else pure m) h w hh hw (by
        intro a ha b hb c
        simp only [read2_elem M.array_ h w a b hR ha hb, bind, Except.bind]
        by_cases hc : c < elem M.array_ a b
        · simp [hc, pure, Except.pure]
        · simp [hc, pure, Except.pure])
    refine ⟨m, ?_, hmem, hall⟩
    simp only [bind, Except.bind] at hm
    simp only [Matrix.max, h1, h2, Int.toNat_ofNat, read2_elem M.array_ h w 0 0 hR hh hw, bind,
      Except.bind]
    exact hm
  · obtain ⟨m, hm, hmem, hall⟩ := scan2_spec (fun c a : Int => a < c) (fun y m => m ≤ y)
      (fun x => Int.le_refl x) (fun x y z hxy hyz => Int.le_trans hyz hxy)
      (fun c y hc => Int.le_of_lt hc) (fun c y hc => Int.not_lt.mp hc) (elem M.array_)
      (fun i j m => do
        let a ← read2 M.array_ i j
        if a < m then pure a else pure m) h w hh hw (by
        intro a ha b hb c
        simp only [read2_elem M.array_ h w a b hR ha hb, bind, Except.bind]
        by_cases hc : elem M.array_ a b < c
        · simp [hc, pure, Except.pure]
        · simp [hc, pure, Except.pure])
    refine ⟨m, ?_, hmem, hall⟩
    simp only [bind, Except.bind] at hm
    simp only [Matrix.min, h1, h2, Int.toNat_ofNat, read2_elem M.array_ h w 0 0 hR hh hw, bind,
      Except.bind]
    exact hm

/-- The per-row `max(0)` and `min(0)` on an `h x w` integer matrix with `w >= 1`. -/
theorem int_max_min_axis0 (M : Matrix Int) (h w : Nat) (hM : M.HasShape h w) (hw : 1 ≤ w) :
    (∃ l, M.max_axis 0 = .ok l ∧ l.length = h ∧
      ∀ i < h, ∃ m, l[i]? = some m ∧ (∃ j < w, m = elem M.array_ i j) ∧
        ∀ j < w, elem M.array_ i j ≤ m) ∧
    (∃ l, M.min_axis 0 = .ok l ∧ l.length = h ∧
      ∀ i < h, ∃ m, l[i]? = some m ∧ (∃ j < w, m = elem M.array_ i j) ∧
        ∀ j < w, m ≤ elem M.array_ i j) := by
  have hR : Rect M.array_ h w := ⟨hM.2.2.1, hM.2.2.2⟩
  constructor
  · obtain ⟨l, hl, hlen, hQ⟩ := rowScan_spec (fun c a : Int => c < a) (fun y m => y ≤ m)
      (fun x => Int.le_refl x) (fun x y z => Int.le_trans) (fun c y hc => Int.le_of_lt hc)
      (fun c y hc => Int.not_lt.mp hc) M.array_ h w hR hw maxElement (fun x rest => rfl)
    refine ⟨l, ?_, hlen, hQ⟩
    simp only [Matrix.max_axis, if_true]
    exact hl
  · obtain ⟨l, hl, hlen, hQ⟩ := rowScan_spec (fun c a : Int => a < c) (fun y m => m ≤ y)
      (fun x => Int.le_refl x) (fun x y z hxy hyz => Int.le_trans hyz hxy)
      (fun c y hc => Int.le_of_lt hc) (fun c y hc => Int.not_lt.mp hc) M.array_ h w hR hw
      minElement (fun x rest => rfl)
    refine ⟨l, ?_, hlen, hQ⟩
    simp only [Matrix.min_axis, if_true]
    exact hl

/-- The per-column `max(1)` and `min(1)` on an `h x w` integer matrix with `h >= 1`. -/
theorem int_max_min_axis1 (M : Matrix Int) (h w : Nat) (hM : M.HasShape h w) (hh : 1 ≤ h) :
    (∃ l, M.max_axis 1 = .ok l ∧ l.length = w ∧
      ∀ j < w, ∃ m, l[j]? = some m ∧ (∃ i < h, m = elem M.array_ i j) ∧
        ∀ i < h, elem M.array_ i j ≤ m) ∧
    (∃ l, M.min_axis 1 = .ok l ∧ l.length = w ∧
      ∀ j < w, ∃ m, l[j]? = some m ∧ (∃ i < h, m = elem M.array_ i j) ∧
        ∀ i < h, m ≤ elem M.array_ i j) := by
  have hR : Rect M.array_ h w := ⟨hM.2.2.1, hM.2.2.2⟩
  obtain ⟨h1, h2, -, -⟩ := hM
  constructor
  · obtain ⟨l, hl, hlen, hQ⟩ := colScan_spec (fun c a : Int => c < a) (fun y m => y ≤ m)
      (fun x => Int.le_refl x) (fun x y z => Int.le_trans) (fun c y hc => Int.le_of_lt hc)
      (fun c y hc => Int.not_lt.mp hc) M.array_ h w hR hh
      (fun j i colMax => do
        let a ← read2 M.array_ i j
        if colMax < a then pure a else pure colMax) (by
        intro j hj i hi c
        simp only [read2_elem M.array_ h w i j hR hi hj, bind, Except.bind]
        by_cases hc : c < elem M.array_ i j
        · simp [hc, pure, Except.pure]
        · simp [hc, pure, Except.pure])
    refine ⟨l, ?_, hlen, hQ⟩
    simp only [Matrix.max_axis, one_ne_zero, if_false, if_true, h1, h2, Int.toNat_ofNat]
    exact hl
  · obtain ⟨l, hl, hlen, hQ⟩ := colScan_spec (fun c a : Int => a < c) (fun y m => m ≤ y)
      (fun x => Int.le_refl x) (fun x y z hxy hyz => Int.le_trans hyz hxy)
      (fun c y hc => Int.le_of_lt hc) (fun c y hc => Int.not_lt.mp hc) M.array_ h w hR hh
      (fun j i colMin => do
        let a ← read2 M.array_ i j
        if a < colMin then pure a else pure colMin) (by
        intro j hj i hi c
        simp only [read2_elem M.array_ h w i j hR hi hj, bind, Except.bind]
        by_cases hc : elem M.array_ i j < c
        · simp [hc, pure, Except.pure]
        · simp [hc, pure, Except.pure])
    refine ⟨l, ?_, hlen, hQ⟩
    simp only [Matrix.min_axis, one_ne_zero, if_false, if_true, h1, h2, Int.toNat_ofNat]
    exact hl

/-- Claim C21. On an `h x w` integer matrix `M` with `h >= 1` and `w >= 1` whose element
`(i, j)` is `e i j`: `max()` returns an element of `M` that is `>=` every element and
`min()` an element that is `<=` every element; `max(0)` and `min(0)` return lists of
length `h` whose entry `i` is the greatest/least element of row `i`; `max(1)` and `min(1)`
return lists of length `w` whose entry `j` is the greatest/least element of column `j`.
All six calls return a value, so none of them reads outside the buffer. -/
theorem max_min_spec (M : Matrix Int) (h w : Nat) (hM : M.HasShape h w) (hh : 1 ≤ h)
    (hw : 1 ≤ w) (e : Nat → Nat → Int) (he : ∀ i < h, ∀ j < w, M.get i j = .ok (e i j)) :
    (∃ m, M.max = .ok m ∧ (∃ i < h, ∃ j < w, m = e i j) ∧ ∀ i < h, ∀ j < w, e i j ≤ m) ∧
    (∃ m, M.min = .ok m ∧ (∃ i < h, ∃ j < w, m = e i j) ∧ ∀ i < h, ∀ j < w, m ≤ e i j) ∧
    (∃ l, M.max_axis 0 = .ok l ∧ l.length = h ∧
      ∀ i < h, ∃ m, l[i]? = some m ∧ (∃ j < w, m = e i j) ∧ ∀ j < w, e i j ≤ m) ∧
    (∃ l, M.min_axis 0 = .ok l ∧ l.length = h ∧
      ∀ i < h, ∃ m, l[i]? = some m ∧ (∃ j < w, m = e i j) ∧ ∀ j < w, m ≤ e i j) ∧
    (∃ l, M.max_axis 1 = .ok l ∧ l.length = w ∧
      ∀ j < w, ∃ m, l[j]? = some m ∧ (∃ i < h, m = e i j) ∧ ∀ i < h, e i j ≤ m) ∧
    (∃ l, M.min_axis 1 = .ok l ∧ l.length = w ∧
      ∀ j < w, ∃ m, l[j]? = some m ∧ (∃ i < h, m = e i j) ∧ ∀ i < h, m ≤ e i j) := by
  have hel := elem_of_get M h w hM e he
  obtain ⟨⟨a, ha, ⟨ia, hia, ja, hja, haeq⟩, haall⟩, ⟨b, hb, ⟨ib, hib, jb, hjb, hbeq⟩, hball⟩⟩ :=
    int_max_min M h w hM hh hw
  obtain ⟨⟨l0, hl0, hlen0, hQ0⟩, ⟨k0, hk0, hklen0, hK0⟩⟩ := int_max_min_axis0 M h w hM hw
  obtain ⟨⟨l1, hl1, hlen1, hQ1⟩, ⟨k1, hk1, hklen1, hK1⟩⟩ := int_max_min_axis1 M h w hM hh
  refine ⟨⟨a, ha, ⟨ia, hia, ja, hja, ?_⟩, ?_⟩, ⟨b, hb, ⟨ib, hib, jb, hjb, ?_⟩, ?_⟩,
    ⟨l0, hl0, hlen0, ?_⟩, ⟨k0, hk0, hklen0, ?_⟩, ⟨l1, hl1, hlen1, ?_⟩, ⟨k1, hk1, hklen1, ?_⟩⟩
  · rw [haeq, hel ia hia ja hja]
  · intro i hi j hj
    rw [← hel i hi j hj]
    exact haall i hi j hj
  · rw [hbeq, hel ib hib jb hjb]
  · intro i hi j hj
    rw [← hel i hi j hj]
    exact hball i hi j hj
  · intro i hi
    obtain ⟨m, hm, ⟨j, hj, hmj⟩, hall⟩ := hQ0 i hi
    refine ⟨m, hm, ⟨j, hj, ?_⟩, ?_⟩
    · rw [hmj, hel i hi j hj]
    · intro j' hj'
      rw [← hel i hi j' hj']
      exact hall j' hj'
  · intro i hi
    obtain ⟨m, hm, ⟨j, hj, hmj⟩, hall⟩ := hK0 i hi
    refine ⟨m, hm, ⟨j, hj, ?_⟩, ?_⟩
    · rw [hmj, hel i hi j hj]
    · intro j' hj'
      rw [← hel i hi j' hj']
      exact hall j' hj'
  · intro j hj
    obtain ⟨m, hm, ⟨i, hi, hmi⟩, hall⟩ := hQ1 j hj
    refine ⟨m, hm, ⟨i, hi, ?_⟩, ?_⟩
    · rw [hmi, hel i hi j hj]
    · intro i' hi'
      rw [← hel i' hi' j hj]
      exact hall i' hi'
  · intro j hj
    obtain ⟨m, hm, ⟨i, hi, hmi⟩, hall⟩ := hK1 j hj
    refine ⟨m, hm, ⟨i, hi, ?_⟩, ?_⟩
    · rw [hmi, hel i hi j hj]
    · intro i' hi'
      rw [← hel i' hi' j hj]
      exact hall i' hi'

theorem max_min_spec_witness :
    Matrix.max ({ array_ := [[1, 2], [3, 4]], height_ := 2, width_ := 2 } : Matrix Int)
      = .ok 4 ∧
    Matrix.min ({ array_ := [[1, 2], [3, 4]], height_ := 2, width_ := 2 } : Matrix Int)
      = .ok 1 ∧
    (∃ l, Matrix.max_axis ({ array_ := [[1, 2], [3, 4]], height_ := 2, width_ := 2 } :
        Matrix Int) 0 = .ok l ∧ l.length = 2) ∧
    (∃ l, Matrix.min_axis ({ array_ := [[1, 2], [3, 4]], height_ := 2, width_ := 2 } :
        Matrix Int) 1 = .ok l ∧ l.length = 2) := by
  obtain ⟨-, -, ⟨l0, hl0, hlen0, -⟩, -, -, ⟨k1, hk1, hklen1, -⟩⟩ := max_min_spec
    ({ array_ := [[1, 2], [3, 4]], height_ := 2, width_ := 2 } : Matrix Int) 2 2 (by decide)
    (by decide) (by decide) (fun i j => elem [[1, 2], [3, 4]] i j)
    (fun i hi j hj => get_elem _ 2 2 i j (by decide) hi hj)
  exact ⟨rfl, rfl, ⟨l0, hl0, hlen0⟩, ⟨k1, hk1, hklen1⟩⟩

/-! ## Serialization round trip -/

/-- An integer below `2^53` in absolute value converts to a double exactly. -/
theorem castToDouble_exact (x : Int) (hx : x.natAbs < 2 ^ 53) : castToDouble x = (x : ℚ) := by
  unfold castToDouble
  dsimp only
  rw [if_pos hx]

/-- A double holding a 32-bit integer converts back to that integer. -/
theorem castToInt_intCast (x : Int) (hx : -(2 : Int) ^ 31 ≤ x ∧ x < (2 : Int) ^ 31) :
    castToInt (x : ℚ) = .ok x := by
  simp only [castToInt, Rat.intCast_num, Rat.intCast_den, Nat.cast_one, Int.tdiv_one]
  rw [if_pos hx]

/-- The position `a * w + b` of a row-major list names the cell `(a, b)`. -/
theorem rowMajor_div_mod (a b w : Nat) (hb : b < w) :
    (a * w + b) / w = a ∧ (a * w + b) % w = b := by
  have hw : 0 < w := by omega
  constructor
  · rw [Nat.add_comm, Nat.add_mul_div_right _ _ hw, Nat.div_eq_of_lt hb, Nat.zero_add]
  · rw [Nat.add_comm, Nat.add_mul_mod_self_right, Nat.mod_eq_of_lt hb]

theorem rowMajor_lt (i j h w : Nat) (hi : i < h) (hj : j < w) : i * w + j < h * w := by
  have : (i + 1) * w ≤ h * w := Nat.mul_le_mul_right w hi
  rw [Nat.succ_mul] at this
  omega

/-- The record written by `MatrixToProto` into a fresh record: the dimensions and the
elements in row-major order. -/
theorem matrixToProto_eq (M : Matrix Int) (h w : Nat) (hM : M.HasShape h w)
    (h53 : ∀ i < h, ∀ j < w, (elem M.array_ i j).natAbs < 2 ^ 53) :
    MatrixToProto M { height := 0, width := 0, data := [] } = .ok
      { height := h
        width := w
        data := (List.range (h * w)).map fun k => ((elem M.array_ (k / w) (k % w) : Int) : ℚ) } := by
  obtain ⟨pm, hpm, hP⟩ := nested_inv
    (fun i j (protoMat : protoMatrix) => do
      let a ← M.get i j
      pure { protoMat with data := protoMat.data ++ [castToDouble a] })
    (fun a b (pm : protoMatrix) => pm =
      { height := h
        width := w
        data := (List.range (a * w + b)).map fun k =>
          ((elem M.array_ (k / w) (k % w) : Int) : ℚ) })
    h w { height := h, width := w, data := [] } (by simp) (by
      intro a ha b hb s hs
      refine ⟨{ s with data := s.data ++ [castToDouble (elem M.array_ a b)] }, ?_, ?_⟩
      · dsimp only
        rw [get_elem M h w a b hM ha hb]
        rfl
      subst hs
      obtain ⟨hd, hm⟩ := rowMajor_div_mod a b w hb
      simp only [← Nat.add_assoc, List.range_succ, List.map_append, List.map_cons, List.map_nil,
        hd, hm, castToDouble_exact _ (h53 a ha b hb)]) (by
      intro a ha s hs
      subst hs
      simp only [Nat.succ_mul, Nat.add_zero])
  obtain ⟨h1, h2, -, -⟩ := hM
  simp only [Nat.add_zero] at hP
  subst hP
  simp only [MatrixToProto, Matrix.getHeight, Matrix.getWidth, h1, h2, Int.toNat_ofNat]
  exact hpm

/-- The matrix rebuilt by `ProtoToMatrix` from a record of height `h`, width `w` whose
data at position `i * w + j` is the 32-bit integer `e i j`. -/
theorem protoToMatrix_eq (h w : Nat) (D : List ℚ) (e : Nat → Nat → Int)
    (hD : ∀ i < h, ∀ j < w, D[i * w + j]? = some ((e i j : Int) : ℚ))
    (h32 : ∀ i < h, ∀ j < w, -(2 : Int) ^ 31 ≤ e i j ∧ e i j < (2 : Int) ^ 31) :
    ProtoToMatrix { height := h, width := w, data := D } = .ok
      { array_ := table h w e
        height_ := h
        width_ := w } := by
  obtain ⟨st, hst, hidx, hshape, hcells⟩ := nested_inv
    (fun i j (st : Matrix Int × Nat) => do
      let d ← vecAt D st.2
      let x ← castToInt d
      match st.1.put i j x with
      | .error (e, _) => .error e
      | .ok matrix => pure (matrix, st.2 + 1))
    (fun a b (st : Matrix Int × Nat) => st.2 = a * w + b ∧ st.1.HasShape h w ∧
      ∀ i < h, ∀ j < w, (i < a ∨ (i = a ∧ j < b)) → read2 st.1.array_ i j = .ok (e i j))
    h w (({ array_ := List.replicate h (List.replicate w 0)
            height_ := h
            width_ := w } : Matrix Int), 0)
    ⟨by simp, ⟨rfl, rfl, (rect_replicate h w (0 : Int)).1, (rect_replicate h w (0 : Int)).2⟩,
      by intro i _ j _ hij; omega⟩ (by
      rintro a ha b hb ⟨m, idx⟩ ⟨hidx, hshape, hcells⟩
      simp only at hidx hshape hcells
      subst hidx
      obtain ⟨arr, hput, hR, hself, hother⟩ := put_eq m h w a b (e a b) hshape ha hb
      refine ⟨(({ array_ := arr, height_ := h, width_ := w } : Matrix Int), a * w + b + 1), ?_,
        by simp only [Nat.add_assoc], ⟨rfl, rfl, hR.1, hR.2⟩, ?_⟩
      · simp only [vecAt_eq_ok D _ _ (hD a ha b hb), castToInt_intCast _ (h32 a ha b hb), hput,
          bind, Except.bind, pure, Except.pure]
      · intro i hi j hj hij
        by_cases hab : i = a ∧ j = b
        · obtain ⟨rfl, rfl⟩ := hab
          exact hself
        · rw [hother i j (by omega)]
          exact hcells i hi j hj (by omega)) (by
      rintro a ha ⟨m, idx⟩ ⟨hidx, hshape, hcells⟩
      simp only at hidx hshape hcells
      refine ⟨by simp only [hidx, Nat.succ_mul, Nat.add_zero], hshape, ?_⟩
      intro i hi j hj hij
      exact hcells i hi j hj (by omega))
  have harr : st.1.array_ = table h w e :=
    eq_table st.1.array_ h w e hshape.rect fun i hi j hj => hcells i hi j hj (by omega)
  have hres : st.1 = ({ array_ := table h w e, height_ := h, width_ := w } : Matrix Int) := by
    rw [← harr]
    exact hshape.eta.symm
  have hw0 : ¬ ((w : Int) < 0) := by omega
  have hh0 : ¬ ((h : Int) < 0) := by omega
  simp only [ProtoToMatrix, Matrix.sized, if_neg hw0, if_neg hh0, Int.toNat_ofNat, bind,
    Except.bind, pure, Except.pure] at hst ⊢
  rw [hst]
  show Except.ok st.1 = _
  rw [hres]

/-- Claim C24. On an `h x w` matrix `M` of 32-bit integers whose element `(i, j)` is
`e i j`, `MatrixToProto` writes into a fresh record the height `h`, the width `w` and a
data list of exactly `h * w` doubles with `data[i * w + j]` holding `e i j`; and
`ProtoToMatrix` on that record returns a matrix, without a bounds error from `put` or
from reading `data`, that is `M` itself: same height, width and buffer, so `==` is true. -/
theorem proto_round_trip (M : Matrix Int) (h w : Nat) (hM : M.HasShape h w)
    (e : Nat → Nat → Int) (he : ∀ i < h, ∀ j < w, M.get i j = .ok (e i j))
    (h32 : ∀ i < h, ∀ j < w, -(2 : Int) ^ 31 ≤ e i j ∧ e i j < (2 : Int) ^ 31) :
    ∃ p R, MatrixToProto M { height := 0, width := 0, data := [] } = .ok p ∧
      p.height = h ∧ p.width = w ∧ p.data.length = h * w ∧
      (∀ i < h, ∀ j < w, p.data[i * w + j]? = some ((e i j : Int) : ℚ)) ∧
      ProtoToMatrix p = .ok R ∧ R = M ∧ R.operator_eq M = .ok true := by
  have hel := elem_of_get M h w hM e he
  have h53 : ∀ i < h, ∀ j < w, (elem M.array_ i j).natAbs < 2 ^ 53 := by
    intro i hi j hj
    rw [hel i hi j hj]
    have := h32 i hi j hj
    norm_num at this ⊢
    omega
  have hD : ∀ i < h, ∀ j < w,
      ((List.range (h * w)).map fun k => ((elem M.array_ (k / w) (k % w) : Int) : ℚ))[i * w + j]?
        = some ((e i j : Int) : ℚ) := by
    intro i hi j hj
    obtain ⟨hd, hm⟩ := rowMajor_div_mod i j w hj
    rw [List.getElem?_map, List.getElem?_range (rowMajor_lt i j h w hi hj)]
    simp only [Option.map_some', hd, hm, hel i hi j hj]
  have hMt : ({ array_ := table h w e, height_ := h, width_ := w } : Matrix Int) = M := by
    rw [← eq_table M.array_ h w e hM.rect fun i hi j hj => by
      rw [← get_ofNat]; exact he i hi j hj]
    exact hM.eta
  refine ⟨_, M, matrixToProto_eq M h w hM h53, rfl, rfl, by simp, hD, ?_, rfl,
    operator_eq_self M h w hM⟩
  rw [protoToMatrix_eq h w _ e hD h32, hMt]

theorem proto_round_trip_witness :
    ∃ p R, MatrixToProto ({ array_ := [[1, 2], [3, 4]], height_ := 2, width_ := 2 } : Matrix Int)
        { height := 0, width := 0, data := [] } = .ok p ∧
      p.height = 2 ∧ p.width = 2 ∧ p.data.length = 4 ∧ p.data[1 * 2 + 0]? = some 3 ∧
      ProtoToMatrix p = .ok R ∧
      R = ({ array_ := [[1, 2], [3, 4]], height_ := 2, width_ := 2 } : Matrix Int) := by
  obtain ⟨p, R, hp, h1, h2, h3, h4, h5, h6, -⟩ := proto_round_trip
    ({ array_ := [[1, 2], [3, 4]], height_ := 2, width_ := 2 } : Matrix Int) 2 2 (by decide)
    (fun i j => elem [[1, 2], [3, 4]] i j)
    (fun i hi j hj => get_elem _ 2 2 i j (by decide) hi hj)
    (fun i hi j hj => by
      interval_cases i <;> interval_cases j <;> simp [elem])
  exact ⟨p, R, hp, h1, h2, h3, h4 1 (by decide) 0 (by decide), h5, h6⟩

/-! ## Text rendering -/

/-- The padding loop of `print` appends `n` spaces. -/
theorem padLoop_eq (n i : Nat) (f : List Char) :
    forLoop (fun _ flux => (.ok (flux ++ [' ']) : Except Error (List Char))) n i f
      = .ok (f ++ List.replicate n ' ') := by
  induction n generalizing i f with
  | zero => simp [forLoop]
  | succ n ih =>
    show forLoop _ n (i + 1) (f ++ [' ']) = _
    rw [ih, List.replicate_succ, List.append_assoc]
    rfl

theorem printColumnWidth_succ (e : Nat → Nat → Int) (h j : Nat) :
    printColumnWidth e (h + 1) j
      = max (printColumnWidth e h j) (StreamOut.text (e h j)).length := by
  simp only [printColumnWidth, List.range_succ, List.map_append, List.foldl_append,
    List.map_cons, List.map_nil, List.foldl_cons, List.foldl_nil]

/-- The column width is at least the length of every text of the column. -/
theorem le_printColumnWidth (e : Nat → Nat → Int) (h j i : Nat) (hi : i < h) :
    (StreamOut.text (e i j)).length ≤ printColumnWidth e h j := by
  induction h with
  | zero => omega
  | succ h ih =>
    rw [printColumnWidth_succ]
    by_cases hih : i < h
    · exact Nat.le_trans (ih hih) (Nat.le_max_left _ _)
    · have : i = h := by omega
      subst this
      exact Nat.le_max_right _ _

/-- The column width is the length of some text of the column. -/
theorem printColumnWidth_attained (e : Nat → Nat → Int) (h j : Nat) (hh : 1 ≤ h) :
    ∃ i < h, printColumnWidth e h j = (StreamOut.text (e i j)).length := by
  induction h with
  | zero => omega
  | succ h ih =>
    rw [printColumnWidth_succ]
    by_cases hle : printColumnWidth e h j ≤ (StreamOut.text (e h j)).length
    · exact ⟨h, by omega, Nat.max_eq_right hle⟩
    · have hlt : (StreamOut.text (e h j)).length ≤ printColumnWidth e h j := by omega
      have hpos : 1 ≤ h := by
        rcases Nat.eq_zero_or_pos h with h0 | h0
        · subst h0
          simp [printColumnWidth] at hle
        · exact h0
      obtain ⟨i, hi, hi2⟩ := ih hpos
      exact ⟨i, by omega, by rw [Nat.max_eq_left hlt, hi2]⟩

theorem printCells_succ (e : Nat → Nat → Int) (h i b : Nat) :
    printCells e h i (b + 1) = printCells e h i b ++ (StreamOut.text (e i b) ++
      List.replicate (printColumnWidth e h b - (StreamOut.text (e i b)).length + 1) ' ') := by
  simp [printCells, List.range_succ]

theorem printLines_succ (e : Nat → Nat → Int) (h w a : Nat) :
    printLines e h w (a + 1) = printLines e h w a ++ (printCells e h a w ++ ['\n']) := by
  simp [printLines, List.range_succ]

/-- The first pass of `print` leaves in `maxLength` the width of every column. -/
theorem printWidths_spec (arr : List (List Int)) (h w : Nat) (e : Nat → Nat → Int)
    (hread : ∀ i < h, ∀ j < w, read2 arr i j = .ok (e i j)) :
    ∃ st, forLoop (fun i st =>
      forLoop (fun j (st : List Int × List Char) => do
        let a ← read2 arr i j
        let ss := st.2 ++ StreamOut.text a
        let l ← vecAt st.1 j
        pure (st.1.set j (Max.max l (ss.length : Int)), []))
        w 0 st) h 0 (List.replicate w 0, []) = .ok st ∧
      st.2 = [] ∧ st.1.length = w ∧
      ∀ j < w, st.1[j]? = some ((printColumnWidth e h j : Nat) : Int) := by
  obtain ⟨st, hst, hss, hlen, hcells⟩ := nested_inv
    (fun i j (st : List Int × List Char) => do
      let a ← read2 arr i j
      let ss := st.2 ++ StreamOut.text a
      let l ← vecAt st.1 j
      pure (st.1.set j (Max.max l (ss.length : Int)), []))
    (fun a b (st : List Int × List Char) => st.2 = [] ∧ st.1.length = w ∧
      ∀ j < w, st.1[j]? = some ((printColumnWidth e (if j < b then a + 1 else a) j : Nat) : Int))
    h w (List.replicate w 0, [])
    ⟨rfl, by simp, by
      intro j hj
      simp [List.getElem?_replicate, hj, printColumnWidth]⟩ (by
      rintro a ha b hb ⟨ml, ss⟩ ⟨hss, hlen, hcells⟩
      simp only at hss hlen hcells
      subst hss
      have hb0 := hcells b hb
      rw [if_neg (Nat.lt_irrefl b)] at hb0
      refine ⟨(ml.set b (Max.max ((printColumnWidth e a b : Nat) : Int)
        ((StreamOut.text (e a b)).length : Int)), []), ?_, rfl, by simp [hlen], ?_⟩
      · simp only [hread a ha b hb, vecAt_eq_ok ml b _ hb0, List.nil_append, bind, Except.bind,
          pure, Except.pure]
      · intro j hj
        by_cases hjb : j = b
        · subst hjb
          rw [List.getElem?_set_self (by omega), if_pos (Nat.lt_succ_self j),
            printColumnWidth_succ, Nat.cast_max]
        · rw [List.getElem?_set_ne (fun hbj => hjb hbj.symm), hcells j hj]
          by_cases hlt : j < b
          · rw [if_pos hlt, if_pos (by omega)]
          · rw [if_neg hlt, if_neg (by omega)]) (by
      rintro a ha ⟨ml, ss⟩ ⟨hss, hlen, hcells⟩
      refine ⟨hss, hlen, ?_⟩
      intro j hj
      have := hcells j hj
      rw [if_pos hj] at this
      rw [if_neg (Nat.not_lt_zero j)]
      exact this)
  refine ⟨st, hst, hss, hlen, ?_⟩
  intro j hj
  have := hcells j hj
  rw [if_neg (Nat.not_lt_zero j)] at this
  exact this

/-- The second pass of `print` appends the `h` lines to the stream. -/
theorem printBody_spec (arr : List (List Int)) (h w : Nat) (e : Nat → Nat → Int)
    (hread : ∀ i < h, ∀ j < w, read2 arr i j = .ok (e i j)) (ml : List Int)
    (hml : ∀ j < w, ml[j]? = some ((printColumnWidth e h j : Nat) : Int))
    (flux : List Char) :
    forLoop (fun i (st : List Char × List Char) => do
      let st ← forLoop (fun j (st : List Char × List Char) => do
        let a ← read2 arr i j
        let ss := st.2 ++ StreamOut.text a
        let flux := st.1 ++ StreamOut.text a
        let l ← vecAt ml j
        let flux ← forLoop (fun _ flux => pure (flux ++ [' ']))
          (l - (ss.length : Int) + 1).toNat 0 flux
        pure (flux, [])) w 0 st
      pure (st.1 ++ ['\n'], st.2)) h 0 (flux, [])
      = .ok (flux ++ printLines e h w h, []) := by
  obtain ⟨st, hst, hP⟩ := forLoop_inv_off
    (fun i (st : List Char × List Char) => do
      let st ← forLoop (fun j (st : List Char × List Char) => do
        let a ← read2 arr i j
        let ss := st.2 ++ StreamOut.text a
        let flux := st.1 ++ StreamOut.text a
        let l ← vecAt ml j
        let flux ← forLoop (fun _ flux => pure (flux ++ [' ']))
          (l - (ss.length : Int) + 1).toNat 0 flux
        pure (flux, [])) w 0 st
      pure (st.1 ++ ['\n'], st.2))
    (fun a st => st = (flux ++ printLines e h w a, [])) h 0 (flux, [])
    (by simp [printLines]) (by
      intro a s ha hs
      subst hs
      obtain ⟨s', hs', hP'⟩ := forLoop_inv_off
        (fun j (st : List Char × List Char) => do
          let a ← read2 arr (0 + a) j
          let ss := st.2 ++ StreamOut.text a
          let flux := st.1 ++ StreamOut.text a
          let l ← vecAt ml j
          let flux ← forLoop (fun _ flux => pure (flux ++ [' ']))
            (l - (ss.length : Int) + 1).toNat 0 flux
          pure (flux, []))
        (fun b st => st = (flux ++ printLines e h w a ++ printCells e h a b, []))
        w 0 (flux ++ printLines e h w a, []) (by simp [printCells]) (by
          intro b s hb hs
          subst hs
          have hle := le_printColumnWidth e h b a ha
          have hn : (((printColumnWidth e h b : Nat) : Int) -
              (((StreamOut.text (e a b)).length : Nat) : Int) + 1).toNat
              = printColumnWidth e h b - (StreamOut.text (e a b)).length + 1 := by omega
          refine ⟨_, ?_, rfl⟩
          simp only [Nat.zero_add, hread a ha b hb, vecAt_eq_ok ml b _ (hml b hb),
            List.nil_append, hn, printCells_succ, List.append_assoc, bind,
            Except.bind, pure, Except.pure]
          rw [padLoop_eq]
          simp only [List.append_assoc])
      subst hP'
      refine ⟨_, ?_, rfl⟩
      simp only [bind, Except.bind, pure, Except.pure] at hs'
      simp only [hs', printLines_succ, List.append_assoc, bind, Except.bind, pure, Except.pure])
  subst hP
  exact hst

/-- The method `print` on an `h x w` integer matrix appends the `h` lines of the
specification to the stream. -/
theorem print_eq (M : Matrix Int) (h w : Nat) (hM : M.HasShape h w) (e : Nat → Nat → Int)
    (hread : ∀ i < h, ∀ j < w, read2 M.array_ i j = .ok (e i j)) (flux : List Char) :
    M.print flux = .ok (flux ++ printLines e h w h) := by
  obtain ⟨st, hst, hss, -, hcells⟩ := printWidths_spec M.array_ h w e hread
  have h2nd := printBody_spec M.array_ h w e hread st.1 hcells flux
  obtain ⟨h1, h2, -, -⟩ := hM
  have hw0 : ¬ (M.width_ < 0) := by rw [h2]; omega
  unfold Matrix.print
  rw [if_neg hw0]
  simp only [h1, h2, Int.toNat_ofNat, bind, Except.bind, pure, Except.pure] at hst h2nd ⊢
  rw [hst]
  dsimp only
  rw [hss, h2nd]

theorem digitChar_ne_newline (m : Nat) (hm : m < 10) : Nat.digitChar m ≠ '\n' := by
  interval_cases m <;> decide

theorem toDigitsCore_no_newline (f n : Nat) (ds : List Char) (hds : '\n' ∉ ds) :
    '\n' ∉ Nat.toDigitsCore 10 f n ds := by
  induction f generalizing n ds with
  | zero => simpa [Nat.toDigitsCore] using hds
  | succ f ih =>
    have hd : '\n' ∉ Nat.digitChar (n % 10) :: ds := by
      intro hmem
      rcases List.mem_cons.mp hmem with h1 | h1
      · exact digitChar_ne_newline (n % 10) (Nat.mod_lt _ (by decide)) h1.symm
      · exact hds h1
    unfold Nat.toDigitsCore
    dsimp only
    split
    · exact hd
    · exact ih _ _ hd

/-- The decimal text of an integer holds no newline. -/
theorem int_text_no_newline (x : Int) : '\n' ∉ (StreamOut.text x : List Char) := by
  cases x with
  | ofNat m =>
    show '\n' ∉ Nat.toDigitsCore 10 (m + 1) m []
    exact toDigitsCore_no_newline _ _ _ (by simp)
  | negSucc m =>
    show '\n' ∉ '-' :: Nat.toDigitsCore 10 (m + 1 + 1) (m + 1) []
    intro hmem
    rcases List.mem_cons.mp hmem with h1 | h1
    · exact absurd h1 (by decide)
    · exact toDigitsCore_no_newline _ _ _ (by simp) h1

theorem printCells_no_newline (e : Nat → Nat → Int) (h i b : Nat) :
    '\n' ∉ printCells e h i b := by
  induction b with
  | zero => simp [printCells]
  | succ b ih =>
    rw [printCells_succ]
    intro hmem
    rcases List.mem_append.mp hmem with h1 | h1
    · exact ih h1
    · rcases List.mem_append.mp h1 with h2 | h2
      · exact int_text_no_newline _ h2
      · exact absurd (List.eq_of_mem_replicate h2) (by decide)

theorem printLines_count (e : Nat → Nat → Int) (h w a : Nat) :
    (printLines e h w a).count '\n' = a := by
  induction a with
  | zero => simp [printLines]
  | succ a ih =>
    rw [printLines_succ, List.count_append, List.count_append, ih,
      List.count_eq_zero_of_not_mem (printCells_no_newline e h a w)]
    simp

theorem printCells_length (e : Nat → Nat → Int) (h i b : Nat) (hi : i < h) :
    (printCells e h i b).length = ∑ j in Finset.range b, (printColumnWidth e h j + 1) := by
  induction b with
  | zero => simp [printCells]
  | succ b ih =>
    have := le_printColumnWidth e h b i hi
    rw [printCells_succ, Finset.sum_range_succ, List.length_append, List.length_append,
      List.length_replicate, ih]
    omega

/-- Claim C25. On an `h x w` integer matrix `M` whose element `(i, j)` is `e i j`, `print`
appends to the stream exactly `h` lines, each ended by a newline (the text holds `h`
newlines, none of them inside a line); line `i` is, for `j = 0..w-1`, the decimal text of
`e i j` followed by `L_j - len(text) + 1` spaces, where `L_j` is the greatest text length
in column `j` (at least every length of the column, and one of them). Hence cell `b` starts
at the same offset `sum_{j<b} (L_j + 1)` in every line, and every line has the length
`sum_{j<w} (L_j + 1)`. -/
theorem print_spec (M : Matrix Int) (h w : Nat) (hM : M.HasShape h w)
    (e : Nat → Nat → Int) (he : ∀ i < h, ∀ j < w, M.get i j = .ok (e i j))
    (flux : List Char) :
    M.print flux = .ok (flux ++ (List.range h).flatMap fun i => printCells e h i w ++ ['\n']) ∧
    (∀ i, printCells e h i w = (List.range w).flatMap fun j => StreamOut.text (e i j) ++
      List.replicate (printColumnWidth e h j - (StreamOut.text (e i j)).length + 1) ' ') ∧
    ((List.range h).flatMap fun i => printCells e h i w ++ ['\n']).count '\n' = h ∧
    (∀ i, '\n' ∉ printCells e h i w) ∧
    (∀ i < h, ∀ j < w, (StreamOut.text (e i j)).length ≤ printColumnWidth e h j) ∧
    (∀ j < w, 1 ≤ h → ∃ i < h, printColumnWidth e h j = (StreamOut.text (e i j)).length) ∧
    (∀ i < h, ∀ b ≤ w,
      (printCells e h i b).length = ∑ j in Finset.range b, (printColumnWidth e h j + 1)) := by
  refine ⟨?_, fun _ => rfl, printLines_count e h w h, fun i => printCells_no_newline e h i w,
    fun i hi j _ => le_printColumnWidth e h j i hi,
    fun j _ hh => printColumnWidth_attained e h j hh,
    fun i hi b _ => printCells_length e h i b hi⟩
  exact print_eq M h w hM e (fun i hi j hj => by rw [← get_ofNat]; exact he i hi j hj) flux

theorem print_spec_witness :
    Matrix.print ({ array_ := [[1, 1], [1, 1]], height_ := 2, width_ := 2 } : Matrix Int) []
      = .ok "1 1 \n1 1 \n".toList :=
  (print_spec ({ array_ := [[1, 1], [1, 1]], height_ := 2, width_ := 2 } : Matrix Int) 2 2
    (by decide) (fun i j => elem [[1, 1], [1, 1]] i j)
    (fun i hi j hj => get_elem _ 2 2 i j (by decide) hi hj) []).1.trans rfl

end MatrixCpp
